import Mathlib

/-!
Verification of the gormgolden SQL query recording / normalization engine.

The Go sources are shallowly embedded over `List Char` (one Lean function per
Go function, same names where possible).  Go's `strings` helpers
(`TrimSpace`, `ReplaceAll`, `Index`, `LastIndex`, `Split`, `Contains`,
`HasPrefix`, `HasSuffix`, `TrimSuffix`) are embedded first; loops whose
termination is by length decrease are written with an explicit fuel that is
always instantiated with the string length (enough, since every iteration
strictly shortens the string), keeping every definition kernel-executable.
-/

namespace GormGolden

/-- Strings are modelled as lists of characters. -/
abbrev Str := List Char

/-- Go `unicode.IsSpace` restricted to ASCII (all inputs in this codebase are
ASCII): space, tab, newline, carriage return, vertical tab, form feed. -/
def goIsSpace (c : Char) : Bool :=
  c = ' ' || c = '\t' || c = '\n' || c = '\r' || c = '\x0b' || c = '\x0c'

/-- Go `strings.TrimSpace` (left part): drop leading whitespace. -/
def trimLeft (s : Str) : Str := s.dropWhile goIsSpace

/-- Go `strings.TrimSpace`: drop leading and trailing whitespace. -/
def trimSpace (s : Str) : Str :=
  ((trimLeft s).reverse.dropWhile goIsSpace).reverse

/-- Go `strings.HasPrefix`. -/
def goHasPre (s pat : Str) : Bool := pat.isPrefixOf s

/-- Go `strings.HasSuffix`. -/
def goHasSuf (s pat : Str) : Bool := pat.isSuffixOf s

/-- Go `strings.TrimSuffix`. -/
def trimSuffix (s pat : Str) : Str :=
  if goHasSuf s pat then s.take (s.length - pat.length) else s

/-- Go `strings.Contains s pat`: `pat` occurs as a contiguous substring. -/
def occursSub : Str → Str → Bool
  | [], pat => pat.isPrefixOf ([] : Str)
  | s@(_ :: t), pat => pat.isPrefixOf s || occursSub t pat

/-- Go `strings.Index s pat`: index of the first occurrence (`none` = -1). -/
def findSub : Str → Str → Option Nat
  | [], pat => if pat.isPrefixOf ([] : Str) then some 0 else none
  | s@(_ :: t), pat =>
    if pat.isPrefixOf s then some 0 else (findSub t pat).map (· + 1)

/-- Go `strings.LastIndex s pat`: index of the last occurrence. -/
def lastIndexSub (s pat : Str) : Option Nat :=
  (((List.range (s.length + 1)).filter
      (fun i => pat.isPrefixOf (s.drop i)))).getLast?

/-- Go `strings.ReplaceAll s old new` (fueled; `old` is never empty in this
codebase, so each step consumes at least one character and fuel
`s.length` suffices). -/
def replaceAllF (old new : Str) : Nat → Str → Str
  | 0, s => s
  | _ + 1, [] => []
  | n + 1, s@(c :: t) =>
    if old.isPrefixOf s then new ++ replaceAllF old new n (s.drop old.length)
    else c :: replaceAllF old new n t

/-- Go `strings.ReplaceAll`. -/
def replaceAll (s old new : Str) : Str := replaceAllF old new s.length s

/-- Go `strings.Split s sep` (fueled; `sep` is never empty here). -/
def splitOnSubF (sep : Str) : Nat → Str → List Str
  | 0, s => [s]
  | n + 1, s =>
    match findSub s sep with
    | none => [s]
    | some i => s.take i :: splitOnSubF sep n (s.drop (i + sep.length))

/-- Go `strings.Split`. -/
def splitOnSub (s sep : Str) : List Str := splitOnSubF sep (s.length + 1) s

/-- Go slice `s[a:b]` (total version: out-of-range indices clamp instead of
panicking; all executions relevant to the claims stay in range). -/
def sliceGo (s : Str) (a b : Nat) : Str := (s.take b).drop a

/-- Go byte-wise lexicographic `<` on strings (ASCII ⇒ char-wise). -/
def lexLt : Str → Str → Bool
  | [], [] => false
  | [], _ :: _ => true
  | _ :: _, [] => false
  | a :: s, b :: t => if a = b then lexLt s t else decide (a.toNat < b.toNat)

/-- Insertion into a list sorted by a strict comparator (used to model Go's
`sort` calls; all comparisons relevant to the claims are between elements
that are either equal or strictly ordered, where any comparison sort agrees). -/
def insertBy (lt : α → α → Bool) (x : α) : List α → List α
  | [] => [x]
  | y :: ys => if lt y x then y :: insertBy lt x ys else x :: y :: ys

/-- Insertion sort by a strict comparator. -/
def sortBy (lt : α → α → Bool) : List α → List α
  | [] => []
  | x :: xs => insertBy lt x (sortBy lt xs)

/-- Go `sort.Strings`. -/
def sortStrings (l : List Str) : List Str := sortBy lexLt l

/-- The backtick character (written by code point to keep source clean). -/
def backtick : Char := Char.ofNat 96

/-- `basicNormalize` (query_manager.go): trim, newlines/tabs to spaces,
collapse runs of spaces, tighten GORM v1 paren spacing. -/
def collapseSpacesF : Nat → Str → Str
  | 0, s => s
  | n + 1, s =>
    if occursSub s [' ', ' '] then collapseSpacesF n (replaceAll s [' ', ' '] [' '])
    else s

/-- The `for strings.Contains(query, "  ")` loop of `basicNormalize`. -/
def collapseSpaces (s : Str) : Str := collapseSpacesF s.length s

/-- Go `basicNormalize` from `QueryManager`. -/
def basicNormalize (query : Str) : Str :=
  let q1 := trimSpace query
  let q2 := replaceAll q1 ['\n'] [' ']
  let q3 := replaceAll q2 ['\t'] [' ']
  let q4 := collapseSpaces q3
  let q5 := replaceAll q4 ['(', ' '] ['(']
  replaceAll q5 [' ', ')'] [')']

/-- `[0-9A-Za-z]` of the charset-prefix regex. -/
def isAlnum (c : Char) : Bool :=
  ('0' ≤ c && c ≤ '9') || ('A' ≤ c && c ≤ 'Z') || ('a' ≤ c && c ≤ 'z')

/-- The literal marker `_UTF8MB4` of the charset-prefix regex. -/
def utf8mb4Marker : Str := ['_', 'U', 'T', 'F', '8', 'M', 'B', '4']

/-- `regexp.MustCompile("_UTF8MB4([0-9A-Za-z]+)").ReplaceAllString(s, "$1")`:
one left-to-right pass replacing each non-overlapping match of the marker
followed by a maximal non-empty alphanumeric run by just that run. -/
def utf8mb4ReplaceF : Nat → Str → Str
  | 0, s => s
  | _ + 1, [] => []
  | n + 1, s@(c :: t) =>
    if utf8mb4Marker.isPrefixOf s then
      let rest := s.drop utf8mb4Marker.length
      let payload := rest.takeWhile isAlnum
      if payload = [] then c :: utf8mb4ReplaceF n t
      else payload ++ utf8mb4ReplaceF n (rest.dropWhile isAlnum)
    else c :: utf8mb4ReplaceF n t

/-- Charset-prefix stripping pass of `normalizeForComparison`. -/
def utf8mb4Replace (s : Str) : Str := utf8mb4ReplaceF s.length s

/-- The clause rewriting inside `normalizeLimitClause`: comma form
`offset,count` becomes `count OFFSET offset` (just `count` when the offset
is `0`); a standard `count OFFSET 0` drops its offset. -/
def limitClauseRewrite (limitClause : Str) : Str :=
  if occursSub limitClause [','] then
    let parts := splitOnSub limitClause [',']
    if parts.length = 2 then
      let off := trimSpace (parts.getD 0 [])
      let count := trimSpace (parts.getD 1 [])
      if off = ['0'] then count else count ++ " OFFSET ".data ++ off
    else limitClause
  else if occursSub limitClause " OFFSET ".data then
    let parts := splitOnSub limitClause " OFFSET ".data
    if parts.length = 2 then
      let off := trimSpace (parts.getD 1 [])
      if off = ['0'] then trimSpace (parts.getD 0 []) else limitClause
    else limitClause
  else limitClause

/-- Go `normalizeLimitClause` (query_manager.go): rewrite the first
`LIMIT offset,count` to `LIMIT count OFFSET offset`, dropping a zero offset;
drop a redundant `OFFSET 0` from the standard form. -/
def normalizeLimitClause (query : Str) : Str :=
  match findSub query " LIMIT ".data with
  | none => query
  | some limitIdx =>
    let afterLimit := query.drop (limitIdx + 7)
    let limitEnd :=
      match findSub afterLimit [';'] with
      | none => afterLimit.length
      | some idx => idx
    let limitClause := trimSpace (afterLimit.take limitEnd)
    let remaining := afterLimit.drop limitEnd
    query.take limitIdx ++ " LIMIT ".data ++ limitClauseRewrite limitClause ++ remaining

/-- The join keywords searched by `extractJoinClauses`, in source order. -/
def joinKeywords : List Str :=
  [" LEFT OUTER JOIN ".data, " RIGHT OUTER JOIN ".data, " LEFT JOIN ".data,
   " RIGHT JOIN ".data, " INNER JOIN ".data, " JOIN ".data]

/-- All positions of non-overlapping occurrences of one keyword (the
per-keyword `for` loop of `extractJoinClauses`); `base` is the offset of `s`
in the full section. -/
def keywordPositionsF (kw : Str) : Nat → Nat → Str → List Nat
  | 0, _, _ => []
  | n + 1, base, s =>
    match findSub s kw with
    | none => []
    | some pos =>
      (base + pos) :: keywordPositionsF kw n (base + pos + kw.length) (s.drop (pos + kw.length))

/-- Positions of all non-overlapping occurrences of `kw` in `s`. -/
def keywordPositions (kw s : Str) : List Nat := keywordPositionsF kw (s.length + 1) 0 s

/-- Go `extractJoinClauses`: find every join keyword position, sort the
positions, and slice the section between consecutive positions. -/
def extractJoinClauses (fromSection : Str) : List Str :=
  let positions :=
    (joinKeywords.map (fun kw => keywordPositions kw fromSection)).flatten
  let sorted := sortBy (fun a b => decide (a < b)) positions
  (List.range sorted.length).map (fun i =>
    let start := sorted.getD i 0
    let e := if i + 1 < sorted.length then sorted.getD (i + 1) 0 else fromSection.length
    trimSpace (sliceGo fromSection start e))

/-- `strings.Split(s, sep)[0]`. -/
def splitFirstOn (s sep : Str) : Str := (splitOnSub s sep).headD s

/-- Go `extractJoinTypeAndTable`: classify a clause by its join keyword and
the table reference before ` ON ` (cut at ` AS `). -/
def extractJoinTypeAndTable (joinClause : Str) : Str × Str :=
  let p : Str × Str :=
    if goHasPre joinClause "LEFT OUTER JOIN ".data then
      ("LEFT".data, trimSpace (splitFirstOn (joinClause.drop 16) " ON ".data))
    else if goHasPre joinClause "LEFT JOIN ".data then
      ("LEFT".data, trimSpace (splitFirstOn (joinClause.drop 10) " ON ".data))
    else if goHasPre joinClause "RIGHT OUTER JOIN ".data then
      ("RIGHT".data, trimSpace (splitFirstOn (joinClause.drop 17) " ON ".data))
    else if goHasPre joinClause "RIGHT JOIN ".data then
      ("RIGHT".data, trimSpace (splitFirstOn (joinClause.drop 11) " ON ".data))
    else if goHasPre joinClause "INNER JOIN ".data then
      ("INNER".data, trimSpace (splitFirstOn (joinClause.drop 11) " ON ".data))
    else if goHasPre joinClause "JOIN ".data then
      ("INNER".data, trimSpace (splitFirstOn (joinClause.drop 5) " ON ".data))
    else ([], [])
  let tn :=
    match findSub p.2 " AS ".data with
    | some idx => p.2.take idx
    | none => p.2
  (p.1, tn)

/-- The `sort.Slice` comparator of `normalizeJoinOrder`: by join type, then
by table name. -/
def joinLt (a b : Str) : Bool :=
  let ta := extractJoinTypeAndTable a
  let tb := extractJoinTypeAndTable b
  if ta.1 ≠ tb.1 then lexLt ta.1 tb.1 else lexLt ta.2 tb.2

/-- Go `normalizeJoinOrder`: within the `FROM … (WHERE|ORDER BY|end)` span,
re-emit the extracted join clauses sorted by `(type, table)` after the text
up to the first ` JOIN ` (or ` LEFT `) occurrence. -/
def normalizeJoinOrder (query : Str) : Str :=
  match findSub query " FROM ".data with
  | none => query
  | some fromIdx =>
    let searchStart := fromIdx + 6
    let whereRel :=
      match findSub (query.drop searchStart) " WHERE ".data with
      | some i => i
      | none =>
        match findSub (query.drop searchStart) " ORDER BY ".data with
        | some i => i
        | none => query.length - searchStart
    let whereIdx := whereRel + searchStart
    let fromSection := sliceGo query fromIdx whereIdx
    let beforeFrom := query.take fromIdx
    let afterFromSection := query.drop whereIdx
    let joins := extractJoinClauses fromSection
    let sortedJoins := sortBy joinLt joins
    let firstJoinIdx :=
      match findSub fromSection " JOIN ".data with
      | some i => some i
      | none => findSub fromSection " LEFT ".data
    match firstJoinIdx with
    | none => query
    | some fj =>
      let mainTable := trimSpace (sliceGo fromSection 6 fj)
      beforeFrom ++ " FROM ".data ++ mainTable
        ++ (sortedJoins.map (fun j => ' ' :: j)).flatten ++ afterFromSection

/-- The wrapper check inside `flattenNestedParentheses`: scan all but the
last character; if depth returns to 0 at a `)` before the end the leading
paren is not a wrapper. -/
def wrapScan : Str → Int → Bool
  | [], _ => true
  | c :: t, d =>
    if c = '(' then wrapScan t (d + 1)
    else if c = ')' then (if d - 1 = 0 then false else wrapScan t (d - 1))
    else wrapScan t d

/-- The stripping loop of `flattenNestedParentheses` (fueled; each strip
removes at least two characters). -/
def flattenLoopF : Nat → Str → Str
  | 0, s => s
  | n + 1, s =>
    if s.length ≥ 2 && (s.headD ' ' = '(') && (s.getLastD ' ' = ')') then
      if wrapScan (s.take (s.length - 1)) 0 then
        flattenLoopF n (trimSpace (sliceGo s 1 (s.length - 1)))
      else s
    else s

/-- Go `flattenNestedParentheses`: repeatedly strip parentheses that wrap the
entire string. -/
def flattenNestedParentheses (s : Str) : Str := flattenLoopF s.length (trimSpace s)

/-- The stripping loop of `cleanCondition` (fueled). -/
def cleanCondLoopF : Nat → Str → Str
  | 0, c => c
  | n + 1, cond =>
    if cond.length > 0 && ((cond.headD ' ' = ')') || (cond.getLastD ' ' = '(')) then
      let c1 := if cond.headD ' ' = ')' then trimSpace (cond.drop 1) else cond
      let c2 :=
        if c1.length > 0 && c1.getLastD ' ' = '(' then trimSpace (c1.take (c1.length - 1))
        else c1
      cleanCondLoopF n c2
    else cond

/-- Go `cleanCondition`: trim, then strip orphaned leading `)` / trailing `(`. -/
def cleanCondition (cond : Str) : Str := cleanCondLoopF cond.length (trimSpace cond)

/-- Flushing a finished condition in `splitWhereConditions`. -/
def flushCond (cur : Str) (acc : List Str) : List Str :=
  if cur.length > 0 then
    let condStr := cleanCondition (trimSpace cur)
    if condStr ≠ [] then acc ++ [condStr] else acc
  else acc

/-- The scanning loop of `splitWhereConditions` (fueled; each step consumes
at least one character). -/
def splitWCF : Nat → Str → Str → Int → List Str → List Str
  | _, [], cur, _, acc => flushCond cur acc
  | 0, rem, cur, _, acc => flushCond (cur ++ rem) acc
  | n + 1, rem@(c :: t), cur, depth, acc =>
    if c = '(' then splitWCF n t (cur ++ [c]) (depth + 1) acc
    else if c = ')' then splitWCF n t (cur ++ [c]) (depth - 1) acc
    else if depth = 0 && " AND ".data.isPrefixOf rem then
      splitWCF n (rem.drop 5) [] depth (flushCond cur acc)
    else splitWCF n t (cur ++ [c]) depth acc

/-- Go `splitWhereConditions`: split on top-level ` AND ` tracking
parenthesis depth. -/
def splitWhereConditions (whereClause : Str) : List Str :=
  splitWCF (whereClause.length + 1) whereClause [] 0 []

/-- Go `flattenAndExtractConditions` (fueled; recursion depth is bounded by
the condition length since splitting strictly shortens every part). -/
def flattenAndExtractF : Nat → Str → List Str
  | 0, cond => [cond]
  | n + 1, cond =>
    let cond2 := flattenNestedParentheses cond
    let parts := splitWhereConditions cond2
    if parts.length > 1 then (parts.map (flattenAndExtractF n)).flatten
    else [cond2]

/-- Go `flattenAndExtractConditions`. -/
def flattenAndExtractConditions (cond : Str) : List Str :=
  flattenAndExtractF (cond.length + 1) cond

/-- Go `removeDuplicateConditions`: trim, drop empties, keep first occurrence. -/
def removeDupF : List Str → List Str → List Str
  | [], _ => []
  | c :: rest, seen =>
    let c2 := trimSpace c
    if c2 ≠ [] && !(seen.contains c2) then c2 :: removeDupF rest (c2 :: seen)
    else removeDupF rest seen

/-- Go `removeDuplicateConditions`. -/
def removeDuplicateConditions (conds : List Str) : List Str := removeDupF conds []

/-- The top-level-`AND` scan used by the "GORM v1 style" unwrapping of
`normalizeMainWhereClause`. -/
def andScan : Str → Int → Bool
  | [], _ => false
  | s@(c :: t), d =>
    if c = '(' then andScan t (d + 1)
    else if c = ')' then andScan t (d - 1)
    else if d = 0 && " AND ".data.isPrefixOf s then true
    else andScan t d

/-- Go `normalizeMainWhereClause`: locate the main WHERE clause (first
` WHERE ` after the last ` ON `, else after ` FROM `), unwrap it, split it
into top-level AND-conditions, recursively flatten, deduplicate, sort, and
rejoin. -/
def normalizeMainWhereClause (query : Str) : Str :=
  let searchStart :=
    match lastIndexSub query " ON ".data with
    | some i => i
    | none =>
      match findSub query " FROM ".data with
      | some i => i
      | none => 0
  match findSub (query.drop searchStart) " WHERE ".data with
  | none => query
  | some w =>
    let whereIdx := w + searchStart
    let whereStart := whereIdx + 7
    let whereEnd :=
      match findSub (query.drop whereStart) " ORDER BY ".data with
      | some i => whereStart + i
      | none =>
        match findSub (query.drop whereStart) " LIMIT ".data with
        | some i => whereStart + i
        | none => query.length
    let beforeWhere := query.take whereIdx
    let whereClause := sliceGo query whereStart whereEnd
    let afterWhere := query.drop whereEnd
    let (whereClause, afterWhere) :=
      if goHasSuf whereClause [';'] then
        (trimSpace (trimSuffix whereClause [';']),
         if goHasPre afterWhere [';'] then afterWhere else ';' :: afterWhere)
      else (whereClause, afterWhere)
    let whereClause := flattenNestedParentheses whereClause
    let whereClause := trimSpace whereClause
    let whereClause :=
      if whereClause.length ≥ 2 && (whereClause.headD ' ' = '(')
          && (whereClause.getLastD ' ' = ')') then
        let inner := trimSpace (sliceGo whereClause 1 (whereClause.length - 1))
        if occursSub inner " AND ".data && andScan inner 0 then inner else whereClause
      else whereClause
    let conditions := splitWhereConditions whereClause
    let flat := (conditions.map flattenAndExtractConditions).flatten
    let flat := removeDuplicateConditions flat
    let flat := sortStrings flat
    beforeWhere ++ " WHERE ".data ++ List.intercalate " AND ".data flat ++ afterWhere

/-- Go `normalizeForComparison`: the comparison-key pipeline. -/
def normalizeForComparison (query : Str) : Str :=
  let q1 := basicNormalize query
  let q2 := replaceAll q1 [backtick] []
  let q3 := utf8mb4Replace q2
  let q4 := normalizeLimitClause q3
  let q5 := normalizeJoinOrder q4
  let q6 := normalizeMainWhereClause q5
  let q7 := replaceAll q6 ['('] []
  replaceAll q7 [')'] []

/-- Go `CompareQueries`: equality of comparison keys. -/
def CompareQueries (query1 query2 : Str) : Bool :=
  normalizeForComparison query1 = normalizeForComparison query2

/-- String-level comparison key (`ComparisonKey` of the spec). -/
def comparisonKey (s : String) : String := String.mk (normalizeForComparison s.data)

/-! ## Canonicalizer (`normalize`) and the Query Ledger (`QueryManager`)

`normalize` calls the external TiDB parser (`parser.TrimComment`,
`parser.New().Parse`, `stmt.Restore`); that library is not part of this
repository, so it enters the embedding as an oracle: `trimComment` is the
comment stripper, and `parse q` returns `none` on a parse error or the list
of per-statement `Restore` results (`none` = restore error) on success. -/

structure ParserOracle where
  trimComment : String → String
  parse : String → Option (List (Option String))

/-- Collect all `Restore` results, failing if any statement fails. -/
def restoreAll : List (Option String) → Option (List String)
  | [] => some []
  | none :: _ => none
  | some s :: rest => (restoreAll rest).map (s :: ·)

/-- `basicNormalize` at `String` level. -/
def basicNormalizeS (s : String) : String := String.mk (basicNormalize s.data)

/-- Go `normalize` (query_manager.go): empty stays empty, comments stripped,
blank-after-stripping becomes empty, otherwise parse and reprint with
fallback to `basicNormalize` on a parse or restore error. -/
def normalizeQ (P : ParserOracle) (query : String) : String :=
  if query = "" then query
  else
    let q := P.trimComment query
    if trimSpace q.data = [] then ""
    else
      match P.parse q with
      | none => basicNormalizeS q
      | some stmts =>
        if stmts = [] then q
        else
          match restoreAll stmts with
          | none => basicNormalizeS q
          | some parts => String.intercalate "; " parts

/-- The `QueryManager` state: recorded queries and the recording gate
(the mutex serializes operations; the sequential model is the per-operation
semantics under that lock). -/
structure QMState where
  queries : List String
  enabled : Bool
  deriving DecidableEq, Repr

/-- Go `NewQueryManager`: empty ledger, recording enabled. -/
def newQueryManager : QMState := ⟨[], true⟩

/-- Go `AddQuery`: no-op when disabled or empty, else append the
canonicalized text. -/
def AddQuery (P : ParserOracle) (s : QMState) (query : String) : QMState :=
  if !s.enabled || query = "" then s
  else { s with queries := s.queries ++ [normalizeQ P query] }

/-- Go `Enable`. -/
def Enable (s : QMState) : QMState := { s with enabled := true }

/-- Go `Disable`. -/
def Disable (s : QMState) : QMState := { s with enabled := false }

/-- Go `Clear`. -/
def Clear (s : QMState) : QMState := { s with queries := [] }

/-- Go `GetQueries` (the snapshot; the Go code returns a fresh copy, so the
caller observes exactly this list). -/
def GetQueries (s : QMState) : List String := s.queries

/-- One ledger operation. -/
inductive QMOp where
  | add (q : String)
  | enable
  | disable
  | clear
  deriving DecidableEq, Repr

/-- Applying one operation. -/
def QMStep (P : ParserOracle) (s : QMState) : QMOp → QMState
  | .add q => AddQuery P s q
  | .enable => Enable s
  | .disable => Disable s
  | .clear => Clear s

/-- Running a sequence of operations. -/
def QMRun (P : ParserOracle) : QMState → List QMOp → QMState
  | s, [] => s
  | s, op :: ops => QMRun P (QMStep P s op) ops

/-! ## Golden comparator (`AssertGolden`'s decision logic)

`AssertGolden` is modelled in the situation its comparison logic runs in:
not in `-update` mode, the golden file exists and reads successfully with
content `goldenContent`; `golden.Assert` (gotest.tools) passes exactly when
the serialized text equals the file content. -/

/-- Go `SaveToFile` / `AssertGolden` serialization: join with `";\n"` and
append a trailing `";"` when non-empty. -/
def serializeQueries (qs : List String) : String :=
  let content := String.intercalate ";\n" qs
  if qs.length > 0 && content ≠ "" then content ++ ";" else content

/-- The golden side of `AssertGolden`'s normalized comparison: split the
blob on `";\n"` after trimming one trailing `";"`, drop blank fragments,
and take each fragment's comparison key. -/
def goldenNormalized (goldenContent : Str) : List Str :=
  (splitOnSub (trimSuffix goldenContent [';']) (';' :: ['\n'])).filterMap
    (fun q => if trimSpace q ≠ [] then some (normalizeForComparison q) else none)

/-- The pass/fail verdict of `AssertGolden`: an early pass when all
comparison keys match pairwise, otherwise `golden.Assert`'s strict text
equality. -/
def AssertGoldenDecision (queries : List String) (goldenContent : String) : Bool :=
  let content := serializeQueries queries
  let actualN := queries.map (fun q => normalizeForComparison q.data)
  let goldenN := goldenNormalized goldenContent.data
  if actualN.length = goldenN.length && actualN = goldenN then true
  else content = goldenContent

/-! ## Statement assembler (`buildFullSQL` / `formatValue`, gormgoldenv1) -/

/-- The single-quote character. -/
def squote : Char := Char.ofNat 39

/-- A non-pointer Go value as seen by `formatValue`'s type switch.  Times
carry their `"2006-01-02 15:04:05"` rendering and `pother` carries the
`fmt.Sprintf("%v", v)` rendering, since Go's formatting of opaque values is
not otherwise observable here. -/
inductive GoPrim where
  | pstr (s : String)
  | ptime (rendered : String)
  | pbytes (b : String)
  | pbool (b : Bool)
  | pother (rendered : String)
  deriving DecidableEq, Repr

/-- A Go `interface{}` argument: nil, a value, or a (single-level) pointer. -/
inductive GoValue where
  | vnil
  | vprim (p : GoPrim)
  | vptr (p : Option GoPrim)
  deriving DecidableEq, Repr

/-- `strings.ReplaceAll(val, "'", "''")`. -/
def escapeQuotes (s : Str) : Str := replaceAll s [squote] [squote, squote]

/-- The type switch of `formatValue` on a non-pointer value. -/
def formatPrim : GoPrim → Str
  | .pstr s => squote :: (escapeQuotes s.data ++ [squote])
  | .ptime r => squote :: (r.data ++ [squote])
  | .pbytes b => squote :: (escapeQuotes b.data ++ [squote])
  | .pbool true => "TRUE".data
  | .pbool false => "FALSE".data
  | .pother r => r.data

/-- Go `formatValue` (gormgoldenv1): nil and nil pointers print `NULL`,
pointers are dereferenced, then the type switch applies. -/
def formatValue : GoValue → Str
  | .vnil => "NULL".data
  | .vptr none => "NULL".data
  | .vptr (some p) => formatPrim p
  | .vprim p => formatPrim p

/-- One iteration of `buildFullSQL`'s loop: replace the first `?` (if any)
of the accumulated result with the formatted value. -/
def replaceFirstQ (result value : Str) : Str :=
  match findSub result ['?'] with
  | none => result
  | some idx => result.take idx ++ value ++ result.drop (idx + 1)

/-- The `for _, v := range vars` loop of `buildFullSQL`. -/
def buildLoop : Str → List GoValue → Str
  | r, [] => r
  | r, v :: vs => buildLoop (replaceFirstQ r (formatValue v)) vs

/-- Go `buildFullSQL` (gormgoldenv1). -/
def buildFullSQL (sql : Str) (vars : List GoValue) : Str :=
  if vars = [] then sql else buildLoop sql vars

/-- Modelled from the spec (§4.2 Statement Assembler): the contract's
left-to-right substitution — each template placeholder `?` is replaced by
the next formatted value, remaining placeholders are left unreplaced when
values run out, surplus values are ignored.  Used as the specification side
of the refinement comparison with `buildFullSQL`. -/
def substLTR : Str → List GoValue → Str
  | t, [] => t
  | t, v :: vs =>
    match findSub t ['?'] with
    | none => t
    | some i => t.take i ++ formatValue v ++ substLTR (t.drop (i + 1)) vs

/-! ## Concrete oracle used by witnesses -/

/-- Modelled from the spec: the comment stripping done by the external
TiDB `parser.TrimComment` (that library is not part of this repository):
`/* … */` block comments and `--` line comments are removed. -/
def trimCommentF : Nat → Str → Str
  | 0, s => s
  | _ + 1, [] => []
  | n + 1, s@(c :: t) =>
    if "/*".data.isPrefixOf s then
      match findSub s "*/".data with
      | some i => trimCommentF n (s.drop (i + 2))
      | none => []
    else if "--".data.isPrefixOf s then
      match findSub s ['\n'] with
      | some i => trimCommentF n (s.drop i)
      | none => []
    else c :: trimCommentF n t

/-- Modelled from the spec: comment stripping at `String` level. -/
def trimCommentModel (s : String) : String := String.mk (trimCommentF s.data.length s.data)

/-- A concrete parser oracle: the modelled comment stripper, and a parser
that always fails (exercising the textual fallback path). -/
def oracleModel : ParserOracle := ⟨trimCommentModel, fun _ => none⟩

/-! ## Claims -/

set_option maxRecDepth 40000

/-- C1, counterexample: on the spec's own concrete scenario — the bare
fragments `WHERE (`id`=1) AND (`name`='x')` and `WHERE `name`='x' AND `id`=1`
— `CompareQueries` returns `false`, not `true`: the main-WHERE pass looks for
the substring `" WHERE "` (with a leading space), which a query beginning
with `WHERE` does not contain, so the AND-conditions are never sorted. -/
theorem c1_counterexample :
    CompareQueries "WHERE (`id`=1) AND (`name`='x')".data
      "WHERE `name`='x' AND `id`=1".data = false := by decide

/-- C2, counterexample: a ledger whose serialized text differs from the
reference only by cosmetic parentheses is *passed* by `AssertGolden` (the
normalized comparison triggers the early `return`), even though the strict
serialized texts differ — so the verdict is not always based on exact text
equality and the ComparisonKey analysis does change the verdict. -/
theorem c2_counterexample :
    AssertGoldenDecision ["SELECT * FROM t WHERE (id=1)"]
        "SELECT * FROM t WHERE id=1;" = true
      ∧ serializeQueries ["SELECT * FROM t WHERE (id=1)"]
          ≠ "SELECT * FROM t WHERE id=1;" := by
  refine ⟨by decide, by decide⟩

/-- C2 (amended): `AssertGolden`'s verdict passes iff the pairwise
ComparisonKey lists match (the diagnostic comparison's early pass) **or**
the serialized text equals the reference exactly; a strict-text mismatch
whose sole difference is formatting therefore passes. -/
theorem c2_amended_verdict (qs : List String) (g : String) :
    AssertGoldenDecision qs g = true ↔
      (qs.map (fun q => normalizeForComparison q.data) = goldenNormalized g.data
        ∨ serializeQueries qs = g) := by
  by_cases h : qs.map (fun q => normalizeForComparison q.data) = goldenNormalized g.data
  · simp [AssertGoldenDecision, h]
  · simp [AssertGoldenDecision, h]

/-- C4, counterexample: two queries differing **only** in the source order of
their JOIN clauses (`JOIN b ON …` and `LEFT JOIN c ON …` swapped) get
different ComparisonKeys: the "main table" span is cut at the first
`" JOIN "` token, which falls inside `" LEFT JOIN "` when the LEFT JOIN
comes first, duplicating the `LEFT` keyword in one ordering but not the
other. -/
theorem c4_counterexample :
    comparisonKey "SELECT * FROM a JOIN b ON b.id=a.id LEFT JOIN c ON c.id=a.id"
      ≠ comparisonKey "SELECT * FROM a LEFT JOIN c ON c.id=a.id JOIN b ON b.id=a.id" := by
  decide

/-- C6, counterexample: only the literal marker `_UTF8MB4` is stripped, not
an arbitrary `_<CHARSETNAME>` prefix: a `_LATIN1` marker survives
normalization, so the keys differ. -/
theorem c6_counterexample :
    comparisonKey "x=_LATIN1ABC" ≠ comparisonKey "x=ABC" := by decide

/-- One non-clear step never removes or edits recorded entries. -/
theorem qmstep_extends (P : ParserOracle) (s : QMState) (op : QMOp)
    (h : op ≠ QMOp.clear) : s.queries <+: (QMStep P s op).queries := by
  cases op with
  | add q =>
    simp only [QMStep, AddQuery]
    split
    · exact List.prefix_refl _
    · exact ⟨[normalizeQ P q], rfl⟩
  | enable => exact List.prefix_refl _
  | disable => exact List.prefix_refl _
  | clear => exact absurd rfl h

/-- A clear-free run of operations only extends the recorded entries. -/
theorem qmrun_extends (P : ParserOracle) (s : QMState) (ops : List QMOp)
    (h : ∀ o ∈ ops, o ≠ QMOp.clear) : s.queries <+: (QMRun P s ops).queries := by
  induction ops generalizing s with
  | nil => exact List.prefix_refl _
  | cons op ops ih =>
    exact (qmstep_extends P s op (h op (List.mem_cons_self op ops))).trans
      (ih (QMStep P s op) (fun o ho => h o (List.mem_cons_of_mem op ho)))

/-- C7 (confirmed): the ledger's entries change only by appending (via
`AddQuery` while recording is enabled) or by being emptied (via `Clear`);
after `Disable`, `AddQuery` is a no-op and the snapshot is unchanged; after
`Enable`, `AddQuery` appends normally; every non-clear step keeps the old
snapshot as a prefix (no entry is mutated or removed), and over any
clear-free run the snapshot only extends, so its length only increases. -/
theorem c7_ledger_invariant (P : ParserOracle) (s : QMState) (q : String)
    (op : QMOp) (ops : List QMOp) :
    (GetQueries (QMStep P (Disable s) (QMOp.add q)) = GetQueries s
        ∧ QMStep P (Disable s) (QMOp.add q) = Disable s)
    ∧ ((Enable s).enabled = true
        ∧ (q ≠ "" →
            GetQueries (QMStep P (Enable s) (QMOp.add q))
              = GetQueries s ++ [normalizeQ P q]))
    ∧ (op ≠ QMOp.clear → GetQueries s <+: GetQueries (QMStep P s op))
    ∧ GetQueries (QMStep P s QMOp.clear) = []
    ∧ ((∀ o ∈ ops, o ≠ QMOp.clear) →
        GetQueries s <+: GetQueries (QMRun P s ops)
          ∧ (GetQueries s).length ≤ (GetQueries (QMRun P s ops)).length) := by
  refine ⟨⟨?_, ?_⟩, ⟨rfl, fun hq => ?_⟩, fun hop => qmstep_extends P s op hop, rfl,
    fun hops => ?_⟩
  · simp [QMStep, AddQuery, Disable, GetQueries]
  · simp [QMStep, AddQuery, Disable]
  · simp [QMStep, AddQuery, Enable, GetQueries, hq]
  · exact ⟨qmrun_extends P s ops hops, (qmrun_extends P s ops hops).length_le⟩

/-- C7, witness: concrete instances — adding to a disabled ledger leaves the
snapshot unchanged, adding after `Enable` appends, and a concrete clear-free
run extends the snapshot. -/
theorem c7_witness :
    GetQueries (QMStep oracleModel (Disable ⟨["a"], true⟩) (QMOp.add "SELECT 1"))
        = GetQueries (⟨["a"], true⟩ : QMState)
      ∧ GetQueries (QMStep oracleModel (Enable ⟨["a"], false⟩) (QMOp.add "SELECT 1"))
          = GetQueries (⟨["a"], false⟩ : QMState)
              ++ [normalizeQ oracleModel "SELECT 1"]
      ∧ GetQueries (⟨["a"], true⟩ : QMState)
          <+: GetQueries (QMRun oracleModel ⟨["a"], true⟩
                [QMOp.add "x", QMOp.enable, QMOp.add "y"]) :=
  ⟨(c7_ledger_invariant oracleModel ⟨["a"], true⟩ "SELECT 1" QMOp.enable []).1.1,
   (c7_ledger_invariant oracleModel ⟨["a"], false⟩ "SELECT 1" QMOp.enable []).2.1.2
     (by decide),
   ((c7_ledger_invariant oracleModel ⟨["a"], true⟩ "x" QMOp.enable
       [QMOp.add "x", QMOp.enable, QMOp.add "y"]).2.2.2.2
     (by decide)).1⟩

/-- C8 (confirmed): the Canonicalizer is total — every branch of `normalize`
returns a string: empty input stays empty, input that is blank after comment
stripping becomes empty, a parse error or a restore error falls back to
`basicNormalize`, an (impossible in practice) empty statement list returns
the comment-stripped input, and a successful parse+restore returns the
reprinted statements joined with `"; "`. -/
theorem c8_canonicalizer_total (P : ParserOracle) (q : String) :
    normalizeQ P "" = ""
    ∧ (trimSpace (P.trimComment q).data = [] → normalizeQ P q = "")
    ∧ (q ≠ "" → trimSpace (P.trimComment q).data ≠ [] →
        P.parse (P.trimComment q) = none →
        normalizeQ P q = basicNormalizeS (P.trimComment q))
    ∧ (∀ stmts, q ≠ "" → trimSpace (P.trimComment q).data ≠ [] →
        P.parse (P.trimComment q) = some stmts → stmts ≠ [] →
        restoreAll stmts = none →
        normalizeQ P q = basicNormalizeS (P.trimComment q))
    ∧ (∀ stmts parts, q ≠ "" → trimSpace (P.trimComment q).data ≠ [] →
        P.parse (P.trimComment q) = some stmts → stmts ≠ [] →
        restoreAll stmts = some parts →
        normalizeQ P q = String.intercalate "; " parts)
    ∧ (q ≠ "" → trimSpace (P.trimComment q).data ≠ [] →
        P.parse (P.trimComment q) = some [] → normalizeQ P q = P.trimComment q) := by
  refine ⟨rfl, fun hblank => ?_, fun hq hnb hp => ?_, fun stmts hq hnb hp hne hr => ?_,
    fun stmts parts hq hnb hp hne hr => ?_, fun hq hnb hp => ?_⟩
  · by_cases hq : q = ""
    · subst hq; rfl
    · simp [normalizeQ, hq, hblank]
  · simp [normalizeQ, hq, hnb, hp]
  · simp [normalizeQ, hq, hnb, hp, hne, hr]
  · simp [normalizeQ, hq, hnb, hp, hne, hr]
  · simp [normalizeQ, hq, hnb, hp]

/-- C8, witness: with the modelled comment stripper and an always-failing
parser — a comment-plus-whitespace input canonicalizes to the empty string,
and an unparseable non-blank input takes the `basicNormalize` fallback. -/
theorem c8_witness :
    trimSpace (oracleModel.trimComment "/* note */   ").data = []
      ∧ normalizeQ oracleModel "/* note */   " = ""
      ∧ normalizeQ oracleModel "NOT  SQL((" = basicNormalizeS "NOT  SQL((" :=
  ⟨by decide,
   (c8_canonicalizer_total oracleModel "/* note */   ").2.1 (by decide),
   (c8_canonicalizer_total oracleModel "NOT  SQL((").2.2.1 (by decide) (by decide) rfl⟩

/-- C10 (confirmed): `AddQuery` canonicalizes internally — the element
appended while recording is enabled is `normalize q`, not `q`; an input that
is blank after comment stripping normalizes to the empty string, so a
comment-only query is appended as `""`; empty inputs themselves are rejected
by the gate. -/
theorem c10_addquery_normalizes (P : ParserOracle) (s : QMState) (q : String) :
    (s.enabled = true → q ≠ "" →
        GetQueries (AddQuery P s q) = GetQueries s ++ [normalizeQ P q])
    ∧ (q ≠ "" → trimSpace (P.trimComment q).data = [] → normalizeQ P q = "")
    ∧ AddQuery P s "" = s := by
  refine ⟨fun he hq => ?_, fun hq hblank => ?_, ?_⟩
  · simp [AddQuery, GetQueries, he, hq]
  · simp [normalizeQ, hq, hblank]
  · simp [AddQuery]

/-- C10, witness: a comment-only query is appended to a fresh ledger as the
empty string, and the empty query is rejected. -/
theorem c10_witness :
    GetQueries (AddQuery oracleModel newQueryManager "/* only a comment */")
        = GetQueries newQueryManager ++ [normalizeQ oracleModel "/* only a comment */"]
      ∧ normalizeQ oracleModel "/* only a comment */" = ""
      ∧ AddQuery oracleModel newQueryManager "" = newQueryManager := by
  have h := c10_addquery_normalizes oracleModel newQueryManager "/* only a comment */"
  exact ⟨h.1 rfl (by decide), h.2.1 (by decide) (by decide),
    (c10_addquery_normalizes oracleModel newQueryManager "").2.2⟩

/-! ## Placeholder substitution lemmas (C9) -/

/-- A single-character pattern is a prefix of `a :: t` iff it equals `a`. -/
theorem isPrefixOf_singleton_cons (c a : Char) (t : Str) :
    ([c].isPrefixOf (a :: t)) = (c == a) := by
  simp [List.isPrefixOf]

/-- If `c` does not occur in `s` there is no first occurrence. -/
theorem findSub_singleton_none {c : Char} {s : Str} (h : c ∉ s) :
    findSub s [c] = none := by
  induction s with
  | nil => rfl
  | cons a t ih =>
    have hca : ([c].isPrefixOf (a :: t)) = false := by
      rw [isPrefixOf_singleton_cons]
      simp only [beq_eq_false_iff_ne, ne_eq]
      exact fun hc => h (hc ▸ List.mem_cons_self c t)
    simp only [findSub, hca, Bool.false_eq_true, if_false,
      ih (fun hm => h (List.mem_cons_of_mem a hm)), Option.map_none']

/-- The converse: no first occurrence means no occurrence at all. -/
theorem not_mem_of_findSub_none {c : Char} :
    ∀ {s : Str}, findSub s [c] = none → c ∉ s := by
  intro s
  induction s with
  | nil => intro _ hm; simp at hm
  | cons a t ih =>
    intro hf hm
    simp only [findSub] at hf
    split at hf
    · exact absurd hf (by simp)
    · rename_i hpre
      rcases List.mem_cons.mp hm with hx | ht
      · rw [isPrefixOf_singleton_cons] at hpre
        exact hpre (by simp [hx])
      · cases hft : findSub t [c] with
        | none => exact ih hft ht
        | some j => rw [hft] at hf; simp at hf

/-- Prepending `c`-free text shifts the first occurrence of `c`. -/
theorem findSub_singleton_append {c : Char} {pre : Str} (t : Str) (h : c ∉ pre) :
    findSub (pre ++ t) [c] = (findSub t [c]).map (· + pre.length) := by
  induction pre with
  | nil =>
    simp only [List.nil_append, List.length_nil]
    cases findSub t [c] <;> rfl
  | cons a pre ih =>
    have hca : ([c].isPrefixOf (a :: (pre ++ t))) = false := by
      rw [isPrefixOf_singleton_cons]
      simp only [beq_eq_false_iff_ne, ne_eq]
      exact fun hc => h (hc ▸ List.mem_cons_self c pre)
    have ih2 := ih (fun hm => h (List.mem_cons_of_mem a hm))
    show findSub (a :: (pre ++ t)) [c] = _
    simp only [findSub, hca, Bool.false_eq_true, if_false, ih2, Option.map_map,
      List.length_cons]
    cases findSub t [c] with
    | none => rfl
    | some i =>
      simp only [Option.map_some', Function.comp_apply]
      exact congrArg some (by omega)

/-- A first occurrence decomposes the string: `c`-free part, `c`, rest. -/
theorem findSub_singleton_some {c : Char} :
    ∀ {s : Str} {i : Nat}, findSub s [c] = some i →
      ∃ a b, s = a ++ c :: b ∧ a.length = i ∧ c ∉ a := by
  intro s
  induction s with
  | nil =>
    intro i hi
    simp only [findSub] at hi
    split at hi
    · simp_all [List.isPrefixOf]
    · exact absurd hi (by simp)
  | cons x t ih =>
    intro i hi
    simp only [findSub] at hi
    split at hi
    · rename_i hpre
      rw [isPrefixOf_singleton_cons] at hpre
      have hcx : c = x := eq_of_beq hpre
      have hi0 : i = 0 := by simpa using hi.symm
      exact ⟨[], t, by simp [hcx], by simp [hi0], by simp⟩
    · cases hft : findSub t [c] with
      | none => rw [hft] at hi; exact absurd hi (by simp)
      | some j =>
        rw [hft] at hi
        simp only [Option.map_some', Option.some.injEq] at hi
        obtain ⟨a, b, hab, hlen, hna⟩ := ih hft
        rename_i hpre
        rw [isPrefixOf_singleton_cons] at hpre
        refine ⟨x :: a, b, by simp [hab], by simp [hlen, ← hi], ?_⟩
        intro hm
        rcases List.mem_cons.mp hm with hx | ha
        · exact hpre (by simp [hx])
        · exact hna ha

/-- Replacing the first `?` after a `?`-free prefix happens in the suffix. -/
theorem replaceFirstQ_append (pre t v : Str) (h : '?' ∉ pre) :
    replaceFirstQ (pre ++ t) v = pre ++ replaceFirstQ t v := by
  unfold replaceFirstQ
  rw [findSub_singleton_append t h]
  cases hf : findSub t ['?'] with
  | none => simp
  | some i =>
    simp only [Option.map_some']
    rw [Nat.add_comm i pre.length, List.take_append, List.append_assoc,
      show pre.length + i + 1 = pre.length + (i + 1) by omega, List.drop_append]
    simp [List.append_assoc]

/-- With no `?` in the template the whole loop is a no-op. -/
theorem buildLoop_no_placeholder (t : Str) (vs : List GoValue) (h : '?' ∉ t) :
    buildLoop t vs = t := by
  induction vs with
  | nil => rfl
  | cons v vs ih =>
    simp only [buildLoop, replaceFirstQ, findSub_singleton_none h, ih]

/-- A `?`-free prefix is untouched by the whole loop, provided the formatted
values are `?`-free too. -/
theorem buildLoop_append (pre : Str) (t : Str) (vs : List GoValue)
    (hpre : '?' ∉ pre) (hv : ∀ v ∈ vs, '?' ∉ formatValue v) :
    buildLoop (pre ++ t) vs = pre ++ buildLoop t vs := by
  induction vs generalizing t with
  | nil => rfl
  | cons v vs ih =>
    simp only [buildLoop, replaceFirstQ_append pre t (formatValue v) hpre]
    exact ih (replaceFirstQ t (formatValue v))
      (fun w hw => hv w (List.mem_cons_of_mem v hw))

/-- C9, counterexample: the claimed contract ("placeholders in the template
are replaced left-to-right, one value per placeholder") fails when a
formatted value itself contains `?`: the loop re-scans its own output, so
the `?` inside the first inserted string literal swallows the second value
and the second template placeholder survives. -/
theorem c9_counterexample :
    buildFullSQL "a=? AND b=?".data
        [GoValue.vprim (GoPrim.pstr "x?y"), GoValue.vprim (GoPrim.pother "2")]
      ≠ substLTR "a=? AND b=?".data
        [GoValue.vprim (GoPrim.pstr "x?y"), GoValue.vprim (GoPrim.pother "2")] := by
  decide

/-- C9 (amended): provided no formatted value contains `?`, `buildFullSQL`
realizes exactly the claimed contract `substLTR`: placeholders are replaced
left-to-right with one formatted value each, leftover `?` stay unreplaced
when values run out (no error), and surplus values are ignored. -/
theorem c9_amended_assembler (sql : Str) (vars : List GoValue)
    (h : ∀ v ∈ vars, '?' ∉ formatValue v) :
    buildFullSQL sql vars = substLTR sql vars := by
  have main : ∀ (vs : List GoValue) (t : Str),
      (∀ v ∈ vs, '?' ∉ formatValue v) → buildLoop t vs = substLTR t vs := by
    intro vs
    induction vs with
    | nil => intro t _; rfl
    | cons v vs ih =>
      intro t hv
      have hvtail : ∀ w ∈ vs, '?' ∉ formatValue w :=
        fun w hw => hv w (List.mem_cons_of_mem v hw)
      simp only [buildLoop, substLTR, replaceFirstQ]
      cases hf : findSub t ['?'] with
      | none =>
        simp only [hf]
        exact buildLoop_no_placeholder t vs (not_mem_of_findSub_none hf)
      | some i =>
        simp only [hf]
        obtain ⟨a, b, rfl, hlen, hna⟩ := findSub_singleton_some hf
        subst hlen
        have htake : List.take a.length (a ++ '?' :: b) = a := List.take_left a _
        have hdrop : List.drop (a.length + 1) (a ++ '?' :: b) = b := by
          rw [List.drop_append 1]
          rfl
        rw [htake, hdrop]
        have hpre : '?' ∉ a ++ formatValue v := by
          intro hm
          rcases List.mem_append.mp hm with hma | hmv
          · exact hna hma
          · exact hv v (List.mem_cons_self v vs) hmv
        rw [buildLoop_append (a ++ formatValue v) b vs hpre hvtail, ih b hvtail]
  cases vars with
  | nil => rfl
  | cons v vs =>
    simp only [buildFullSQL, if_neg (by simp : ¬(v :: vs = []))]
    exact main (v :: vs) sql h

/-- C9, witness: a concrete assembly with `?`-free formatted values, with
more placeholders than values on one side and surplus values on the other,
follows the contract. -/
theorem c9_witness :
    buildFullSQL "a=? AND b=? AND c=?".data
        [GoValue.vprim (GoPrim.pstr "x"), GoValue.vnil]
      = substLTR "a=? AND b=? AND c=?".data
        [GoValue.vprim (GoPrim.pstr "x"), GoValue.vnil]
    ∧ buildFullSQL "a=?".data [GoValue.vprim (GoPrim.pbool true), GoValue.vnil]
      = substLTR "a=?".data [GoValue.vprim (GoPrim.pbool true), GoValue.vnil] :=
  ⟨c9_amended_assembler _ _ (by decide), c9_amended_assembler _ _ (by decide)⟩

/-! ## LIMIT canonicalization lemmas (C5) -/

/-- `strings.Contains s [c]` is membership. -/
theorem occursSub_singleton {c : Char} : ∀ {s : Str}, occursSub s [c] = true ↔ c ∈ s := by
  intro s
  induction s with
  | nil => simp [occursSub, List.isPrefixOf]
  | cons a t ih =>
    simp only [occursSub, isPrefixOf_singleton_cons, Bool.or_eq_true, beq_iff_eq,
      List.mem_cons, ih]

/-- Non-membership makes `Contains` false. -/
theorem occursSub_singleton_false {c : Char} {s : Str} (h : c ∉ s) :
    occursSub s [c] = false := by
  cases ho : occursSub s [c] with
  | false => rfl
  | true => exact absurd (occursSub_singleton.mp ho) h

/-- A found index witnesses `Contains`. -/
theorem occursSub_of_findSub_some {pat : Str} :
    ∀ {s : Str} {i : Nat}, findSub s pat = some i → occursSub s pat = true := by
  intro s
  induction s with
  | nil =>
    intro i h
    simp only [findSub] at h
    split at h
    · rename_i hp; simp [occursSub, hp]
    · exact absurd h (by simp)
  | cons a t ih =>
    intro i h
    simp only [findSub] at h
    split at h
    · rename_i hp; simp [occursSub, hp]
    · cases hft : findSub t pat with
      | none => rw [hft] at h; exact absurd h (by simp)
      | some j => simp [occursSub, ih hft]

/-- `strings.Split` on a string with exactly one (leftmost-at-`|b|`)
separator occurrence yields the two surrounding parts. -/
theorem splitOnSub_two (sep b r : Str) (hsep : sep ≠ [])
    (h1 : findSub (b ++ sep ++ r) sep = some b.length)
    (h2 : findSub r sep = none) :
    splitOnSub (b ++ sep ++ r) sep = [b, r] := by
  have htake : (b ++ sep ++ r).take b.length = b := by
    rw [List.append_assoc, List.take_left]
  have hdrop : (b ++ sep ++ r).drop (b.length + sep.length) = r := by
    rw [show b.length + sep.length = (b ++ sep).length by simp, List.drop_left]
  show splitOnSubF sep ((b ++ sep ++ r).length + 1) (b ++ sep ++ r) = [b, r]
  simp only [splitOnSubF, h1, htake, hdrop]
  obtain ⟨x, xs, rfl⟩ : ∃ x xs, sep = x :: xs := by
    cases sep with
    | nil => exact absurd rfl hsep
    | cons x xs => exact ⟨x, xs, rfl⟩
  have hm : (b ++ (x :: xs) ++ r).length = (b.length + xs.length + r.length) + 1 := by
    simp only [List.length_append, List.length_cons]
    omega
  rw [hm]
  simp only [splitOnSubF, h2]

/-- The framing of `normalizeLimitClause`: when the first ` LIMIT ` occurs
right after `p` and the trailing clause has no `;` and is trim-stable, the
function rewrites exactly the clause. -/
theorem normalizeLimitClause_frame (p rest : Str)
    (h1 : findSub (p ++ " LIMIT ".data ++ rest) " LIMIT ".data = some p.length)
    (hsc : ';' ∉ rest) (htr : trimSpace rest = rest) :
    normalizeLimitClause (p ++ " LIMIT ".data ++ rest)
      = p ++ " LIMIT ".data ++ limitClauseRewrite rest := by
  have hdrop : List.drop (p.length + 7) (p ++ (" LIMIT ".data ++ rest)) = rest := by
    rw [List.drop_append 7,
      show (7 : Nat) = (" LIMIT ".data : Str).length from rfl, List.drop_left]
  have htake : List.take p.length (p ++ (" LIMIT ".data ++ rest)) = p :=
    List.take_left p _
  unfold normalizeLimitClause
  rw [h1]
  simp only [List.append_assoc, hdrop, htake, findSub_singleton_none hsc,
    List.take_length, htr, List.drop_length, List.append_nil]

/-- The comma form `offset,count` is rewritten to `count OFFSET offset`,
or just `count` when the offset is literally `0`. -/
theorem limitClauseRewrite_comma (a b : Str) (hca : ',' ∉ a) (hcb : ',' ∉ b)
    (hta : trimSpace a = a) (htb : trimSpace b = b) :
    limitClauseRewrite (a ++ ',' :: b)
      = if a = ['0'] then b else b ++ " OFFSET ".data ++ a := by
  have hofind : findSub (a ++ [','] ++ b) [','] = some a.length := by
    rw [List.append_assoc, findSub_singleton_append ([','] ++ b) hca]
    have : findSub ([','] ++ b) [','] = some 0 := by
      cases b <;> simp [findSub, List.isPrefixOf]
    rw [this]
    simp
  have hsplit : splitOnSub (a ++ ',' :: b) [','] = [a, b] := by
    have h := splitOnSub_two [','] a b (by simp) (by simpa using hofind)
      (findSub_singleton_none hcb)
    simpa using h
  have hocc : occursSub (a ++ ',' :: b) [','] = true :=
    occursSub_singleton.mpr (by simp)
  unfold limitClauseRewrite
  simp only [hocc, if_true, hsplit]
  simp [List.getD, hta, htb]

/-- The standard form `count OFFSET 0` drops its redundant offset. -/
theorem limitClauseRewrite_offset0 (b : Str)
    (hfo : findSub (b ++ " OFFSET 0".data) " OFFSET ".data = some b.length)
    (hcb : ',' ∉ b) (htb : trimSpace b = b) :
    limitClauseRewrite (b ++ " OFFSET 0".data) = b := by
  have hnc : occursSub (b ++ " OFFSET 0".data) [','] = false := by
    refine occursSub_singleton_false ?_
    intro hm
    rcases List.mem_append.mp hm with h1 | h2
    · exact hcb h1
    · exact absurd h2 (by decide)
  have hoc : occursSub (b ++ " OFFSET 0".data) " OFFSET ".data = true :=
    occursSub_of_findSub_some hfo
  have hshape : b ++ " OFFSET 0".data = b ++ " OFFSET ".data ++ ['0'] := by
    rw [List.append_assoc]
    rfl
  have hsplit : splitOnSub (b ++ " OFFSET 0".data) " OFFSET ".data = [b, ['0']] := by
    rw [hshape]
    exact splitOnSub_two " OFFSET ".data b ['0'] (by decide)
      (by rw [← hshape]; exact hfo) (by decide)
  have h0 : trimSpace ['0'] = ['0'] := by decide
  unfold limitClauseRewrite
  simp only [hnc, Bool.false_eq_true, if_false, hoc, if_true, hsplit]
  simp [List.getD, htb, h0]

/-- C5 (confirmed): LIMIT canonicalization — with the first ` LIMIT ` right
after the prefix `p` and a well-formed clause: the comma form
`LIMIT <a>,<b>` becomes `LIMIT <b> OFFSET <a>`, except `<a> = 0` which
becomes `LIMIT <b>`; a standard `LIMIT <b> OFFSET 0` also drops its offset;
consequently the two ComparisonKey equalities of the spec hold. -/
theorem c5_limit_canonicalization :
    (∀ p a b : Str,
        findSub (p ++ " LIMIT ".data ++ (a ++ ',' :: b)) " LIMIT ".data = some p.length →
        ',' ∉ a → ',' ∉ b → ';' ∉ a → ';' ∉ b →
        trimSpace (a ++ ',' :: b) = a ++ ',' :: b →
        trimSpace a = a → trimSpace b = b → a ≠ ['0'] →
        normalizeLimitClause (p ++ " LIMIT ".data ++ (a ++ ',' :: b))
          = p ++ " LIMIT ".data ++ (b ++ " OFFSET ".data ++ a))
    ∧ (∀ p b : Str,
        findSub (p ++ " LIMIT ".data ++ ('0' :: ',' :: b)) " LIMIT ".data = some p.length →
        ',' ∉ b → ';' ∉ b →
        trimSpace ('0' :: ',' :: b) = '0' :: ',' :: b → trimSpace b = b →
        normalizeLimitClause (p ++ " LIMIT ".data ++ ('0' :: ',' :: b))
          = p ++ " LIMIT ".data ++ b)
    ∧ (∀ p b : Str,
        findSub (p ++ " LIMIT ".data ++ (b ++ " OFFSET 0".data)) " LIMIT ".data
            = some p.length →
        findSub (b ++ " OFFSET 0".data) " OFFSET ".data = some b.length →
        ',' ∉ b → ';' ∉ b →
        trimSpace (b ++ " OFFSET 0".data) = b ++ " OFFSET 0".data → trimSpace b = b →
        normalizeLimitClause (p ++ " LIMIT ".data ++ (b ++ " OFFSET 0".data))
          = p ++ " LIMIT ".data ++ b)
    ∧ comparisonKey "SELECT * FROM t LIMIT 10,20"
        = comparisonKey "SELECT * FROM t LIMIT 20 OFFSET 10"
    ∧ comparisonKey "SELECT * FROM t LIMIT 5 OFFSET 0"
        = comparisonKey "SELECT * FROM t LIMIT 5" := by
  refine ⟨?_, ?_, ?_, by decide, by decide⟩
  · intro p a b h1 hca hcb hsa hsb htr hta htb hz
    have hsc : ';' ∉ a ++ ',' :: b := by
      intro hm
      rcases List.mem_append.mp hm with h1 | h2
      · exact hsa h1
      · rcases List.mem_cons.mp h2 with h3 | h4
        · exact absurd h3 (by decide)
        · exact hsb h4
    rw [normalizeLimitClause_frame p _ h1 hsc htr,
      limitClauseRewrite_comma a b hca hcb hta htb, if_neg hz]
  · intro p b h1 hcb hsb htr htb
    have hsc : ';' ∉ ('0' :: ',' :: b) := by
      intro hm
      rcases List.mem_cons.mp hm with h2 | h3
      · exact absurd h2 (by decide)
      · rcases List.mem_cons.mp h3 with h4 | h5
        · exact absurd h4 (by decide)
        · exact hsb h5
    rw [normalizeLimitClause_frame p _ h1 hsc htr,
      show ('0' :: ',' :: b) = ['0'] ++ ',' :: b from rfl,
      limitClauseRewrite_comma ['0'] b (by decide) hcb (by decide) htb, if_pos rfl]
  · intro p b h1 hfo hcb hsb htr htb
    have hsc : ';' ∉ b ++ " OFFSET 0".data := by
      intro hm
      rcases List.mem_append.mp hm with h2 | h3
      · exact hsb h2
      · exact absurd h3 (by decide)
    rw [normalizeLimitClause_frame p _ h1 hsc htr,
      limitClauseRewrite_offset0 b hfo hcb htb]

/-- C5, witness: the two concrete rewrites with prefix `SELECT * FROM t`. -/
theorem c5_witness :
    normalizeLimitClause
        ("SELECT * FROM t".data ++ " LIMIT ".data ++ ("10".data ++ ',' :: "20".data))
      = "SELECT * FROM t".data ++ " LIMIT ".data
          ++ ("20".data ++ " OFFSET ".data ++ "10".data)
    ∧ normalizeLimitClause
        ("SELECT * FROM t".data ++ " LIMIT ".data ++ ("5".data ++ " OFFSET 0".data))
      = "SELECT * FROM t".data ++ " LIMIT ".data ++ "5".data :=
  ⟨c5_limit_canonicalization.1 "SELECT * FROM t".data "10".data "20".data
      (by decide) (by decide) (by decide) (by decide) (by decide) (by decide)
      (by decide) (by decide) (by decide),
   c5_limit_canonicalization.2.2.1 "SELECT * FROM t".data "5".data
      (by decide) (by decide) (by decide) (by decide) (by decide) (by decide)⟩

/-! ## Comparison-normalizer idempotence lemmas (C3) -/

/-- If the pattern never occurs, `ReplaceAll` is the identity (any fuel). -/
theorem replaceAll_eq_self_of_not_occurs {pat rep : Str} :
    ∀ (n : Nat) {s : Str}, occursSub s pat = false → replaceAllF pat rep n s = s := by
  intro n
  induction n with
  | zero => intro s _; rfl
  | succ n ih =>
    intro s h
    cases s with
    | nil => rfl
    | cons c t =>
      simp only [occursSub, Bool.or_eq_false_iff] at h
      simp only [replaceAllF, h.1, Bool.false_eq_true, if_false, ih h.2]

/-- A pattern containing a character absent from the string never occurs. -/
theorem occursSub_false_of_not_mem {a : Char} {pat : Str} (ha : a ∈ pat) :
    ∀ {s : Str}, a ∉ s → occursSub s pat = false := by
  intro s
  induction s with
  | nil =>
    intro _
    cases pat with
    | nil => simp at ha
    | cons p ps => rfl
  | cons c t ih =>
    intro hs
    have h1 : pat.isPrefixOf (c :: t) = false := by
      cases hip : pat.isPrefixOf (c :: t) with
      | false => rfl
      | true => exact absurd ((List.isPrefixOf_iff_prefix.mp hip).subset ha) hs
    simp [occursSub, h1, ih (fun hm => hs (List.mem_cons_of_mem c hm))]

/-- `Index` finds nothing when `Contains` is false. -/
theorem findSub_none_of_not_occurs {pat : Str} :
    ∀ {s : Str}, occursSub s pat = false → findSub s pat = none := by
  intro s
  induction s with
  | nil =>
    intro h
    simp only [occursSub] at h
    simp [findSub, h]
  | cons c t ih =>
    intro h
    simp only [occursSub, Bool.or_eq_false_iff] at h
    simp [findSub, h.1, ih h.2]

/-- Dropping a prefix cannot create an occurrence. -/
theorem occursSub_drop_false {pat : Str} :
    ∀ (n : Nat) {s : Str}, occursSub s pat = false →
      occursSub (s.drop n) pat = false := by
  intro n
  induction n with
  | zero => intro s h; exact h
  | succ n ih =>
    intro s h
    cases s with
    | nil => exact h
    | cons c t =>
      simp only [occursSub, Bool.or_eq_false_iff] at h
      rw [List.drop_succ_cons]
      exact ih h.2

/-- Characters of a `ReplaceAll` result come from the string or the
replacement. -/
theorem mem_replaceAllF {pat rep : Str} {a : Char} :
    ∀ (n : Nat) {s : Str}, a ∈ replaceAllF pat rep n s → a ∈ s ∨ a ∈ rep := by
  intro n
  induction n with
  | zero => intro s h; exact Or.inl h
  | succ n ih =>
    intro s h
    cases s with
    | nil => exact Or.inl h
    | cons c t =>
      by_cases hip : pat.isPrefixOf (c :: t) = true
      · simp only [replaceAllF, if_pos hip] at h
        rcases List.mem_append.mp h with h1 | h2
        · exact Or.inr h1
        · rcases ih h2 with h3 | h4
          · exact Or.inl (List.mem_of_mem_drop h3)
          · exact Or.inr h4
      · simp only [replaceAllF, if_neg hip] at h
        rcases List.mem_cons.mp h with h1 | h2
        · exact Or.inl (h1 ▸ List.mem_cons_self c t)
        · rcases ih h2 with h3 | h4
          · exact Or.inl (List.mem_cons_of_mem c h3)
          · exact Or.inr h4

/-- With full fuel, single-character replacement is a pointwise map. -/
theorem replaceAll_single_eq_map (c d : Char) :
    ∀ (n : Nat) (s : Str), s.length ≤ n →
      replaceAllF [c] [d] n s = s.map (fun e => if e = c then d else e) := by
  intro n
  induction n with
  | zero =>
    intro s h
    rw [List.eq_nil_of_length_eq_zero (Nat.le_zero.mp h)]
    rfl
  | succ n ih =>
    intro s h
    cases s with
    | nil => rfl
    | cons e t =>
      have ht : t.length ≤ n := by simpa using h
      by_cases hce : c = e
      · subst hce
        have hip : ([c] : Str).isPrefixOf (c :: t) = true := by
          simp [List.isPrefixOf]
        simp [replaceAllF, hip, ih t ht]
      · have hip : ([c] : Str).isPrefixOf (e :: t) = false := by
          rw [isPrefixOf_singleton_cons]
          simp [hce]
        simp only [replaceAllF, hip, Bool.false_eq_true, if_false, ih t ht,
          List.map_cons]
        rw [if_neg (fun he => hce he.symm)]

/-- The substituted-away character is gone from the map image. -/
theorem not_mem_map_subst_self {c d : Char} (hcd : c ≠ d) (s : Str) :
    c ∉ s.map (fun e => if e = c then d else e) := by
  intro hm
  rcases List.mem_map.mp hm with ⟨e, _, hfe⟩
  by_cases hec : e = c
  · rw [if_pos hec] at hfe
    exact hcd hfe.symm
  · rw [if_neg hec] at hfe
    exact hec hfe

/-- Substitution introduces nothing but `d`. -/
theorem not_mem_map_subst_other {a c d : Char} {s : Str} (ha : a ∉ s) (had : a ≠ d) :
    a ∉ s.map (fun e => if e = c then d else e) := by
  intro hm
  rcases List.mem_map.mp hm with ⟨e, he, hfe⟩
  by_cases hec : e = c
  · rw [if_pos hec] at hfe
    exact had hfe.symm
  · rw [if_neg hec] at hfe
    exact ha (hfe ▸ he)

/-- Replacement by a no-longer string never lengthens. -/
theorem replaceAllF_length_le {pat rep : Str} (hlen : rep.length ≤ pat.length) :
    ∀ (n : Nat) (s : Str), (replaceAllF pat rep n s).length ≤ s.length := by
  intro n
  induction n with
  | zero => intro s; exact Nat.le_refl _
  | succ n ih =>
    intro s
    cases s with
    | nil => exact Nat.le_refl _
    | cons c t =>
      by_cases hip : pat.isPrefixOf (c :: t) = true
      · have hple : pat.length ≤ (c :: t).length :=
          (List.isPrefixOf_iff_prefix.mp hip).length_le
        simp only [replaceAllF, if_pos hip, List.length_append]
        have h1 := ih ((c :: t).drop pat.length)
        have h2 : ((c :: t).drop pat.length).length = (c :: t).length - pat.length :=
          List.length_drop _ _
        omega
      · simp only [replaceAllF, if_neg hip, List.length_cons]
        exact Nat.succ_le_succ (ih t)

/-- Replacement by a strictly shorter string shortens when a match exists. -/
theorem replaceAllF_length_lt {pat rep : Str} (hlen : rep.length < pat.length) :
    ∀ (n : Nat) (s : Str), s.length ≤ n → occursSub s pat = true →
      (replaceAllF pat rep n s).length < s.length := by
  intro n
  induction n with
  | zero =>
    intro s hn ho
    rw [List.eq_nil_of_length_eq_zero (Nat.le_zero.mp hn)] at ho
    cases pat with
    | nil => simp at hlen
    | cons p ps => exact absurd ho (by simp [occursSub, List.isPrefixOf])
  | succ n ih =>
    intro s hn ho
    cases s with
    | nil =>
      cases pat with
      | nil => simp at hlen
      | cons p ps => exact absurd ho (by simp [occursSub, List.isPrefixOf])
    | cons c t =>
      by_cases hip : pat.isPrefixOf (c :: t) = true
      · have hple : pat.length ≤ (c :: t).length :=
          (List.isPrefixOf_iff_prefix.mp hip).length_le
        simp only [replaceAllF, if_pos hip, List.length_append]
        have h1 := replaceAllF_length_le (Nat.le_of_lt hlen) n ((c :: t).drop pat.length)
        have h2 : ((c :: t).drop pat.length).length = (c :: t).length - pat.length :=
          List.length_drop _ _
        have hpat1 : 1 ≤ pat.length := by
          cases pat with
          | nil => simp at hlen
          | cons p ps => simp
        omega
      · have ht : occursSub t pat = true := by
          simp only [occursSub, Bool.or_eq_true] at ho
          rcases ho with h1 | h2
          · exact absurd h1 hip
          · exact h2
        simp only [replaceAllF, if_neg hip, List.length_cons]
        exact Nat.succ_lt_succ (ih t (by simpa using hn) ht)

/-- With fuel at least the length, the collapse loop leaves no double space. -/
theorem collapseSpacesF_no_double :
    ∀ (n : Nat) (s : Str), s.length ≤ n →
      occursSub (collapseSpacesF n s) [' ', ' '] = false := by
  intro n
  induction n with
  | zero =>
    intro s hn
    rw [List.eq_nil_of_length_eq_zero (Nat.le_zero.mp hn)]
    rfl
  | succ n ih =>
    intro s hn
    by_cases ho : occursSub s [' ', ' '] = true
    · have hlt := replaceAllF_length_lt (by simp : ([' '] : Str).length < [' ', ' '].length)
        s.length s (Nat.le_refl _) ho
      simp only [collapseSpacesF, ho, if_true]
      refine ih _ ?_
      have hlt2 : (replaceAll s [' ', ' '] [' ']).length < s.length := hlt
      omega
    · have ho2 : occursSub s [' ', ' '] = false := by
        cases h : occursSub s [' ', ' '] with
        | false => rfl
        | true => exact absurd h ho
      simp only [collapseSpacesF, ho2, Bool.false_eq_true, if_false]

/-- A string without double spaces passes the collapse loop unchanged. -/
theorem collapseSpacesF_eq_self {s : Str} (h : occursSub s [' ', ' '] = false) :
    ∀ (n : Nat), collapseSpacesF n s = s := by
  intro n
  cases n with
  | zero => rfl
  | succ n => simp only [collapseSpacesF, h, Bool.false_eq_true, if_false]

/-- A non-matching head character survives one replacement pass in place. -/
theorem replaceAllF_head_keep {p0 : Char} (pr rep : Str) {d : Char} (hne : p0 ≠ d) :
    ∀ (n : Nat) (t : Str), ∃ t', replaceAllF (p0 :: pr) rep n (d :: t) = d :: t' := by
  intro n t
  cases n with
  | zero => exact ⟨t, rfl⟩
  | succ n =>
    have hip : ((p0 :: pr) : Str).isPrefixOf (d :: t) = false := by
      simp [List.isPrefixOf, hne]
    exact ⟨replaceAllF (p0 :: pr) rep n t, by simp [replaceAllF, hip]⟩

/-- Last element of a list from its `getLast?`. -/
theorem mem_of_getLast?_eq_some {a : α} :
    ∀ {l : List α}, l.getLast? = some a → a ∈ l := by
  intro l
  induction l with
  | nil => intro h; simp at h
  | cons x t ih =>
    intro h
    cases t with
    | nil =>
      simp only [List.getLast?_singleton, Option.some.injEq] at h
      simp [h]
    | cons y r =>
      rw [List.getLast?_cons_cons] at h
      exact List.mem_cons_of_mem x (ih h)

/-- `getLast?` of a cons with non-empty tail. -/
theorem getLast?_cons_of_ne_nil {a : α} {l : List α} (h : l ≠ []) :
    (a :: l).getLast? = l.getLast? := by
  cases l with
  | nil => exact absurd rfl h
  | cons y r => exact List.getLast?_cons_cons

/-- `getLast?` of an append with non-empty right part. -/
theorem getLast?_append_of_ne_nil {l l' : List α} (h : l' ≠ []) :
    (l ++ l').getLast? = l'.getLast? := by
  rw [List.getLast?_append]
  cases hl : l'.getLast? with
  | none => exact absurd (List.getLast?_eq_none_iff.mp hl) h
  | some a => rfl

/-- A last character outside the pattern survives replacement. -/
theorem replaceAllF_last {pat : Str} (rep : Str) {c : Char} (hc : c ∉ pat) :
    ∀ (n : Nat) {s : Str}, s.getLast? = some c →
      (replaceAllF pat rep n s).getLast? = some c := by
  intro n
  induction n with
  | zero => intro s h; exact h
  | succ n ih =>
    intro s h
    cases s with
    | nil => simp at h
    | cons e t =>
      by_cases hip : pat.isPrefixOf (e :: t) = true
      · obtain ⟨u, hu⟩ := List.isPrefixOf_iff_prefix.mp hip
        have hdrop : (e :: t).drop pat.length = u := by
          rw [← hu, List.drop_left]
        have hune : u ≠ [] := by
          rintro rfl
          rw [List.append_nil] at hu
          exact hc (hu ▸ mem_of_getLast?_eq_some h)
        have hul : u.getLast? = some c := by
          rw [← hu, getLast?_append_of_ne_nil hune] at h
          exact h
        have hr := ih hul
        simp only [replaceAllF, if_pos hip, hdrop]
        rw [getLast?_append_of_ne_nil (fun h0 => by rw [h0] at hr; simp at hr)]
        exact hr
      · simp only [replaceAllF, if_neg hip]
        cases t with
        | nil =>
          have h2 : e = c := by simpa using h
          have hrepl : replaceAllF pat rep n ([] : Str) = [] := by
            cases n <;> rfl
          rw [hrepl]
          simp [h2]
        | cons f r =>
          rw [List.getLast?_cons_cons] at h
          have hr := ih h
          rw [getLast?_cons_of_ne_nil (fun h0 => by rw [h0] at hr; simp at hr)]
          exact hr

/-- All characters at the front are non-whitespace (trivially for `[]`). -/
def headOk (s : Str) : Prop := ∀ h, s.head? = some h → goIsSpace h = false

/-- The final character is non-whitespace (trivially for `[]`). -/
def lastOk (s : Str) : Prop := ∀ h, s.getLast? = some h → goIsSpace h = false

/-- The head surviving `dropWhile` fails the predicate. -/
theorem dropWhile_head_false (p : Char → Bool) :
    ∀ (l : Str) (h : Char), (l.dropWhile p).head? = some h → p h = false := by
  intro l
  induction l with
  | nil => intro h hh; simp at hh
  | cons c t ih =>
    intro h hh
    rw [List.dropWhile_cons] at hh
    by_cases hc : p c = true
    · exact ih h (by rwa [if_pos hc] at hh)
    · rw [if_neg hc] at hh
      simp only [List.head?_cons, Option.some.injEq] at hh
      subst hh
      exact Bool.eq_false_iff.mpr hc

/-- `dropWhile` is the identity when the head fails the predicate. -/
theorem dropWhile_eq_self_of_head {l : Str}
    (hl : ∀ h, l.head? = some h → goIsSpace h = false) :
    l.dropWhile goIsSpace = l := by
  cases l with
  | nil => rfl
  | cons c t =>
    rw [List.dropWhile_cons, if_neg]
    simp [hl c rfl]

/-- `TrimSpace` output starts with a non-whitespace character. -/
theorem trimSpace_headOk (s : Str) : headOk (trimSpace s) := by
  intro h hh
  rw [show trimSpace s = ((trimLeft s).reverse.dropWhile goIsSpace).reverse from rfl,
    List.head?_reverse] at hh
  have hmne : (trimLeft s).reverse.dropWhile goIsSpace ≠ [] := by
    intro h0
    rw [h0] at hh
    simp at hh
  obtain ⟨pre, hpre⟩ := @List.dropWhile_suffix Char ((trimLeft s).reverse) goIsSpace
  have hlast : (trimLeft s).reverse.getLast? = some h := by
    rw [← hpre, getLast?_append_of_ne_nil hmne]
    exact hh
  rw [List.getLast?_reverse] at hlast
  exact dropWhile_head_false goIsSpace s h hlast

/-- `TrimSpace` output ends with a non-whitespace character. -/
theorem trimSpace_lastOk (s : Str) : lastOk (trimSpace s) := by
  intro h hh
  rw [show trimSpace s = ((trimLeft s).reverse.dropWhile goIsSpace).reverse from rfl,
    List.getLast?_reverse] at hh
  exact dropWhile_head_false goIsSpace _ h hh

/-- `TrimSpace` fixes strings with non-whitespace ends. -/
theorem trimSpace_eq_self {s : Str} (h1 : headOk s) (h2 : lastOk s) :
    trimSpace s = s := by
  have hL : trimLeft s = s := dropWhile_eq_self_of_head h1
  show ((trimLeft s).reverse.dropWhile goIsSpace).reverse = s
  rw [hL, dropWhile_eq_self_of_head, List.reverse_reverse]
  intro h hh
  rw [List.head?_reverse] at hh
  exact h2 h hh

/-- Substituting a whitespace character keeps the head non-whitespace. -/
theorem map_subst_headOk {c d : Char} (hc : goIsSpace c = true) {s : Str}
    (h : headOk s) : headOk (s.map (fun e => if e = c then d else e)) := by
  intro a ha
  rw [List.head?_map] at ha
  cases hh : s.head? with
  | none => rw [hh] at ha; simp at ha
  | some e =>
    rw [hh] at ha
    simp only [Option.map_some', Option.some.injEq] at ha
    have he := h e hh
    have hec : e ≠ c := fun h0 => by rw [h0, hc] at he; exact Bool.true_eq_false.mp he
    rw [if_neg hec] at ha
    exact ha ▸ he

/-- Substituting a whitespace character keeps the last non-whitespace. -/
theorem map_subst_lastOk {c d : Char} (hc : goIsSpace c = true) {s : Str}
    (h : lastOk s) : lastOk (s.map (fun e => if e = c then d else e)) := by
  intro a ha
  rw [List.getLast?_map] at ha
  cases hh : s.getLast? with
  | none => rw [hh] at ha; simp at ha
  | some e =>
    rw [hh] at ha
    simp only [Option.map_some', Option.some.injEq] at ha
    have he := h e hh
    have hec : e ≠ c := fun h0 => by rw [h0, hc] at he; exact Bool.true_eq_false.mp he
    rw [if_neg hec] at ha
    exact ha ▸ he

/-- The collapse loop keeps a non-whitespace head. -/
theorem collapseSpacesF_headOk :
    ∀ (n : Nat) {s : Str}, headOk s → headOk (collapseSpacesF n s) := by
  intro n
  induction n with
  | zero => intro s h; exact h
  | succ n ih =>
    intro s h
    by_cases ho : occursSub s [' ', ' '] = true
    · simp only [collapseSpacesF, ho, if_true]
      refine ih ?_
      cases s with
      | nil => exact absurd ho (by simp [occursSub, List.isPrefixOf])
      | cons d t =>
        have hd : goIsSpace d = false := h d rfl
        have hned : (' ' : Char) ≠ d := by
          intro h0
          rw [← h0] at hd
          exact Bool.true_eq_false.mp ((by decide : goIsSpace ' ' = true) ▸ hd)
        obtain ⟨t', ht'⟩ := replaceAllF_head_keep [' '] [' '] hned
          (d :: t).length t
        show headOk (replaceAllF [' ', ' '] [' '] (d :: t).length (d :: t))
        rw [ht']
        intro a ha
        simp only [List.head?_cons, Option.some.injEq] at ha
        exact ha ▸ hd
    · have ho2 : occursSub s [' ', ' '] = false := Bool.eq_false_iff.mpr ho
      simp only [collapseSpacesF, ho2, Bool.false_eq_true, if_false]
      exact h

/-- The collapse loop keeps a non-whitespace last character. -/
theorem collapseSpacesF_lastOk :
    ∀ (n : Nat) {s : Str}, lastOk s → lastOk (collapseSpacesF n s) := by
  intro n
  induction n with
  | zero => intro s h; exact h
  | succ n ih =>
    intro s h
    by_cases ho : occursSub s [' ', ' '] = true
    · simp only [collapseSpacesF, ho, if_true]
      refine ih ?_
      cases hl : s.getLast? with
      | none =>
        rw [List.getLast?_eq_none_iff.mp hl] at ho
        exact absurd ho (by simp [occursSub, List.isPrefixOf])
      | some e =>
        have he := h e hl
        have hesp : e ∉ ([' ', ' '] : Str) := by
          intro hm
          have : e = ' ' := by
            rcases List.mem_cons.mp hm with h1 | h2
            · exact h1
            · simpa using h2
          rw [this] at he
          exact Bool.true_eq_false.mp ((by decide : goIsSpace ' ' = true) ▸ he)
        have := replaceAllF_last [' '] hesp s.length hl
        intro a ha
        rw [show replaceAll s [' ', ' '] [' '] = replaceAllF [' ', ' '] [' '] s.length s
          from rfl, this] at ha
        simp only [Option.some.injEq] at ha
        exact ha ▸ he
    · have ho2 : occursSub s [' ', ' '] = false := Bool.eq_false_iff.mpr ho
      simp only [collapseSpacesF, ho2, Bool.false_eq_true, if_false]
      exact h

/-- Characters of the collapse loop's output come from the input or are
spaces. -/
theorem mem_collapseSpacesF {a : Char} :
    ∀ (n : Nat) {s : Str}, a ∈ collapseSpacesF n s → a ∈ s ∨ a = ' ' := by
  intro n
  induction n with
  | zero => intro s h; exact Or.inl h
  | succ n ih =>
    intro s h
    by_cases ho : occursSub s [' ', ' '] = true
    · simp only [collapseSpacesF, ho, if_true] at h
      rcases ih h with h1 | h2
      · rcases mem_replaceAllF s.length h1 with h3 | h4
        · exact Or.inl h3
        · exact Or.inr (by simpa using h4)
      · exact Or.inr h2
    · have ho2 : occursSub s [' ', ' '] = false := Bool.eq_false_iff.mpr ho
      simp only [collapseSpacesF, ho2, Bool.false_eq_true, if_false] at h
      exact Or.inl h

/-- Characters of a two-to-one replacement survive it when the pattern chars
that equal them are also the replacement. -/
theorem mem_replaceAllF_pair {p0 p1 r0 a : Char}
    (h0 : p0 = a → r0 = a) (h1 : p1 = a → r0 = a) :
    ∀ (n : Nat) {s : Str}, a ∈ s → a ∈ replaceAllF [p0, p1] [r0] n s := by
  intro n
  induction n with
  | zero => intro s h; exact h
  | succ n ih =>
    intro s h
    cases s with
    | nil => simp at h
    | cons c t =>
      by_cases hip : ([p0, p1] : Str).isPrefixOf (c :: t) = true
      · obtain ⟨u, hu⟩ := List.isPrefixOf_iff_prefix.mp hip
        have hdrop : (c :: t).drop 2 = u := by
          rw [← hu]
          exact List.drop_left [p0, p1] u
        simp only [replaceAllF, if_pos hip]
        rw [show ([p0, p1] : Str).length = 2 from rfl, hdrop]
        rw [← hu] at h
        rcases List.mem_cons.mp h with h2 | h3
        · exact List.mem_append.mpr (Or.inl (by simp [h0 h2.symm]))
        · rcases List.mem_cons.mp h3 with h4 | h5
          · exact List.mem_append.mpr (Or.inl (by simp [h1 h4.symm]))
          · exact List.mem_append.mpr (Or.inr (ih h5))
      · simp only [replaceAllF, if_neg hip]
        rcases List.mem_cons.mp h with h2 | h3
        · exact h2 ▸ List.mem_cons_self _ _
        · exact List.mem_cons_of_mem c (ih h3)

/-- Without `_` the charset-prefix pass is the identity. -/
theorem utf8mb4ReplaceF_eq_self :
    ∀ (n : Nat) {s : Str}, '_' ∉ s → utf8mb4ReplaceF n s = s := by
  intro n
  induction n with
  | zero => intro s _; rfl
  | succ n ih =>
    intro s h
    cases s with
    | nil => rfl
    | cons c t =>
      have hip : utf8mb4Marker.isPrefixOf (c :: t) = false := by
        cases hip0 : utf8mb4Marker.isPrefixOf (c :: t) with
        | false => rfl
        | true =>
          exact absurd ((List.isPrefixOf_iff_prefix.mp hip0).subset
            (show '_' ∈ utf8mb4Marker by decide)) h
      simp only [utf8mb4ReplaceF, hip, Bool.false_eq_true, if_false,
        ih (fun hm => h (List.mem_cons_of_mem c hm))]

/-- Without ` LIMIT ` the limit pass is the identity. -/
theorem normalizeLimitClause_id {q : Str} (h : findSub q " LIMIT ".data = none) :
    normalizeLimitClause q = q := by
  unfold normalizeLimitClause
  rw [h]

/-- Without ` FROM ` the join pass is the identity. -/
theorem normalizeJoinOrder_id {q : Str} (h : findSub q " FROM ".data = none) :
    normalizeJoinOrder q = q := by
  unfold normalizeJoinOrder
  rw [h]

/-- Without ` WHERE ` the main-WHERE pass is the identity. -/
theorem normalizeMainWhereClause_id {q : Str}
    (h : occursSub q " WHERE ".data = false) :
    normalizeMainWhereClause q = q := by
  have h2 : ∀ n, findSub (q.drop n) " WHERE ".data = none :=
    fun n => findSub_none_of_not_occurs (occursSub_drop_false n h)
  unfold normalizeMainWhereClause
  simp only [h2]

/-- Parenthesis-free strings pass `basicNormalize` a second time unchanged. -/
theorem basicNormalize_stable (x : Str)
    (hp : '(' ∉ basicNormalize x) (hq : ')' ∉ basicNormalize x) :
    basicNormalize (basicNormalize x) = basicNormalize x := by
  set u := replaceAll (replaceAll (trimSpace x) ['\n'] [' ']) ['\t'] [' '] with hu
  set t3 := collapseSpaces u with ht3
  have hbn : basicNormalize x
      = replaceAll (replaceAll t3 ['(', ' '] ['(']) [' ', ')'] [')'] := rfl
  have hp3 : '(' ∉ t3 := by
    intro hm
    apply hp
    rw [hbn]
    exact mem_replaceAllF_pair (fun h => absurd h (by decide)) (fun h => h) _
      (mem_replaceAllF_pair (fun _ => rfl) (fun _ => rfl) _ hm)
  have hq3 : ')' ∉ t3 := by
    intro hm
    apply hq
    rw [hbn]
    exact mem_replaceAllF_pair (fun _ => rfl) (fun _ => rfl) _
      (mem_replaceAllF_pair (fun h => h) (fun h => absurd h (by decide)) _ hm)
  have e1 : replaceAll t3 ['(', ' '] ['('] = t3 :=
    replaceAll_eq_self_of_not_occurs _
      (occursSub_false_of_not_mem (by simp) hp3)
  have e2 : replaceAll t3 [' ', ')'] [')'] = t3 :=
    replaceAll_eq_self_of_not_occurs _
      (occursSub_false_of_not_mem (by simp) hq3)
  have hy : basicNormalize x = t3 := by rw [hbn, e1, e2]
  have hm1 : replaceAll (trimSpace x) ['\n'] [' ']
      = (trimSpace x).map (fun e => if e = '\n' then ' ' else e) :=
    replaceAll_single_eq_map '\n' ' ' _ _ (Nat.le_refl _)
  have hm2 : u = ((trimSpace x).map (fun e => if e = '\n' then ' ' else e)).map
      (fun e => if e = '\t' then ' ' else e) := by
    rw [hu, hm1]
    exact replaceAll_single_eq_map '\t' ' ' _ _ (Nat.le_refl _)
  have hhu : headOk u := by
    rw [hm2]
    exact map_subst_headOk (by decide)
      (map_subst_headOk (by decide) (trimSpace_headOk x))
  have hlu : lastOk u := by
    rw [hm2]
    exact map_subst_lastOk (by decide)
      (map_subst_lastOk (by decide) (trimSpace_lastOk x))
  have hh3 : headOk t3 := collapseSpacesF_headOk u.length hhu
  have hl3 : lastOk t3 := collapseSpacesF_lastOk u.length hlu
  have hnlu : '\n' ∉ u := by
    rw [hm2]
    exact not_mem_map_subst_other
      (not_mem_map_subst_self (by decide) (trimSpace x)) (by decide)
  have hntu : '\t' ∉ u := by
    rw [hm2]
    exact not_mem_map_subst_self (by decide) _
  have hnl3 : '\n' ∉ t3 := by
    intro hm
    rcases mem_collapseSpacesF u.length hm with h1 | h2
    · exact hnlu h1
    · exact absurd h2 (by decide)
  have hnt3 : '\t' ∉ t3 := by
    intro hm
    rcases mem_collapseSpacesF u.length hm with h1 | h2
    · exact hntu h1
    · exact absurd h2 (by decide)
  have hnd3 : occursSub t3 [' ', ' '] = false :=
    collapseSpacesF_no_double u.length u (Nat.le_refl _)
  rw [hy]
  have hbn2 : basicNormalize t3
      = replaceAll (replaceAll (collapseSpaces (replaceAll (replaceAll (trimSpace t3)
          ['\n'] [' ']) ['\t'] [' '])) ['(', ' '] ['(']) [' ', ')'] [')'] := rfl
  rw [hbn2, trimSpace_eq_self hh3 hl3,
    show replaceAll t3 ['\n'] [' '] = t3 from replaceAll_eq_self_of_not_occurs _
      (occursSub_false_of_not_mem (by simp) hnl3),
    show replaceAll t3 ['\t'] [' '] = t3 from replaceAll_eq_self_of_not_occurs _
      (occursSub_false_of_not_mem (by simp) hnt3),
    show collapseSpaces t3 = t3 from collapseSpacesF_eq_self hnd3 _, e1, e2]

/-- When the basic-normalized form triggers none of the later passes, the
whole comparison pipeline is just `basicNormalize`. -/
theorem normalizeForComparison_eq_basic (x : Str)
    (hp : '(' ∉ basicNormalize x) (hq : ')' ∉ basicNormalize x)
    (hb : backtick ∉ basicNormalize x) (hu : '_' ∉ basicNormalize x)
    (hl : occursSub (basicNormalize x) " LIMIT ".data = false)
    (hf : occursSub (basicNormalize x) " FROM ".data = false)
    (hw : occursSub (basicNormalize x) " WHERE ".data = false) :
    normalizeForComparison x = basicNormalize x := by
  have hnfc : normalizeForComparison x
      = replaceAll (replaceAll (normalizeMainWhereClause (normalizeJoinOrder
          (normalizeLimitClause (utf8mb4Replace (replaceAll (basicNormalize x)
            [backtick] []))))) ['('] []) [')'] [] := rfl
  rw [hnfc,
    show replaceAll (basicNormalize x) [backtick] [] = basicNormalize x from
      replaceAll_eq_self_of_not_occurs _
        (occursSub_false_of_not_mem (by simp) hb),
    show utf8mb4Replace (basicNormalize x) = basicNormalize x from
      utf8mb4ReplaceF_eq_self _ hu,
    normalizeLimitClause_id (findSub_none_of_not_occurs hl),
    normalizeJoinOrder_id (findSub_none_of_not_occurs hf),
    normalizeMainWhereClause_id hw,
    show replaceAll (basicNormalize x) ['('] [] = basicNormalize x from
      replaceAll_eq_self_of_not_occurs _
        (occursSub_false_of_not_mem (by simp) hp),
    show replaceAll (basicNormalize x) [')'] [] = basicNormalize x from
      replaceAll_eq_self_of_not_occurs _
        (occursSub_false_of_not_mem (by simp) hq)]

/-- C3, counterexample: the Comparison Normalizer is not idempotent — on
`x = "a ("` the final parenthesis strip exposes a trailing space that only
the second pass's basic normalization trims, so normalizing twice differs
from normalizing once. -/
theorem c3_counterexample :
    normalizeForComparison (normalizeForComparison "a (".data)
      ≠ normalizeForComparison "a (".data := by decide

/-- C3 (amended): idempotence holds on every input whose basic-normalized
form triggers none of the rewriting passes — no parentheses, backticks or
underscores and no ` LIMIT `, ` FROM ` or ` WHERE ` substring; on such
inputs the pipeline reduces to `basicNormalize`, which is stable.  (It fails
in general, see the counterexample.) -/
theorem c3_amended_idempotent (x : Str)
    (hp : '(' ∉ basicNormalize x) (hq : ')' ∉ basicNormalize x)
    (hb : backtick ∉ basicNormalize x) (hu : '_' ∉ basicNormalize x)
    (hl : occursSub (basicNormalize x) " LIMIT ".data = false)
    (hf : occursSub (basicNormalize x) " FROM ".data = false)
    (hw : occursSub (basicNormalize x) " WHERE ".data = false) :
    normalizeForComparison (normalizeForComparison x) = normalizeForComparison x := by
  have hx : normalizeForComparison x = basicNormalize x :=
    normalizeForComparison_eq_basic x hp hq hb hu hl hf hw
  have hstab : basicNormalize (basicNormalize x) = basicNormalize x :=
    basicNormalize_stable x hp hq
  have hy : normalizeForComparison (basicNormalize x) = basicNormalize x := by
    have hp2 : '(' ∉ basicNormalize (basicNormalize x) := by rw [hstab]; exact hp
    have hq2 : ')' ∉ basicNormalize (basicNormalize x) := by rw [hstab]; exact hq
    have hb2 : backtick ∉ basicNormalize (basicNormalize x) := by rw [hstab]; exact hb
    have hu2 : '_' ∉ basicNormalize (basicNormalize x) := by rw [hstab]; exact hu
    have hl2 : occursSub (basicNormalize (basicNormalize x)) " LIMIT ".data = false := by
      rw [hstab]; exact hl
    have hf2 : occursSub (basicNormalize (basicNormalize x)) " FROM ".data = false := by
      rw [hstab]; exact hf
    have hw2 : occursSub (basicNormalize (basicNormalize x)) " WHERE ".data = false := by
      rw [hstab]; exact hw
    rw [normalizeForComparison_eq_basic (basicNormalize x) hp2 hq2 hb2 hu2 hl2 hf2 hw2,
      hstab]
  rw [hx, hy]

/-- C3, witness: a concrete trigger-free input is a fixed point after one
pass. -/
theorem c3_witness :
    normalizeForComparison (normalizeForComparison "SELECT  1,  2".data)
      = normalizeForComparison "SELECT  1,  2".data :=
  c3_amended_idempotent "SELECT  1,  2".data (by decide) (by decide) (by decide)
    (by decide) (by decide) (by decide) (by decide)

/-! ## Occurrence decomposition over appends (infrastructure for the
parameterized WHERE-insensitivity proof) -/

/-- An occurrence in `p ++ t` lies in `p`, lies in `t`, or straddles the
boundary (a non-trivial split of the pattern into a suffix of `p` and a
prefix of `t`). -/
theorem occursSub_append_cases {pat : Str} :
    ∀ {p t : Str}, occursSub (p ++ t) pat = true →
      occursSub p pat = true ∨ occursSub t pat = true
        ∨ ∃ k, 0 < k ∧ k < pat.length ∧ pat.take k <:+ p ∧ pat.drop k <+: t := by
  intro p
  induction p with
  | nil => intro t h; exact Or.inr (Or.inl (by simpa using h))
  | cons c p' ih =>
    intro t h
    rw [List.cons_append] at h
    simp only [occursSub, Bool.or_eq_true] at h
    rcases h with h1 | h2
    · have hpre : pat <+: (c :: p') ++ t := by
        rw [List.cons_append]
        exact List.isPrefixOf_iff_prefix.mp h1
      by_cases hlen : pat.length ≤ (c :: p').length
      · have hfit : pat <+: c :: p' :=
          List.prefix_of_prefix_length_le hpre (List.prefix_append _ _) (by simpa)
        refine Or.inl ?_
        simp [occursSub, List.isPrefixOf_iff_prefix.mpr hfit]
      · push_neg at hlen
        refine Or.inr (Or.inr ⟨(c :: p').length, by simp, hlen, ?_, ?_⟩)
        · have htk : pat.take (c :: p').length = c :: p' := by
            have h1 : pat.take (c :: p').length <+: (c :: p') ++ t :=
              (List.take_prefix _ _).trans hpre
            have h2 : (c :: p') <+: (c :: p') ++ t := List.prefix_append _ _
            have hlen2 : (pat.take (c :: p').length).length = (c :: p').length := by
              rw [List.length_take]
              omega
            exact (List.prefix_of_prefix_length_le h1 h2 (by omega)).eq_of_length hlen2
          rw [htk]
        · obtain ⟨u, hu⟩ := hpre
          refine ⟨u, ?_⟩
          have hdrop := congrArg (List.drop (c :: p').length) hu
          rw [List.drop_append_eq_append_drop,
            show (c :: p').length - pat.length = 0 by omega, List.drop_zero,
            List.drop_left] at hdrop
          exact hdrop
    · rcases ih h2 with ha | hb | ⟨k, hk0, hkl, hks, hkp⟩
      · exact Or.inl (by simp [occursSub, ha])
      · exact Or.inr (Or.inl hb)
      · exact Or.inr (Or.inr ⟨k, hk0, hkl, hks.trans (List.suffix_cons c p'), hkp⟩)

/-- Absence in both parts plus no straddling occurrence gives absence in
the append. -/
theorem occursSub_append_false {p t pat : Str}
    (hp : occursSub p pat = false) (ht : occursSub t pat = false)
    (hstrad : ∀ k, 0 < k → k < pat.length → pat.take k <:+ p →
      pat.drop k <+: t → False) :
    occursSub (p ++ t) pat = false := by
  cases h : occursSub (p ++ t) pat with
  | false => rfl
  | true =>
    rcases occursSub_append_cases h with h1 | h2 | ⟨k, a, b, hc, hd⟩
    · rw [h1] at hp; exact absurd hp (by simp)
    · rw [h2] at ht; exact absurd ht (by simp)
    · exact (hstrad k a b hc hd).elim

/-- A list with a known head as a prefix pins the target's head. -/
theorem head_eq_of_pre {c : Char} {l t : Str} (h : (c :: l) <+: t) :
    t.head? = some c := by
  obtain ⟨u, hu⟩ := h
  rw [← hu]
  rfl

/-- A list with a known last element as a suffix pins the target's last. -/
theorem last_eq_of_suf {c : Char} {l p : Str} (h : (l ++ [c]) <:+ p) :
    p.getLast? = some c := by
  obtain ⟨u, hu⟩ := h
  rw [← hu, ← List.append_assoc, getLast?_append_of_ne_nil (by simp)]
  rfl

/-- A found occurrence fits inside the string. -/
theorem findSub_some_le {pat : Str} :
    ∀ {s : Str} {j : Nat}, findSub s pat = some j → j + pat.length ≤ s.length := by
  intro s
  induction s with
  | nil =>
    intro j h
    simp only [findSub] at h
    split at h
    · rename_i hp
      cases pat with
      | nil =>
        have hj : j = 0 := by simpa using h.symm
        simp [hj]
      | cons x xs => simp [List.isPrefixOf] at hp
    · exact absurd h (by simp)
  | cons c t ih =>
    intro j h
    simp only [findSub] at h
    split at h
    · rename_i hp
      have := (List.isPrefixOf_iff_prefix.mp hp).length_le
      have hj : j = 0 := by simpa using h.symm
      simpa [hj] using this
    · cases hft : findSub t pat with
      | none => rw [hft] at h; exact absurd h (by simp)
      | some i =>
        rw [hft] at h
        simp only [Option.map_some', Option.some.injEq] at h
        have := ih hft
        simp only [List.length_cons]
        omega

/-- The first occurrence inside `p` stays the first occurrence of `p ++ t`. -/
theorem findSub_append_left {pat p : Str} :
    ∀ {k : Nat}, findSub p pat = some k → ∀ t, findSub (p ++ t) pat = some k := by
  induction p with
  | nil =>
    intro k h t
    simp only [findSub] at h
    split at h
    · rename_i hp
      cases pat with
      | nil =>
        have hk : k = 0 := by simpa using h.symm
        subst hk
        cases t with
        | nil => simp [findSub, List.isPrefixOf]
        | cons a r => simp [findSub, List.isPrefixOf]
      | cons x xs => simp [List.isPrefixOf] at hp
    · exact absurd h (by simp)
  | cons c p' ih =>
    intro k h t
    simp only [findSub] at h
    by_cases hip : pat.isPrefixOf (c :: p') = true
    · rw [if_pos hip] at h
      have hip2 : pat.isPrefixOf (c :: p' ++ t) = true := by
        obtain ⟨u, hu⟩ := List.isPrefixOf_iff_prefix.mp hip
        exact List.isPrefixOf_iff_prefix.mpr
          ⟨u ++ t, by rw [← List.append_assoc, hu]⟩
      show findSub (c :: (p' ++ t)) pat = some k
      simp only [findSub]
      rw [if_pos (by simpa using hip2)]
      exact h
    · rw [if_neg hip] at h
      cases hfp : findSub p' pat with
      | none => rw [hfp] at h; exact absurd h (by simp)
      | some j =>
        rw [hfp] at h
        simp only [Option.map_some', Option.some.injEq] at h
        have hjlen := findSub_some_le hfp
        have hip2 : pat.isPrefixOf (c :: (p' ++ t)) = false := by
          cases hx : pat.isPrefixOf (c :: (p' ++ t)) with
          | false => rfl
          | true =>
            have hpre : pat <+: (c :: p') ++ t := by
              rw [List.cons_append]
              exact List.isPrefixOf_iff_prefix.mp hx
            have hfit : pat <+: c :: p' :=
              List.prefix_of_prefix_length_le hpre (List.prefix_append _ _)
                (by simp; omega)
            rw [List.isPrefixOf_iff_prefix.mpr hfit] at hip
            exact absurd rfl hip
        show findSub (c :: (p' ++ t)) pat = some k
        simp only [findSub, hip2, Bool.false_eq_true, if_false, ih hfp t,
          Option.map_some']
        exact congrArg some h

/-- A visible occurrence makes `Contains` true. -/
theorem occursSub_append_mid (p pat r : Str) :
    occursSub (p ++ (pat ++ r)) pat = true := by
  induction p with
  | nil =>
    rw [List.nil_append]
    cases pat with
    | nil =>
      cases r with
      | nil => rfl
      | cons a t => simp [occursSub, List.isPrefixOf]
    | cons x xs =>
      simp only [occursSub, Bool.or_eq_true]
      exact Or.inl (List.isPrefixOf_iff_prefix.mpr (List.prefix_append (x :: xs) r))
  | cons c p' ih =>
    rw [List.cons_append]
    cases pat with
    | nil =>
      simp only [occursSub, Bool.or_eq_true]
      exact Or.inl (by simp [List.isPrefixOf])
    | cons x xs =>
      simp only [occursSub, Bool.or_eq_true]
      exact Or.inr ih

/-- No occurrence at all means no occurrence at any suffix position. -/
theorem isPrefixOf_drop_false {pat : Str} :
    ∀ {s : Str}, occursSub s pat = false → ∀ i, pat.isPrefixOf (s.drop i) = false := by
  intro s
  induction s with
  | nil =>
    intro h i
    simp only [occursSub] at h
    simpa [List.drop_nil] using h
  | cons c t ih =>
    intro h i
    simp only [occursSub, Bool.or_eq_false_iff] at h
    cases i with
    | zero => exact h.1
    | succ i =>
      rw [List.drop_succ_cons]
      exact ih h.2 i

/-- `LastIndex` finds nothing when `Contains` is false. -/
theorem lastIndexSub_none_of_not_occurs {s pat : Str}
    (h : occursSub s pat = false) : lastIndexSub s pat = none := by
  unfold lastIndexSub
  have : ((List.range (s.length + 1)).filter
      (fun i => pat.isPrefixOf (s.drop i))) = [] := by
    rw [List.filter_eq_nil_iff]
    intro i _
    simp [isPrefixOf_drop_false h i]
  rw [this]
  rfl

/-- `lexLt` is asymmetric. -/
theorem lexLt_asymm : ∀ {a b : Str}, lexLt a b = true → lexLt b a = false := by
  intro a
  induction a with
  | nil =>
    intro b h
    cases b with
    | nil => simp [lexLt] at h
    | cons x xs => simp [lexLt]
  | cons c t ih =>
    intro b h
    cases b with
    | nil => simp [lexLt] at h
    | cons x xs =>
      simp only [lexLt] at h ⊢
      by_cases hcx : c = x
      · subst hcx
        simp only [if_pos rfl] at h ⊢
        exact ih h
      · rw [if_neg hcx] at h
        rw [if_neg (fun h0 => hcx h0.symm)]
        simp only [decide_eq_true_eq] at h
        simp only [decide_eq_false_iff_not]
        omega

/-- `lexLt` is connex: two unrelated strings are equal. -/
theorem lexLt_conn : ∀ {a b : Str}, lexLt a b = false → lexLt b a = false → a = b := by
  intro a
  induction a with
  | nil =>
    intro b h1 _
    cases b with
    | nil => rfl
    | cons x xs => simp [lexLt] at h1
  | cons c t ih =>
    intro b h1 h2
    cases b with
    | nil => simp [lexLt] at h2
    | cons x xs =>
      simp only [lexLt] at h1 h2
      by_cases hcx : c = x
      · subst hcx
        rw [if_pos rfl] at h1 h2
        rw [ih h1 h2]
      · rw [if_neg hcx] at h1
        rw [if_neg (fun h0 => hcx h0.symm)] at h2
        simp only [decide_eq_false_iff_not] at h1 h2
        have hnat : c.toNat = x.toNat := by omega
        unfold Char.toNat at hnat
        exact absurd (Char.ext (UInt32.toNat.inj hnat)) hcx

/-- Sorting a two-element list is order-insensitive. -/
theorem sortStrings_pair (A B : Str) : sortStrings [A, B] = sortStrings [B, A] := by
  show sortBy lexLt [A, B] = sortBy lexLt [B, A]
  simp only [sortBy, insertBy]
  cases hab : lexLt A B with
  | true =>
    rw [lexLt_asymm hab]
    simp
  | false =>
    cases hba : lexLt B A with
    | true => simp
    | false => rw [lexLt_conn hab hba]

/-! ## A condition alphabet for the parameterized WHERE-insensitivity
property: lowercase letters, digits and common comparison/literal
punctuation (no spaces, parentheses, backticks, underscores or uppercase
SQL keywords). -/

/-- The allowed characters of a simple WHERE condition. -/
def condChars : Str :=
  "abcdefghijklmnopqrstuvwxyz0123456789=.<>-".data ++ [Char.ofNat 39]

/-- Membership in the condition alphabet. -/
def condChar (c : Char) : Bool := condChars.contains c

/-- A simple WHERE condition: nonempty and drawn from the condition
alphabet. -/
def simpleCond (s : Str) : Bool := decide (s ≠ []) && s.all condChar

/-- Any decidable property checked over the whole alphabet holds at every
condition character. -/
theorem condChar_spec (p : Char → Bool) (hall : condChars.all p = true)
    {c : Char} (hc : condChar c = true) : p c = true := by
  have hmem : c ∈ condChars := by
    have h := hc
    unfold condChar at h
    simpa using h
  exact List.all_eq_true.mp hall c hmem

/-- Condition characters differ from every non-condition character. -/
theorem condChar_ne {c : Char} (hc : condChar c = true) {d : Char}
    (hd : condChar d = false) : c ≠ d := by
  intro he
  rw [he, hd] at hc
  exact absurd hc (by simp)

/-- Condition characters are not whitespace. -/
theorem condChar_not_space {c : Char} (hc : condChar c = true) :
    goIsSpace c = false := by
  have h := condChar_spec (fun c => !goIsSpace c) (by decide) hc
  simpa using h

/-- A non-condition character never occurs in an all-condition string. -/
theorem not_mem_cond {A : Str} (hA : ∀ c ∈ A, condChar c = true) {d : Char}
    (hd : condChar d = false) : d ∉ A := by
  intro hm
  have := hA d hm
  rw [hd] at this
  exact absurd this (by simp)

/-- Unpacking `simpleCond`. -/
theorem simpleCond_iff {s : Str} (h : simpleCond s = true) :
    s ≠ [] ∧ ∀ c ∈ s, condChar c = true := by
  unfold simpleCond at h
  rw [Bool.and_eq_true, decide_eq_true_eq] at h
  exact ⟨h.1, List.all_eq_true.mp h.2⟩

/-- The head of a nonempty list is a member. -/
theorem mem_of_head?_eq_some {a : α} :
    ∀ {l : List α}, l.head? = some a → a ∈ l := by
  intro l h
  cases l with
  | nil => exact absurd h (by simp)
  | cons x t =>
    have : x = a := by simpa using h
    rw [← this]
    exact List.mem_cons_self x t

/-- A nonempty list has a head. -/
theorem exists_head?_of_ne_nil {l : List α} (h : l ≠ []) :
    ∃ a, l.head? = some a := by
  cases l with
  | nil => exact absurd rfl h
  | cons x t => exact ⟨x, rfl⟩

/-- A nonempty list has a last element. -/
theorem exists_getLast?_of_ne_nil {l : List α} (h : l ≠ []) :
    ∃ a, l.getLast? = some a := by
  cases hl : l.getLast? with
  | some a => exact ⟨a, rfl⟩
  | none => exact absurd (List.getLast?_eq_none_iff.mp hl) h

/-- All-condition strings have a whitespace-free head. -/
theorem cond_headOk {A : Str} (hA : ∀ c ∈ A, condChar c = true) : headOk A :=
  fun h hh => condChar_not_space (hA h (mem_of_head?_eq_some hh))

/-- All-condition strings have a whitespace-free last character. -/
theorem cond_lastOk {A : Str} (hA : ∀ c ∈ A, condChar c = true) : lastOk A :=
  fun h hh => condChar_not_space (hA h (mem_of_getLast?_eq_some hh))

/-- All-condition strings are `TrimSpace`-stable. -/
theorem cond_trimSpace {A : Str} (hA : ∀ c ∈ A, condChar c = true) :
    trimSpace A = A :=
  trimSpace_eq_self (cond_headOk hA) (cond_lastOk hA)

/-- Prefix with a known head pins the head of an append. -/
theorem head?_append_left {l : List α} (l' : List α) {a : α}
    (h : l.head? = some a) : (l ++ l').head? = some a := by
  cases l with
  | nil => exact absurd h (by simp)
  | cons x t => simpa using h

/-- The head of an append with a nonempty left part is a member of it. -/
theorem mem_of_head?_append {A r : List α} {x : α} (hA : A ≠ [])
    (h : (A ++ r).head? = some x) : x ∈ A := by
  cases A with
  | nil => exact absurd rfl hA
  | cons a t =>
    have : a = x := by simpa using h
    rw [← this]
    exact List.mem_cons_self a t

/-- Two-character pattern absence in an append: absent from both parts and
no straddling occurrence (left ends with the first character while the
right starts with the second). -/
theorem occursSub_append_false2 {p t : Str} {a b : Char}
    (hp : occursSub p [a, b] = false) (ht : occursSub t [a, b] = false)
    (hstrad : p.getLast? = some a → t.head? = some b → False) :
    occursSub (p ++ t) [a, b] = false := by
  refine occursSub_append_false hp ht ?_
  intro k hk0 hk2 hs hpre
  have hk1 : k = 1 := by simp at hk2; omega
  subst hk1
  exact hstrad (@last_eq_of_suf a [] p hs) (head_eq_of_pre hpre)

/-- Four-character pattern absence in an append: absent from both parts and
all three straddles killed by a last/head character mismatch. -/
theorem occursSub_append_false4 {p t : Str} {a b c d : Char}
    (hp : occursSub p [a, b, c, d] = false) (ht : occursSub t [a, b, c, d] = false)
    (h1 : p.getLast? = some a → t.head? = some b → False)
    (h2 : p.getLast? = some b → t.head? = some c → False)
    (h3 : p.getLast? = some c → t.head? = some d → False) :
    occursSub (p ++ t) [a, b, c, d] = false := by
  refine occursSub_append_false hp ht ?_
  intro k hk0 hk4 hs hpre
  have : k = 1 ∨ k = 2 ∨ k = 3 := by simp at hk4; omega
  rcases this with hk | hk | hk
  · subst hk
    exact h1 (@last_eq_of_suf a [] p hs) (head_eq_of_pre hpre)
  · subst hk
    exact h2 (@last_eq_of_suf b [a] p hs) (head_eq_of_pre hpre)
  · subst hk
    exact h3 (@last_eq_of_suf c [a, b] p hs) (head_eq_of_pre hpre)

/-- A space-containing pattern never occurs in an all-condition string. -/
theorem cond_no_space_pat {A : Str} (hA : ∀ c ∈ A, condChar c = true)
    {pat : Str} (hsp : ' ' ∈ pat) : occursSub A pat = false :=
  occursSub_false_of_not_mem hsp (not_mem_cond hA (by decide))

/-- A pattern with a non-condition character never occurs in an
all-condition string. -/
theorem cond_no_pat {A : Str} (hA : ∀ c ∈ A, condChar c = true) {pat : Str}
    {x : Char} (hx : x ∈ pat) (hcx : condChar x = false) :
    occursSub A pat = false :=
  occursSub_false_of_not_mem hx (not_mem_cond hA hcx)

/-- Straddle killer: an all-condition string cannot end in a non-condition
character. -/
theorem strad_last_cond {A : Str} (hA : ∀ c ∈ A, condChar c = true) {x : Char}
    (hcx : condChar x = false) (h : A.getLast? = some x) : False := by
  have := hA x (mem_of_getLast?_eq_some h)
  rw [hcx] at this
  exact absurd this (by simp)

/-- Straddle killer: an all-condition string cannot start with a
non-condition character. -/
theorem strad_head_cond {A : Str} (hA : ∀ c ∈ A, condChar c = true) {y : Char}
    (hcy : condChar y = false) (h : A.head? = some y) : False := by
  have := hA y (mem_of_head?_eq_some h)
  rw [hcy] at this
  exact absurd this (by simp)

/-- Straddle killer: an append headed by a nonempty all-condition string
cannot start with a non-condition character. -/
theorem strad_headApp_cond {A r : Str} (hAne : A ≠ [])
    (hA : ∀ c ∈ A, condChar c = true) {y : Char} (hcy : condChar y = false)
    (h : (A ++ r).head? = some y) : False := by
  have := hA y (mem_of_head?_append hAne h)
  rw [hcy] at this
  exact absurd this (by simp)

/-- A singleton never contains a two-character pattern. -/
theorem occursSub_single2 (c0 a b : Char) : occursSub [c0] [a, b] = false := by
  simp [occursSub, List.isPrefixOf]

/-- A singleton never contains a four-character pattern. -/
theorem occursSub_single4 (c0 a b c d : Char) :
    occursSub [c0] [a, b, c, d] = false := by
  simp [occursSub, List.isPrefixOf]

/-- No two-character pattern of non-condition characters occurs in the
plain-shape query, given its absence from the concrete segments. -/
theorem qN_no2 {A B : Str} (hAne : A ≠ []) (hA : ∀ c ∈ A, condChar c = true)
    (hB : ∀ c ∈ B, condChar c = true) {a b : Char}
    (hca : condChar a = false) (hcb : condChar b = false)
    (h1 : occursSub "SELECT * FROM t WHERE ".data [a, b] = false)
    (h2 : occursSub " AND ".data [a, b] = false) :
    occursSub ("SELECT * FROM t WHERE ".data ++ (A ++ (" AND ".data ++ B)))
      [a, b] = false := by
  refine occursSub_append_false2 h1 ?_ ?_
  · refine occursSub_append_false2 (cond_no_pat hA (by simp) hca) ?_ ?_
    · refine occursSub_append_false2 h2 (cond_no_pat hB (by simp) hca) ?_
      intro _ hh
      exact strad_head_cond hB hcb hh
    · intro hl _
      exact strad_last_cond hA hca hl
  · intro _ hh
    exact strad_headApp_cond hAne hA hcb hh

/-- No four-character pattern of non-condition characters occurs in the
plain-shape query, given its absence from the concrete segments and that
its tail characters are not `(`. -/
theorem qN_no4 {A B : Str} (hAne : A ≠ []) (hA : ∀ c ∈ A, condChar c = true)
    (hB : ∀ c ∈ B, condChar c = true) {a b c d : Char}
    (hca : condChar a = false) (hcb : condChar b = false)
    (hcc : condChar c = false) (hcd : condChar d = false)
    (h1 : occursSub "SELECT * FROM t WHERE ".data [a, b, c, d] = false)
    (h2 : occursSub " AND ".data [a, b, c, d] = false) :
    occursSub ("SELECT * FROM t WHERE ".data ++ (A ++ (" AND ".data ++ B)))
      [a, b, c, d] = false := by
  refine occursSub_append_false4 h1 ?_ ?_ ?_ ?_
  · refine occursSub_append_false4 (cond_no_pat hA (by simp) hca) ?_ ?_ ?_ ?_
    · refine occursSub_append_false4 h2 (cond_no_pat hB (by simp) hca) ?_ ?_ ?_
      · intro _ hh; exact strad_head_cond hB hcb hh
      · intro _ hh; exact strad_head_cond hB hcc hh
      · intro _ hh; exact strad_head_cond hB hcd hh
    · intro hl _; exact strad_last_cond hA hca hl
    · intro hl _; exact strad_last_cond hA hcb hl
    · intro hl _; exact strad_last_cond hA hcc hl
  · intro _ hh; exact strad_headApp_cond hAne hA hcb hh
  · intro _ hh; exact strad_headApp_cond hAne hA hcc hh
  · intro _ hh; exact strad_headApp_cond hAne hA hcd hh

/-- No two-character pattern of non-condition characters (whose second
character is not `(`) occurs in the parenthesized-shape query, given its
absence from the concrete segments. -/
theorem qP_no2 {A B : Str} (hAne : A ≠ []) (hA : ∀ c ∈ A, condChar c = true)
    (hBne : B ≠ []) (hB : ∀ c ∈ B, condChar c = true) {a b : Char}
    (hca : condChar a = false) (hcb : condChar b = false) (hbp : b ≠ '(')
    (h1 : occursSub "SELECT * FROM t WHERE ".data [a, b] = false)
    (h2 : occursSub ") AND (".data [a, b] = false) :
    occursSub ("SELECT * FROM t WHERE ".data
        ++ ('(' :: (A ++ (") AND (".data ++ (B ++ [')']))))) [a, b] = false := by
  refine occursSub_append_false2 h1 ?_ ?_
  · show occursSub (['('] ++ (A ++ (") AND (".data ++ (B ++ [')'])))) [a, b] = false
    refine occursSub_append_false2 (occursSub_single2 '(' a b) ?_ ?_
    · refine occursSub_append_false2 (cond_no_pat hA (by simp) hca) ?_ ?_
      · refine occursSub_append_false2 h2 ?_ ?_
        · refine occursSub_append_false2 (cond_no_pat hB (by simp) hca)
            (occursSub_single2 ')' a b) ?_
          intro hl _
          exact strad_last_cond hB hca hl
        · intro _ hh
          exact strad_headApp_cond hBne hB hcb hh
      · intro hl _
        exact strad_last_cond hA hca hl
    · intro _ hh
      exact strad_headApp_cond hAne hA hcb hh
  · intro _ hh
    have : ('(' : Char) = b := by simpa using hh
    exact hbp this.symm

/-- No four-character pattern of non-condition characters (none of whose
last three characters is `(`) occurs in the parenthesized-shape query,
given its absence from the concrete segments. -/
theorem qP_no4 {A B : Str} (hAne : A ≠ []) (hA : ∀ c ∈ A, condChar c = true)
    (hBne : B ≠ []) (hB : ∀ c ∈ B, condChar c = true) {a b c d : Char}
    (hca : condChar a = false) (hcb : condChar b = false)
    (hcc : condChar c = false) (hcd : condChar d = false)
    (hbp : b ≠ '(') (hcp : c ≠ '(') (hdp : d ≠ '(')
    (h1 : occursSub "SELECT * FROM t WHERE ".data [a, b, c, d] = false)
    (h2 : occursSub ") AND (".data [a, b, c, d] = false) :
    occursSub ("SELECT * FROM t WHERE ".data
        ++ ('(' :: (A ++ (") AND (".data ++ (B ++ [')'])))))
      [a, b, c, d] = false := by
  refine occursSub_append_false4 h1 ?_ ?_ ?_ ?_
  · show occursSub (['('] ++ (A ++ (") AND (".data ++ (B ++ [')']))))
      [a, b, c, d] = false
    refine occursSub_append_false4 (occursSub_single4 '(' a b c d) ?_ ?_ ?_ ?_
    · refine occursSub_append_false4 (cond_no_pat hA (by simp) hca) ?_ ?_ ?_ ?_
      · refine occursSub_append_false4 h2 ?_ ?_ ?_ ?_
        · refine occursSub_append_false4 (cond_no_pat hB (by simp) hca)
            (occursSub_single4 ')' a b c d) ?_ ?_ ?_
          · intro hl _; exact strad_last_cond hB hca hl
          · intro hl _; exact strad_last_cond hB hcb hl
          · intro hl _; exact strad_last_cond hB hcc hl
        · intro _ hh; exact strad_headApp_cond hBne hB hcb hh
        · intro _ hh; exact strad_headApp_cond hBne hB hcc hh
        · intro _ hh; exact strad_headApp_cond hBne hB hcd hh
      · intro hl _; exact strad_last_cond hA hca hl
      · intro hl _; exact strad_last_cond hA hcb hl
      · intro hl _; exact strad_last_cond hA hcc hl
    · intro _ hh; exact strad_headApp_cond hAne hA hcb hh
    · intro _ hh; exact strad_headApp_cond hAne hA hcc hh
    · intro _ hh; exact strad_headApp_cond hAne hA hcd hh
  · intro _ hh
    have : ('(' : Char) = b := by simpa using hh
    exact hbp this.symm
  · intro _ hh
    have : ('(' : Char) = c := by simpa using hh
    exact hcp this.symm
  · intro _ hh
    have : ('(' : Char) = d := by simpa using hh
    exact hdp this.symm

/-- An append with a nonempty right part is nonempty. -/
theorem app_ne_nil_right {l l' : List α} (h : l' ≠ []) : l ++ l' ≠ [] :=
  fun hc => h (List.append_eq_nil.mp hc).2

/-- Membership screen for the plain-shape query. -/
theorem not_mem_qN {A B : Str} (hA : ∀ c ∈ A, condChar c = true)
    (hB : ∀ c ∈ B, condChar c = true) {d : Char} (hd : condChar d = false)
    (h1 : d ∉ "SELECT * FROM t WHERE ".data) (h2 : d ∉ " AND ".data) :
    d ∉ "SELECT * FROM t WHERE ".data ++ (A ++ (" AND ".data ++ B)) := by
  intro hm
  rcases List.mem_append.mp hm with h | h
  · exact h1 h
  rcases List.mem_append.mp h with h | h
  · exact not_mem_cond hA hd h
  rcases List.mem_append.mp h with h | h
  · exact h2 h
  · exact not_mem_cond hB hd h

/-- Membership screen for the parenthesized-shape query. -/
theorem not_mem_qP {A B : Str} (hA : ∀ c ∈ A, condChar c = true)
    (hB : ∀ c ∈ B, condChar c = true) {d : Char} (hd : condChar d = false)
    (h1 : d ∉ "SELECT * FROM t WHERE ".data) (h2 : d ≠ '(')
    (h3 : d ∉ ") AND (".data) (h4 : d ≠ ')') :
    d ∉ "SELECT * FROM t WHERE ".data
        ++ ('(' :: (A ++ (") AND (".data ++ (B ++ [')'])))) := by
  intro hm
  rcases List.mem_append.mp hm with h | h
  · exact h1 h
  rcases List.mem_cons.mp h with h | h
  · exact h2 h
  rcases List.mem_append.mp h with h | h
  · exact not_mem_cond hA hd h
  rcases List.mem_append.mp h with h | h
  · exact h3 h
  rcases List.mem_append.mp h with h | h
  · exact not_mem_cond hB hd h
  · exact h4 (by simpa using h)

/-- Queries starting with `SELECT` have a whitespace-free head. -/
theorem headOk_qS (x : Str) : headOk ("SELECT * FROM t WHERE ".data ++ x) := by
  intro h hh
  have hS : (("SELECT * FROM t WHERE ".data : Str) ++ x).head? = some 'S' := rfl
  rw [hS] at hh
  have : 'S' = h := by simpa using hh
  rw [← this]
  decide

/-- The plain-shape query ends in its last condition character. -/
theorem lastOk_qN {A B : Str} (hBne : B ≠ [])
    (hB : ∀ c ∈ B, condChar c = true) :
    lastOk ("SELECT * FROM t WHERE ".data ++ (A ++ (" AND ".data ++ B))) := by
  intro h hh
  rw [getLast?_append_of_ne_nil (app_ne_nil_right (app_ne_nil_right hBne)),
    getLast?_append_of_ne_nil (app_ne_nil_right hBne),
    getLast?_append_of_ne_nil hBne] at hh
  exact cond_lastOk hB h hh

/-- The parenthesized-shape query ends in `)`. -/
theorem lastOk_qP (A B : Str) :
    lastOk ("SELECT * FROM t WHERE ".data
      ++ ('(' :: (A ++ (") AND (".data ++ (B ++ [')']))))) := by
  intro h hh
  have hcons : ('(' :: (A ++ (") AND (".data ++ (B ++ [')']))) : Str)
      = ['('] ++ (A ++ (") AND (".data ++ (B ++ [')']))) := rfl
  rw [hcons,
    getLast?_append_of_ne_nil (app_ne_nil_right (app_ne_nil_right
      (app_ne_nil_right (by simp)))),
    getLast?_append_of_ne_nil (app_ne_nil_right (app_ne_nil_right (by simp))),
    getLast?_append_of_ne_nil (app_ne_nil_right (by simp)),
    getLast?_append_of_ne_nil (by simp)] at hh
  have : (')' : Char) = h := by simpa using hh
  rw [← this]
  decide

/-- `basicNormalize` is the identity on already-normal strings. -/
theorem basicNormalize_id {s : Str} (hh : headOk s) (hl : lastOk s)
    (hn : '\n' ∉ s) (ht : '\t' ∉ s) (hdd : occursSub s [' ', ' '] = false)
    (hps : occursSub s ['(', ' '] = false) (hsp : occursSub s [' ', ')'] = false) :
    basicNormalize s = s := by
  have e1 : trimSpace s = s := trimSpace_eq_self hh hl
  have e2 : replaceAll s ['\n'] [' '] = s :=
    replaceAll_eq_self_of_not_occurs s.length (occursSub_singleton_false hn)
  have e3 : replaceAll s ['\t'] [' '] = s :=
    replaceAll_eq_self_of_not_occurs s.length (occursSub_singleton_false ht)
  have e4 : collapseSpaces s = s := collapseSpacesF_eq_self hdd s.length
  have e5 : replaceAll s ['(', ' '] ['('] = s :=
    replaceAll_eq_self_of_not_occurs s.length hps
  have e6 : replaceAll s [' ', ')'] [')'] = s :=
    replaceAll_eq_self_of_not_occurs s.length hsp
  show replaceAll (replaceAll (collapseSpaces (replaceAll (replaceAll
      (trimSpace s) ['\n'] [' ']) ['\t'] [' '])) ['(', ' '] ['(']) [' ', ')'] [')'] = s
  rw [e1, e2, e3, e4, e5, e6]

/-- The first four pipeline passes (basic normalization, backtick strip,
charset strip, LIMIT pass) are the identity on already-normal strings
without backticks, underscores or an `I`. -/
theorem pre_stages_id {s : Str} (hh : headOk s) (hl : lastOk s)
    (hn : '\n' ∉ s) (ht : '\t' ∉ s) (hdd : occursSub s [' ', ' '] = false)
    (hps : occursSub s ['(', ' '] = false) (hsp : occursSub s [' ', ')'] = false)
    (hb : backtick ∉ s) (hu : '_' ∉ s) (hI : 'I' ∉ s) :
    normalizeLimitClause (utf8mb4Replace (replaceAll (basicNormalize s)
      [backtick] [])) = s := by
  rw [basicNormalize_id hh hl hn ht hdd hps hsp]
  rw [show replaceAll s [backtick] [] = s from
    replaceAll_eq_self_of_not_occurs s.length (occursSub_singleton_false hb)]
  rw [show utf8mb4Replace s = s from utf8mb4ReplaceF_eq_self s.length hu]
  exact normalizeLimitClause_id (findSub_none_of_not_occurs
    (occursSub_false_of_not_mem (by decide) hI))

/-- The join-order pass is the identity on `SELECT * FROM t WHERE …`: the
FROM section `" FROM t"` contains no join keyword. -/
theorem njo_whereQ (x : Str) :
    normalizeJoinOrder ("SELECT * FROM t WHERE ".data ++ x)
      = "SELECT * FROM t WHERE ".data ++ x := by
  have hfrom : findSub ("SELECT * FROM t WHERE ".data ++ x) " FROM ".data
      = some 8 := by
    have hsplit : ("SELECT * FROM t WHERE ".data : Str) ++ x
        = "SELECT * FROM ".data ++ ("t WHERE ".data ++ x) := rfl
    rw [hsplit]
    exact findSub_append_left (by decide) ("t WHERE ".data ++ x)
  have hdrop14 : (("SELECT * FROM t WHERE ".data : Str) ++ x).drop (8 + 6)
      = "t WHERE ".data ++ x := by
    rw [List.drop_append_eq_append_drop]
    rfl
  have hwhere : findSub ((("SELECT * FROM t WHERE ".data : Str) ++ x).drop (8 + 6))
      " WHERE ".data = some 1 := by
    rw [hdrop14]
    exact findSub_append_left (by decide) x
  have htake : (("SELECT * FROM t WHERE ".data : Str) ++ x).take (1 + (8 + 6))
      = "SELECT * FROM t".data := by
    rw [List.take_append_eq_append_take]
    rfl
  have hjoin : findSub
      (sliceGo ("SELECT * FROM t WHERE ".data ++ x) 8 (1 + (8 + 6)))
      " JOIN ".data = none := by
    unfold sliceGo
    rw [htake]
    decide
  have hleft : findSub
      (sliceGo ("SELECT * FROM t WHERE ".data ++ x) 8 (1 + (8 + 6)))
      " LEFT ".data = none := by
    unfold sliceGo
    rw [htake]
    decide
  unfold normalizeJoinOrder
  rw [hfrom]
  simp only [hwhere, hjoin, hleft]

/-- The ` AND ` keyword cannot start at a non-space character. -/
theorem and_isPrefixOf_false {c : Char} (hc : c ≠ ' ') (t : Str) :
    (" AND ".data.isPrefixOf (c :: t)) = false := by
  have hbeq : ((' ' : Char) == c) = false := by
    simp only [beq_eq_false_iff_ne, ne_eq]
    exact fun h => hc h.symm
  show ((' ' :: "AND ".data).isPrefixOf (c :: t)) = false
  simp [List.isPrefixOf, hbeq]

/-- `wrapScan` ignores condition characters. -/
theorem wrapScan_skip : ∀ {A : Str}, (∀ c ∈ A, condChar c = true) →
    ∀ (r : Str) (d : Int), wrapScan (A ++ r) d = wrapScan r d := by
  intro A
  induction A with
  | nil => intro _ r d; rfl
  | cons c t ih =>
    intro hA r d
    have hc := hA c (List.mem_cons_self c t)
    have h1 : c ≠ '(' := condChar_ne hc (by decide)
    have h2 : c ≠ ')' := condChar_ne hc (by decide)
    show wrapScan (c :: (t ++ r)) d = wrapScan r d
    simp only [wrapScan]
    rw [if_neg h1, if_neg h2]
    exact ih (fun x hx => hA x (List.mem_cons_of_mem c hx)) r d

/-- `andScan` ignores condition characters (at any depth). -/
theorem andScan_skip : ∀ {A : Str}, (∀ c ∈ A, condChar c = true) →
    ∀ (r : Str) (d : Int), andScan (A ++ r) d = andScan r d := by
  intro A
  induction A with
  | nil => intro _ r d; rfl
  | cons c t ih =>
    intro hA r d
    have hc := hA c (List.mem_cons_self c t)
    have h1 : c ≠ '(' := condChar_ne hc (by decide)
    have h2 : c ≠ ')' := condChar_ne hc (by decide)
    have h3 : c ≠ ' ' := condChar_ne hc (by decide)
    have h4 : (decide (d = 0) && " AND ".data.isPrefixOf (c :: (t ++ r)))
        = false := by
      rw [and_isPrefixOf_false h3]
      exact Bool.and_false _
    show andScan (c :: (t ++ r)) d = andScan r d
    simp only [andScan]
    rw [if_neg h1, if_neg h2]
    simp only [h4, Bool.false_eq_true, if_false]
    exact ih (fun x hx => hA x (List.mem_cons_of_mem c hx)) r d

/-- `splitWhereConditions`' scanning loop accumulates condition characters
without splitting. -/
theorem splitWCF_skip : ∀ {A : Str}, (∀ c ∈ A, condChar c = true) →
    ∀ (n : Nat) (s cur : Str) (d : Int) (acc : List Str),
      splitWCF (A.length + n) (A ++ s) cur d acc = splitWCF n s (cur ++ A) d acc := by
  intro A
  induction A with
  | nil =>
    intro _ n s cur d acc
    simp
  | cons c t ih =>
    intro hA n s cur d acc
    have hc := hA c (List.mem_cons_self c t)
    have h1 : c ≠ '(' := condChar_ne hc (by decide)
    have h2 : c ≠ ')' := condChar_ne hc (by decide)
    have h3 : c ≠ ' ' := condChar_ne hc (by decide)
    have h4 : (decide (d = 0) && " AND ".data.isPrefixOf (c :: (t ++ s)))
        = false := by
      rw [and_isPrefixOf_false h3]
      exact Bool.and_false _
    have hlen : (c :: t).length + n = (t.length + n) + 1 := by
      simp only [List.length_cons]
      omega
    rw [hlen]
    show splitWCF ((t.length + n) + 1) (c :: (t ++ s)) cur d acc
      = splitWCF n s (cur ++ c :: t) d acc
    simp only [splitWCF]
    rw [if_neg h1, if_neg h2]
    simp only [h4, Bool.false_eq_true, if_false]
    rw [ih (fun x hx => hA x (List.mem_cons_of_mem c hx)) n s (cur ++ [c]) d acc]
    rw [List.append_assoc]
    rfl

/-- The `cleanCondition` loop fires only on an orphaned leading `)` or
trailing `(`. -/
theorem cleanCondLoopF_id (n : Nat) {cond : Str} (h1 : cond.headD ' ' ≠ ')')
    (h2 : cond.getLastD ' ' ≠ '(') : cleanCondLoopF n cond = cond := by
  cases n with
  | zero => rfl
  | succ n =>
    have hcnd : (decide (cond.length > 0) &&
        (decide (cond.headD ' ' = ')') || decide (cond.getLastD ' ' = '('))) = false := by
      simp only [Bool.and_eq_false_iff, Bool.or_eq_false_iff, decide_eq_false_iff_not]
      right
      exact ⟨h1, h2⟩
    simp only [cleanCondLoopF, hcnd, Bool.false_eq_true, if_false]

/-- The paren-stripping loop fires only when the string starts with `(`. -/
theorem flattenLoopF_id (n : Nat) {s : Str} (h : s.headD ' ' ≠ '(') :
    flattenLoopF n s = s := by
  cases n with
  | zero => rfl
  | succ n =>
    have hcnd : (decide (s.length ≥ 2) && decide (s.headD ' ' = '(') &&
        decide (s.getLastD ' ' = ')')) = false := by
      simp only [Bool.and_eq_false_iff, decide_eq_false_iff_not]
      left
      right
      exact h
    simp only [flattenLoopF, hcnd, Bool.false_eq_true, if_false]

/-- `flushCond` appends a clean, trim-stable, nonempty condition as is. -/
theorem flushCond_id {C : Str} (hCne : C ≠ []) (htr : trimSpace C = C)
    (hh : C.headD ' ' ≠ ')') (hl : C.getLastD ' ' ≠ '(') (acc : List Str) :
    flushCond C acc = acc ++ [C] := by
  have hlen : C.length > 0 := List.length_pos.mpr hCne
  have hcc : cleanCondition C = C := by
    unfold cleanCondition
    rw [htr]
    exact cleanCondLoopF_id C.length hh hl
  simp only [flushCond, htr, hcc]
  rw [if_pos hlen, if_pos hCne]

/-- The `headD` of a nonempty all-condition string is a condition
character. -/
theorem cond_headD {A : Str} (hAne : A ≠ []) (hA : ∀ c ∈ A, condChar c = true) :
    condChar (A.headD ' ') = true := by
  cases A with
  | nil => exact absurd rfl hAne
  | cons a t => exact hA a (List.mem_cons_self a t)

/-- The `getLastD` of a nonempty all-condition string is a condition
character. -/
theorem cond_getLastD {A : Str} (hAne : A ≠ [])
    (hA : ∀ c ∈ A, condChar c = true) : condChar (A.getLastD ' ') = true := by
  obtain ⟨x, hx⟩ := exists_getLast?_of_ne_nil hAne
  have hmem := mem_of_getLast?_eq_some hx
  have hgd : A.getLastD ' ' = x := by
    rw [List.getLastD_eq_getLast?, hx]
    rfl
  rw [hgd]
  exact hA x hmem

/-- `flushCond` keeps a bare condition. -/
theorem flushCond_cond {A : Str} (hAne : A ≠ [])
    (hA : ∀ c ∈ A, condChar c = true) (acc : List Str) :
    flushCond A acc = acc ++ [A] :=
  flushCond_id hAne (cond_trimSpace hA)
    (condChar_ne (cond_headD hAne hA) (by decide))
    (condChar_ne (cond_getLastD hAne hA) (by decide)) acc

/-- A bare condition splits into itself. -/
theorem splitWC_single {A : Str} (hAne : A ≠ [])
    (hA : ∀ c ∈ A, condChar c = true) : splitWhereConditions A = [A] := by
  unfold splitWhereConditions
  have h1 : splitWCF (A.length + 1) (A ++ []) [] 0 [] = splitWCF 1 [] ([] ++ A) 0 [] :=
    splitWCF_skip hA 1 [] [] 0 []
  rw [List.append_nil] at h1
  rw [h1]
  show flushCond ([] ++ A) [] = [A]
  rw [List.nil_append, flushCond_cond hAne hA]
  rfl

/-- One step of the scanning loop at a top-level ` AND `. -/
theorem splitWCF_and_step (n : Nat) (R cur : Str) (acc : List Str) :
    splitWCF (n + 1) (" AND ".data ++ R) cur 0 acc
      = splitWCF n R [] 0 (flushCond cur acc) := by
  show splitWCF (n + 1) (' ' :: (['A', 'N', 'D', ' '] ++ R)) cur 0 acc
    = splitWCF n R [] 0 (flushCond cur acc)
  have h2 : ([' ', 'A', 'N', 'D', ' '].isPrefixOf
      (' ' :: (['A', 'N', 'D', ' '] ++ R))) = true :=
    List.isPrefixOf_iff_prefix.mpr ⟨R, rfl⟩
  simp only [splitWCF]
  simp [h2]

/-- One step of the scanning loop at `(`. -/
theorem splitWCF_paren_open (n : Nat) (t cur : Str) (d : Int) (acc : List Str) :
    splitWCF (n + 1) ('(' :: t) cur d acc
      = splitWCF n t (cur ++ ['(']) (d + 1) acc := by
  simp only [splitWCF]
  simp

/-- One step of the scanning loop at `)`. -/
theorem splitWCF_paren_close (n : Nat) (t cur : Str) (d : Int) (acc : List Str) :
    splitWCF (n + 1) (')' :: t) cur d acc
      = splitWCF n t (cur ++ [')']) (d - 1) acc := by
  simp only [splitWCF]
  simp

/-- `A AND B` splits into the two conditions. -/
theorem splitWC_plain {A B : Str} (hAne : A ≠ []) (hA : ∀ c ∈ A, condChar c = true)
    (hBne : B ≠ []) (hB : ∀ c ∈ B, condChar c = true) :
    splitWhereConditions (A ++ (" AND ".data ++ B)) = [A, B] := by
  unfold splitWhereConditions
  have hlen : (A ++ (" AND ".data ++ B)).length + 1 = A.length + ((B.length + 5) + 1) := by
    simp only [List.length_append, show (" AND ".data : Str).length = 5 from rfl]
    omega
  rw [hlen, splitWCF_skip hA ((B.length + 5) + 1) (" AND ".data ++ B) [] 0 [],
    List.nil_append]
  rw [splitWCF_and_step (B.length + 5) B A []]
  rw [flushCond_cond hAne hA, List.nil_append]
  have h2 : splitWCF (B.length + 5) (B ++ []) [] 0 [A] = splitWCF 5 [] ([] ++ B) 0 [A] :=
    splitWCF_skip hB 5 [] [] 0 [A]
  rw [List.append_nil] at h2
  rw [h2]
  show flushCond ([] ++ B) [A] = [A, B]
  rw [List.nil_append, flushCond_cond hBne hB]
  rfl

/-- `flushCond` keeps a parenthesized condition as is (the leading `(` and
trailing `)` are balanced, not orphaned). -/
theorem flushCond_paren {A : Str} (acc : List Str) :
    flushCond ((['('] ++ A) ++ [')']) acc = acc ++ [(['('] ++ A) ++ [')']] := by
  apply flushCond_id
  · exact app_ne_nil_right (by simp)
  · apply trimSpace_eq_self
    · intro h hh
      rw [head?_append_left [')'] (head?_append_left A (show (['('] : Str).head? = some '(' from rfl))] at hh
      have he : '(' = h := by simpa using hh
      rw [← he]
      decide
    · intro h hh
      rw [getLast?_append_of_ne_nil (by simp)] at hh
      have he : ')' = h := by simpa using hh
      rw [← he]
      decide
  · rw [List.headD_eq_head?_getD, head?_append_left [')'] (head?_append_left A (show (['('] : Str).head? = some '(' from rfl))]
    decide
  · rw [List.getLastD_eq_getLast?, getLast?_append_of_ne_nil (by simp)]
    decide

/-- `(A) AND (B)` splits into the two parenthesized conditions. -/
theorem splitWC_paren {A B : Str} (hA : ∀ c ∈ A, condChar c = true)
    (hB : ∀ c ∈ B, condChar c = true) :
    splitWhereConditions ('(' :: (A ++ (") AND (".data ++ (B ++ [')']))))
      = [(['('] ++ A) ++ [')'], (['('] ++ B) ++ [')']] := by
  unfold splitWhereConditions
  rw [splitWCF_paren_open ('(' :: (A ++ (") AND (".data ++ (B ++ [')'])))).length
    (A ++ (") AND (".data ++ (B ++ [')']))) [] 0 []]
  rw [List.nil_append, show ((0 : Int) + 1) = 1 from rfl]
  rw [show ('(' :: (A ++ (") AND (".data ++ (B ++ [')'])))).length
      = A.length + ((B.length + 8) + 1) from by
    simp only [List.length_cons, List.length_append, List.length_nil,
      show (") AND (".data : Str).length = 7 from rfl]
    omega]
  rw [splitWCF_skip hA ((B.length + 8) + 1) (") AND (".data ++ (B ++ [')']))
    ['('] 1 []]
  rw [show (") AND (".data ++ (B ++ [')']) : Str)
      = ')' :: (" AND ".data ++ ('(' :: (B ++ [')']))) from rfl]
  rw [splitWCF_paren_close (B.length + 8) (" AND ".data ++ ('(' :: (B ++ [')'])))
    (['('] ++ A) 1 []]
  rw [show ((1 : Int) - 1) = 0 from rfl]
  rw [show B.length + 8 = (B.length + 7) + 1 from rfl]
  rw [splitWCF_and_step (B.length + 7) ('(' :: (B ++ [')'])) ((['('] ++ A) ++ [')']) []]
  rw [flushCond_paren, List.nil_append]
  rw [show B.length + 7 = (B.length + 6) + 1 from rfl]
  rw [splitWCF_paren_open (B.length + 6) (B ++ [')']) [] 0 [(['('] ++ A) ++ [')']]]
  rw [List.nil_append, show ((0 : Int) + 1) = 1 from rfl]
  rw [splitWCF_skip hB 6 [')'] ['('] 1 [(['('] ++ A) ++ [')']]]
  rw [show (6 : Nat) = 5 + 1 from rfl]
  rw [splitWCF_paren_close 5 [] (['('] ++ B) 1 [(['('] ++ A) ++ [')']]]
  show flushCond ((['('] ++ B) ++ [')']) [(['('] ++ A) ++ [')']]
    = [(['('] ++ A) ++ [')'], (['('] ++ B) ++ [')']]
  rw [flushCond_paren]
  rfl

/-- A parenthesized condition is `TrimSpace`-stable. -/
theorem trimSpace_wrap (A : Str) :
    trimSpace ((['('] ++ A) ++ [')']) = (['('] ++ A) ++ [')'] := by
  apply trimSpace_eq_self
  · intro h hh
    rw [head?_append_left [')'] (head?_append_left A
      (show (['('] : Str).head? = some '(' from rfl))] at hh
    have he : '(' = h := by simpa using hh
    rw [← he]
    decide
  · intro h hh
    rw [getLast?_append_of_ne_nil (by simp)] at hh
    have he : ')' = h := by simpa using hh
    rw [← he]
    decide

/-- `flattenNestedParentheses` is the identity on a bare condition. -/
theorem fnp_cond {A : Str} (hAne : A ≠ []) (hA : ∀ c ∈ A, condChar c = true) :
    flattenNestedParentheses A = A := by
  unfold flattenNestedParentheses
  rw [cond_trimSpace hA]
  exact flattenLoopF_id A.length (condChar_ne (cond_headD hAne hA) (by decide))

/-- The head of an append headed by a nonempty all-condition string is a
condition character. -/
theorem headD_plain {A : Str} (hAne : A ≠ [])
    (hA : ∀ c ∈ A, condChar c = true) (rest : Str) :
    condChar ((A ++ rest).headD ' ') = true := by
  obtain ⟨a0, ha0⟩ := exists_head?_of_ne_nil hAne
  rw [List.headD_eq_head?_getD, head?_append_left rest ha0]
  exact hA a0 (mem_of_head?_eq_some ha0)

/-- `A AND B` is `TrimSpace`-stable. -/
theorem trimSpace_plain {A B : Str} (hAne : A ≠ [])
    (hA : ∀ c ∈ A, condChar c = true) (hBne : B ≠ [])
    (hB : ∀ c ∈ B, condChar c = true) :
    trimSpace (A ++ (" AND ".data ++ B)) = A ++ (" AND ".data ++ B) := by
  apply trimSpace_eq_self
  · intro h hh
    obtain ⟨a0, ha0⟩ := exists_head?_of_ne_nil hAne
    rw [head?_append_left _ ha0] at hh
    have he : a0 = h := by simpa using hh
    rw [← he]
    exact condChar_not_space (hA a0 (mem_of_head?_eq_some ha0))
  · intro h hh
    rw [getLast?_append_of_ne_nil (app_ne_nil_right hBne),
      getLast?_append_of_ne_nil hBne] at hh
    exact cond_lastOk hB h hh

/-- `flattenNestedParentheses` is the identity on `A AND B`. -/
theorem fnp_plain {A B : Str} (hAne : A ≠ [])
    (hA : ∀ c ∈ A, condChar c = true) (hBne : B ≠ [])
    (hB : ∀ c ∈ B, condChar c = true) :
    flattenNestedParentheses (A ++ (" AND ".data ++ B))
      = A ++ (" AND ".data ++ B) := by
  unfold flattenNestedParentheses
  rw [trimSpace_plain hAne hA hBne hB]
  exact flattenLoopF_id _ (condChar_ne (headD_plain hAne hA _) (by decide))

/-- One firing of the paren-stripping loop. -/
theorem flattenLoopF_wrap_step (n : Nat) {s : Str} (h2 : s.length ≥ 2)
    (hh : s.headD ' ' = '(') (hl : s.getLastD ' ' = ')')
    (hw : wrapScan (s.take (s.length - 1)) 0 = true) :
    flattenLoopF (n + 1) s = flattenLoopF n (trimSpace (sliceGo s 1 (s.length - 1))) := by
  have hcnd : (decide (s.length ≥ 2) && decide (s.headD ' ' = '(') &&
      decide (s.getLastD ' ' = ')')) = true := by
    rw [List.headD_eq_head?_getD] at hh
    rw [List.getLastD_eq_getLast?] at hl
    simp [h2, hh, hl]
  simp only [flattenLoopF]
  rw [if_pos hcnd, if_pos hw]

/-- The wrapped slice of a parenthesized condition is the condition. -/
theorem sliceGo_wrap (A : Str) :
    sliceGo ((['('] ++ A) ++ [')']) 1 (((['('] ++ A) ++ [')']).length - 1) = A := by
  unfold sliceGo
  rw [show ((['('] ++ A) ++ [')']).length - 1 = (['('] ++ A).length from by simp]
  rw [List.take_left]
  rfl

/-- `flattenNestedParentheses` strips the wrapper of a parenthesized
condition. -/
theorem fnp_wrap {A : Str} (hAne : A ≠ []) (hA : ∀ c ∈ A, condChar c = true) :
    flattenNestedParentheses ((['('] ++ A) ++ [')']) = A := by
  unfold flattenNestedParentheses
  rw [trimSpace_wrap]
  have hw : wrapScan (((['('] ++ A) ++ [')']).take
      (((['('] ++ A) ++ [')']).length - 1)) 0 = true := by
    rw [show ((['('] ++ A) ++ [')']).length - 1 = (['('] ++ A).length from by simp]
    rw [List.take_left]
    show wrapScan ('(' :: A) 0 = true
    simp only [wrapScan, if_true]
    have hsk := wrapScan_skip hA [] (0 + 1)
    rw [List.append_nil] at hsk
    rw [hsk]
    rfl
  rw [show ((['('] ++ A) ++ [')']).length = (A.length + 1) + 1 from by simp]
  rw [flattenLoopF_wrap_step (A.length + 1) (by simp) (by
      rw [List.headD_eq_head?_getD, head?_append_left [')'] (head?_append_left A
        (show (['('] : Str).head? = some '(' from rfl))]
      rfl)
    (by
      rw [List.getLastD_eq_getLast?, getLast?_append_of_ne_nil (by simp)]
      rfl)
    hw]
  rw [sliceGo_wrap A]
  rw [cond_trimSpace hA]
  exact flattenLoopF_id _ (condChar_ne (cond_headD hAne hA) (by decide))

/-- A bare condition is already flat. -/
theorem faec_cond {A : Str} (hAne : A ≠ []) (hA : ∀ c ∈ A, condChar c = true) :
    flattenAndExtractConditions A = [A] := by
  unfold flattenAndExtractConditions
  simp only [flattenAndExtractF]
  rw [fnp_cond hAne hA, splitWC_single hAne hA]
  rw [if_neg (by simp : ¬(([A] : List Str).length > 1))]

/-- A parenthesized condition flattens to the bare condition. -/
theorem faec_wrap {A : Str} (hAne : A ≠ []) (hA : ∀ c ∈ A, condChar c = true) :
    flattenAndExtractConditions ((['('] ++ A) ++ [')']) = [A] := by
  unfold flattenAndExtractConditions
  simp only [flattenAndExtractF]
  rw [fnp_wrap hAne hA, splitWC_single hAne hA]
  rw [if_neg (by simp : ¬(([A] : List Str).length > 1))]

/-- The "GORM v1 style" unwrap step of `normalizeMainWhereClause`, split
out of the let-chain: a clause wrapped in parentheses whose interior has a
top-level ` AND ` is unwrapped. -/
def mainUnwrap (w : Str) : Str :=
  if w.length ≥ 2 && (w.headD ' ' = '(') && (w.getLastD ' ' = ')') then
    let inner := trimSpace (sliceGo w 1 (w.length - 1))
    if occursSub inner " AND ".data && andScan inner 0 then inner else w
  else w

/-- Symbolic execution of `normalizeMainWhereClause` on
`SELECT * FROM t WHERE <body>`: the WHERE clause is `body`, and the result
re-emits the flattened, deduplicated, sorted conditions. -/
theorem nmw_frame (body : Str)
    (hON : occursSub ("SELECT * FROM t WHERE ".data ++ body) " ON ".data = false)
    (hY : 'Y' ∉ body) (hI : 'I' ∉ body)
    (hsemi : goHasSuf body [';'] = false) :
    normalizeMainWhereClause ("SELECT * FROM t WHERE ".data ++ body)
      = "SELECT * FROM t".data ++ " WHERE ".data
        ++ List.intercalate " AND ".data (sortStrings (removeDuplicateConditions
            (List.flatten (List.map flattenAndExtractConditions
              (splitWhereConditions
                (mainUnwrap (trimSpace (flattenNestedParentheses body)))))))) := by
  have hq : ("SELECT * FROM t WHERE ".data : Str) ++ body
      = "SELECT * FROM ".data ++ ("t WHERE ".data ++ body) := rfl
  have hlast : lastIndexSub ("SELECT * FROM t WHERE ".data ++ body) " ON ".data
      = none := lastIndexSub_none_of_not_occurs hON
  have hfrom : findSub ("SELECT * FROM t WHERE ".data ++ body) " FROM ".data
      = some 8 := by
    rw [hq]
    exact findSub_append_left (by decide) _
  have hdrop8 : (("SELECT * FROM t WHERE ".data : Str) ++ body).drop 8
      = " FROM t WHERE ".data ++ body := by
    rw [List.drop_append_eq_append_drop]
    rfl
  have hwhere : findSub ((("SELECT * FROM t WHERE ".data : Str) ++ body).drop 8)
      " WHERE ".data = some 7 := by
    rw [hdrop8]
    exact findSub_append_left (by decide) body
  have hdrop22 : (("SELECT * FROM t WHERE ".data : Str) ++ body).drop (7 + 8 + 7)
      = body := by
    rw [List.drop_append_eq_append_drop]
    rfl
  have hOY : findSub body " ORDER BY ".data = none :=
    findSub_none_of_not_occurs (occursSub_false_of_not_mem (by decide) hY)
  have hLI : findSub body " LIMIT ".data = none :=
    findSub_none_of_not_occurs (occursSub_false_of_not_mem (by decide) hI)
  have htake : (("SELECT * FROM t WHERE ".data : Str) ++ body).take (7 + 8)
      = "SELECT * FROM t".data := by
    rw [List.take_append_eq_append_take]
    rfl
  have hslice : sliceGo ("SELECT * FROM t WHERE ".data ++ body) (7 + 8 + 7)
      ("SELECT * FROM t WHERE ".data ++ body).length = body := by
    unfold sliceGo
    rw [List.take_length]
    exact hdrop22
  have hafter : (("SELECT * FROM t WHERE ".data : Str) ++ body).drop
      (("SELECT * FROM t WHERE ".data ++ body).length) = [] := List.drop_length _
  unfold normalizeMainWhereClause
  simp only [hlast, hfrom, hwhere, hdrop22, hOY, hLI, htake, hslice, hafter,
    hsemi, Bool.false_eq_true, if_false, List.append_nil]
  rfl

/-- One `andScan` step over an inert character. -/
theorem andScan_step (c : Char) (h1 : c ≠ '(') (h2 : c ≠ ')') {d : Int} (t : Str)
    (h3 : (decide (d = 0) && " AND ".data.isPrefixOf (c :: t)) = false) :
    andScan (c :: t) d = andScan t d := by
  simp only [andScan]
  rw [if_neg h1, if_neg h2]
  simp only [h3, Bool.false_eq_true, if_false]

/-- `andScan` opens a parenthesis. -/
theorem andScan_open (t : Str) (d : Int) :
    andScan ('(' :: t) d = andScan t (d + 1) := by
  simp only [andScan]
  simp

/-- `andScan` closes a parenthesis. -/
theorem andScan_close (t : Str) (d : Int) :
    andScan (')' :: t) d = andScan t (d - 1) := by
  simp only [andScan]
  simp

/-- `wrapScan` opens a parenthesis. -/
theorem wrapScan_open (t : Str) (d : Int) :
    wrapScan ('(' :: t) d = wrapScan t (d + 1) := by
  simp only [wrapScan]
  simp

/-- Scanning ` AND (B` from depth `-1` never finds a top-level ` AND `. -/
theorem andScan_inner {B : Str} (hB : ∀ c ∈ B, condChar c = true) :
    andScan (" AND (".data ++ B) ((0 : Int) - 1) = false := by
  have hd : (decide (((0 : Int) - 1) = 0)) = false := rfl
  show andScan (' ' :: ("AND (".data ++ B)) ((0 : Int) - 1) = false
  rw [andScan_step ' ' (by decide) (by decide) _ (by rw [hd, Bool.false_and])]
  show andScan ('A' :: ("ND (".data ++ B)) ((0 : Int) - 1) = false
  rw [andScan_step 'A' (by decide) (by decide) _ (by rw [hd, Bool.false_and])]
  show andScan ('N' :: ("D (".data ++ B)) ((0 : Int) - 1) = false
  rw [andScan_step 'N' (by decide) (by decide) _ (by rw [hd, Bool.false_and])]
  show andScan ('D' :: (" (".data ++ B)) ((0 : Int) - 1) = false
  rw [andScan_step 'D' (by decide) (by decide) _ (by rw [hd, Bool.false_and])]
  show andScan (' ' :: ('(' :: B)) ((0 : Int) - 1) = false
  rw [andScan_step ' ' (by decide) (by decide) _ (by rw [hd, Bool.false_and])]
  rw [andScan_open B]
  rw [show ((0 : Int) - 1) + 1 = 0 from rfl]
  have hsk := andScan_skip hB [] 0
  rw [List.append_nil] at hsk
  rw [hsk]
  rfl

/-- The interior of `(A) AND (B)` is `TrimSpace`-stable. -/
theorem trimSpace_inner {A B : Str} (hAne : A ≠ [])
    (hA : ∀ c ∈ A, condChar c = true) (hBne : B ≠ [])
    (hB : ∀ c ∈ B, condChar c = true) :
    trimSpace (A ++ (") AND (".data ++ B)) = A ++ (") AND (".data ++ B) := by
  apply trimSpace_eq_self
  · intro h hh
    obtain ⟨a0, ha0⟩ := exists_head?_of_ne_nil hAne
    rw [head?_append_left _ ha0] at hh
    have he : a0 = h := by simpa using hh
    rw [← he]
    exact condChar_not_space (hA a0 (mem_of_head?_eq_some ha0))
  · intro h hh
    rw [getLast?_append_of_ne_nil (app_ne_nil_right hBne),
      getLast?_append_of_ne_nil hBne] at hh
    exact cond_lastOk hB h hh

/-- The parenthesized body is `TrimSpace`-stable. -/
theorem trimSpace_pbody (A B : Str) :
    trimSpace ('(' :: (A ++ (") AND (".data ++ (B ++ [')']))))
      = '(' :: (A ++ (") AND (".data ++ (B ++ [')']))) := by
  apply trimSpace_eq_self
  · intro h hh
    have he : '(' = h := by simpa using hh
    rw [← he]
    decide
  · intro h hh
    have hc : ('(' :: (A ++ (") AND (".data ++ (B ++ [')']))) : Str)
        = ['('] ++ (A ++ (") AND (".data ++ (B ++ [')']))) := rfl
    rw [hc,
      getLast?_append_of_ne_nil (app_ne_nil_right (app_ne_nil_right
        (app_ne_nil_right (by simp)))),
      getLast?_append_of_ne_nil (app_ne_nil_right (app_ne_nil_right (by simp))),
      getLast?_append_of_ne_nil (app_ne_nil_right (by simp)),
      getLast?_append_of_ne_nil (by simp)] at hh
    have he : ')' = h := by simpa using hh
    rw [← he]
    decide

/-- The paren-stripping loop does not fire when the leading parenthesis is
closed before the end. -/
theorem flattenLoopF_nowrap (n : Nat) {s : Str}
    (hw : wrapScan (s.take (s.length - 1)) 0 = false) :
    flattenLoopF (n + 1) s = s := by
  simp only [flattenLoopF]
  cases hcnd : (decide (s.length ≥ 2) && decide (s.headD ' ' = '(') &&
      decide (s.getLastD ' ' = ')')) with
  | false => simp only [hcnd, Bool.false_eq_true, if_false]
  | true =>
    rw [if_pos rfl]
    simp only [hw, Bool.false_eq_true, if_false]

/-- The truncated parenthesized body (without its final `)`). -/
theorem take_pbody (A B : Str) :
    ('(' :: (A ++ (") AND (".data ++ (B ++ [')'])))).take
        (('(' :: (A ++ (") AND (".data ++ (B ++ [')'])))).length - 1)
      = '(' :: (A ++ (") AND (".data ++ B)) := by
  have hshape : ('(' :: (A ++ (") AND (".data ++ (B ++ [')']))) : Str)
      = ('(' :: (A ++ (") AND (".data ++ B))) ++ [')'] := by
    simp
  rw [hshape, show (('(' :: (A ++ (") AND (".data ++ B))) ++ [')'] : Str).length - 1
      = ('(' :: (A ++ (") AND (".data ++ B)) : Str).length from by
        simp
        omega,
    List.take_left]

/-- `wrapScan` rejects the parenthesized body: the leading parenthesis
closes at `) AND (`. -/
theorem wrapScan_pbody {A B : Str} (hA : ∀ c ∈ A, condChar c = true) :
    wrapScan ('(' :: (A ++ (") AND (".data ++ B))) 0 = false := by
  rw [wrapScan_open, wrapScan_skip hA]
  show wrapScan (')' :: (" AND (".data ++ B)) (0 + 1) = false
  simp only [wrapScan]
  simp

/-- `flattenNestedParentheses` keeps the parenthesized body. -/
theorem fnp_pbody {A B : Str} (hA : ∀ c ∈ A, condChar c = true) :
    flattenNestedParentheses ('(' :: (A ++ (") AND (".data ++ (B ++ [')']))))
      = '(' :: (A ++ (") AND (".data ++ (B ++ [')']))) := by
  unfold flattenNestedParentheses
  rw [trimSpace_pbody]
  rw [show ('(' :: (A ++ (") AND (".data ++ (B ++ [')']))) : Str).length
      = (A.length + (B.length + 8)) + 1 from by
    simp only [List.length_cons, List.length_append, List.length_nil,
      show (") AND (".data : Str).length = 7 from rfl]
    omega]
  apply flattenLoopF_nowrap
  rw [take_pbody]
  exact wrapScan_pbody hA

/-- The unwrap step skips the plain body (no leading parenthesis). -/
theorem unwrap_plain {A B : Str} (hAne : A ≠ [])
    (hA : ∀ c ∈ A, condChar c = true) (hBne : B ≠ [])
    (hB : ∀ c ∈ B, condChar c = true) :
    mainUnwrap (trimSpace (flattenNestedParentheses (A ++ (" AND ".data ++ B))))
      = A ++ (" AND ".data ++ B) := by
  rw [fnp_plain hAne hA hBne hB, trimSpace_plain hAne hA hBne hB]
  unfold mainUnwrap
  have hcnd : (decide ((A ++ (" AND ".data ++ B)).length ≥ 2)
      && decide ((A ++ (" AND ".data ++ B)).headD ' ' = '(')
      && decide ((A ++ (" AND ".data ++ B)).getLastD ' ' = ')')) = false := by
    have h := condChar_ne (headD_plain hAne hA (" AND ".data ++ B))
      (show condChar '(' = false from by decide)
    simp only [Bool.and_eq_false_iff, decide_eq_false_iff_not]
    left
    right
    exact h
  simp only [hcnd, Bool.false_eq_true, if_false]

/-- The unwrap step keeps the parenthesized body: its interior `A) AND (B`
has no top-level ` AND `. -/
theorem unwrap_pbody {A B : Str} (hAne : A ≠ [])
    (hA : ∀ c ∈ A, condChar c = true) (hBne : B ≠ [])
    (hB : ∀ c ∈ B, condChar c = true) :
    mainUnwrap (trimSpace (flattenNestedParentheses
        ('(' :: (A ++ (") AND (".data ++ (B ++ [')']))))))
      = '(' :: (A ++ (") AND (".data ++ (B ++ [')']))) := by
  rw [fnp_pbody hA, trimSpace_pbody]
  unfold mainUnwrap
  have hld : ('(' :: (A ++ (") AND (".data ++ (B ++ [')']))) : Str).getLastD ' '
      = ')' := by
    rw [List.getLastD_eq_getLast?,
      show ('(' :: (A ++ (") AND (".data ++ (B ++ [')']))) : Str)
        = ['('] ++ (A ++ (") AND (".data ++ (B ++ [')']))) from rfl,
      getLast?_append_of_ne_nil (app_ne_nil_right (app_ne_nil_right
        (app_ne_nil_right (by simp)))),
      getLast?_append_of_ne_nil (app_ne_nil_right (app_ne_nil_right (by simp))),
      getLast?_append_of_ne_nil (app_ne_nil_right (by simp)),
      getLast?_append_of_ne_nil (by simp)]
    rfl
  have hlen : ('(' :: (A ++ (") AND (".data ++ (B ++ [')']))) : Str).length ≥ 2 := by
    simp only [List.length_cons, List.length_append]
    omega
  have hcnd : (decide (('(' :: (A ++ (") AND (".data ++ (B ++ [')']))) : Str).length ≥ 2)
      && decide (('(' :: (A ++ (") AND (".data ++ (B ++ [')']))) : Str).headD ' ' = '(')
      && decide (('(' :: (A ++ (") AND (".data ++ (B ++ [')']))) : Str).getLastD ' '
        = ')')) = true := by
    rw [decide_eq_true hlen,
      decide_eq_true (show ('(' :: (A ++ (") AND (".data ++ (B ++ [')']))) : Str).headD ' '
        = '(' from rfl),
      decide_eq_true hld]
    rfl
  rw [if_pos hcnd]
  have hslice : sliceGo ('(' :: (A ++ (") AND (".data ++ (B ++ [')'])))) 1
      (('(' :: (A ++ (") AND (".data ++ (B ++ [')']))) : Str).length - 1)
      = A ++ (") AND (".data ++ B) := by
    unfold sliceGo
    rw [take_pbody]
    rfl
  rw [hslice, trimSpace_inner hAne hA hBne hB]
  have hand : andScan (A ++ (") AND (".data ++ B)) 0 = false := by
    rw [andScan_skip hA]
    show andScan (')' :: (" AND (".data ++ B)) 0 = false
    rw [andScan_close]
    exact andScan_inner hB
  show (if (occursSub (A ++ (") AND (".data ++ B)) " AND ".data
      && andScan (A ++ (") AND (".data ++ B)) 0) = true
    then A ++ (") AND (".data ++ B)
    else '(' :: (A ++ (") AND (".data ++ (B ++ [')']))))
    = '(' :: (A ++ (") AND (".data ++ (B ++ [')'])))
  rw [show (occursSub (A ++ (") AND (".data ++ B)) " AND ".data
      && andScan (A ++ (") AND (".data ++ B)) 0) = false from by
    rw [hand, Bool.and_false]]
  simp only [Bool.false_eq_true, if_false]

/-- The flattened conditions of the plain body. -/
theorem flat_plain {A B : Str} (hAne : A ≠ []) (hA : ∀ c ∈ A, condChar c = true)
    (hBne : B ≠ []) (hB : ∀ c ∈ B, condChar c = true) :
    List.flatten (List.map flattenAndExtractConditions (splitWhereConditions
        (mainUnwrap (trimSpace (flattenNestedParentheses
          (A ++ (" AND ".data ++ B))))))) = [A, B] := by
  rw [unwrap_plain hAne hA hBne hB, splitWC_plain hAne hA hBne hB,
    List.map_cons, List.map_cons, List.map_nil, faec_cond hAne hA,
    faec_cond hBne hB]
  rfl

/-- The flattened conditions of the parenthesized body. -/
theorem flat_paren {A B : Str} (hAne : A ≠ []) (hA : ∀ c ∈ A, condChar c = true)
    (hBne : B ≠ []) (hB : ∀ c ∈ B, condChar c = true) :
    List.flatten (List.map flattenAndExtractConditions (splitWhereConditions
        (mainUnwrap (trimSpace (flattenNestedParentheses
          ('(' :: (A ++ (") AND (".data ++ (B ++ [')']))))))))) = [A, B] := by
  rw [unwrap_pbody hAne hA hBne hB, splitWC_paren hA hB,
    List.map_cons, List.map_cons, List.map_nil, faec_wrap hAne hA,
    faec_wrap hBne hB]
  rfl

/-- One step of `removeDuplicateConditions` keeping an unseen condition. -/
theorem removeDupF_keep {c : Str} (rest seen : List Str) (htr : trimSpace c = c)
    (hne : c ≠ []) (hseen : seen.contains c = false) :
    removeDupF (c :: rest) seen = c :: removeDupF rest (c :: seen) := by
  simp only [removeDupF, htr]
  have hc : (decide (c ≠ []) && !(seen.contains c)) = true := by
    rw [hseen, decide_eq_true hne]
    rfl
  rw [if_pos hc]

/-- One step of `removeDuplicateConditions` dropping a seen condition. -/
theorem removeDupF_skip {c : Str} (rest seen : List Str) (htr : trimSpace c = c)
    (hseen : seen.contains c = true) :
    removeDupF (c :: rest) seen = removeDupF rest seen := by
  simp only [removeDupF, htr]
  have hc : (decide (c ≠ []) && !(seen.contains c)) = false := by
    rw [hseen]
    simp
  simp only [hc, Bool.false_eq_true, if_false]

/-- Deduplicating two distinct trim-stable conditions keeps both. -/
theorem dedup_pair {A B : Str} (hAne : A ≠ []) (htrA : trimSpace A = A)
    (hBne : B ≠ []) (htrB : trimSpace B = B) (hAB : A ≠ B) :
    removeDuplicateConditions [A, B] = [A, B] := by
  unfold removeDuplicateConditions
  rw [removeDupF_keep [B] [] htrA hAne rfl]
  rw [removeDupF_keep [] [A] htrB hBne (by
    simp only [List.contains_cons, List.elem_nil, Bool.or_false,
      beq_eq_false_iff_ne, ne_eq]
    exact fun h => hAB h.symm)]
  rfl

/-- Deduplicating a repeated trim-stable condition keeps one copy. -/
theorem dedup_same {A : Str} (hAne : A ≠ []) (htrA : trimSpace A = A) :
    removeDuplicateConditions [A, A] = [A] := by
  unfold removeDuplicateConditions
  rw [removeDupF_keep [A] [] htrA hAne rfl]
  rw [removeDupF_skip [] [A] htrA (by simp)]
  rfl

/-- A string whose characters exclude `;` has no `;` suffix. -/
theorem hasSuf_semi_false {s : Str} (h : ';' ∉ s) : goHasSuf s [';'] = false := by
  cases hx : goHasSuf s [';'] with
  | false => rfl
  | true =>
    have hsuf : ([';'] : Str) <:+ s := List.isSuffixOf_iff_suffix.mp hx
    exact absurd (mem_of_getLast?_eq_some (@last_eq_of_suf ';' [] s hsuf)) h

/-- Membership screen for the plain body. -/
theorem not_mem_body_plain {A B : Str} (hA : ∀ c ∈ A, condChar c = true)
    (hB : ∀ c ∈ B, condChar c = true) {d : Char} (hd : condChar d = false)
    (h2 : d ∉ " AND ".data) : d ∉ A ++ (" AND ".data ++ B) := by
  intro hm
  rcases List.mem_append.mp hm with h | h
  · exact not_mem_cond hA hd h
  rcases List.mem_append.mp h with h | h
  · exact h2 h
  · exact not_mem_cond hB hd h

/-- Membership screen for the parenthesized body. -/
theorem not_mem_body_paren {A B : Str} (hA : ∀ c ∈ A, condChar c = true)
    (hB : ∀ c ∈ B, condChar c = true) {d : Char} (hd : condChar d = false)
    (h2 : d ≠ '(') (h3 : d ∉ ") AND (".data) (h4 : d ≠ ')') :
    d ∉ '(' :: (A ++ (") AND (".data ++ (B ++ [')']))) := by
  intro hm
  rcases List.mem_cons.mp hm with h | h
  · exact h2 h
  rcases List.mem_append.mp h with h | h
  · exact not_mem_cond hA hd h
  rcases List.mem_append.mp h with h | h
  · exact h3 h
  rcases List.mem_append.mp h with h | h
  · exact not_mem_cond hB hd h
  · exact h4 (by simpa using h)

/-- The full comparison pipeline on the plain spelling
`SELECT * FROM t WHERE A AND B`. -/
theorem nfc_plain {A B : Str} (hA : simpleCond A = true) (hB : simpleCond B = true) :
    normalizeForComparison ("SELECT * FROM t WHERE ".data ++ (A ++ (" AND ".data ++ B)))
      = replaceAll (replaceAll ("SELECT * FROM t".data ++ " WHERE ".data
          ++ List.intercalate " AND ".data (sortStrings (removeDuplicateConditions
            [A, B]))) ['('] []) [')'] [] := by
  obtain ⟨hAne, hAa⟩ := simpleCond_iff hA
  obtain ⟨hBne, hBa⟩ := simpleCond_iff hB
  have hnfc : normalizeForComparison ("SELECT * FROM t WHERE ".data
        ++ (A ++ (" AND ".data ++ B)))
      = replaceAll (replaceAll (normalizeMainWhereClause (normalizeJoinOrder
          (normalizeLimitClause (utf8mb4Replace (replaceAll (basicNormalize
            ("SELECT * FROM t WHERE ".data ++ (A ++ (" AND ".data ++ B))))
            [backtick] []))))) ['('] []) [')'] [] := rfl
  rw [hnfc]
  rw [pre_stages_id (headOk_qS _) (lastOk_qN hBne hBa)
    (not_mem_qN hAa hBa (by decide) (by decide) (by decide))
    (not_mem_qN hAa hBa (by decide) (by decide) (by decide))
    (qN_no2 hAne hAa hBa (by decide) (by decide) (by decide) (by decide))
    (qN_no2 hAne hAa hBa (by decide) (by decide) (by decide) (by decide))
    (qN_no2 hAne hAa hBa (by decide) (by decide) (by decide) (by decide))
    (not_mem_qN hAa hBa (by decide) (by decide) (by decide))
    (not_mem_qN hAa hBa (by decide) (by decide) (by decide))
    (not_mem_qN hAa hBa (by decide) (by decide) (by decide))]
  rw [njo_whereQ]
  rw [nmw_frame _
    (qN_no4 hAne hAa hBa (by decide) (by decide) (by decide) (by decide)
      (by decide) (by decide))
    (not_mem_body_plain hAa hBa (by decide) (by decide))
    (not_mem_body_plain hAa hBa (by decide) (by decide))
    (hasSuf_semi_false (not_mem_body_plain hAa hBa (by decide) (by decide)))]
  rw [flat_plain hAne hAa hBne hBa]

/-- The full comparison pipeline on the parenthesized spelling
`SELECT * FROM t WHERE (A) AND (B)`. -/
theorem nfc_paren {A B : Str} (hA : simpleCond A = true) (hB : simpleCond B = true) :
    normalizeForComparison ("SELECT * FROM t WHERE ".data
        ++ ('(' :: (A ++ (") AND (".data ++ (B ++ [')'])))))
      = replaceAll (replaceAll ("SELECT * FROM t".data ++ " WHERE ".data
          ++ List.intercalate " AND ".data (sortStrings (removeDuplicateConditions
            [A, B]))) ['('] []) [')'] [] := by
  obtain ⟨hAne, hAa⟩ := simpleCond_iff hA
  obtain ⟨hBne, hBa⟩ := simpleCond_iff hB
  have hnfc : normalizeForComparison ("SELECT * FROM t WHERE ".data
        ++ ('(' :: (A ++ (") AND (".data ++ (B ++ [')'])))))
      = replaceAll (replaceAll (normalizeMainWhereClause (normalizeJoinOrder
          (normalizeLimitClause (utf8mb4Replace (replaceAll (basicNormalize
            ("SELECT * FROM t WHERE ".data
              ++ ('(' :: (A ++ (") AND (".data ++ (B ++ [')']))))))
            [backtick] []))))) ['('] []) [')'] [] := rfl
  rw [hnfc]
  rw [pre_stages_id (headOk_qS _) (lastOk_qP A B)
    (not_mem_qP hAa hBa (by decide) (by decide) (by decide) (by decide) (by decide))
    (not_mem_qP hAa hBa (by decide) (by decide) (by decide) (by decide) (by decide))
    (qP_no2 hAne hAa hBne hBa (by decide) (by decide) (by decide) (by decide)
      (by decide))
    (qP_no2 hAne hAa hBne hBa (by decide) (by decide) (by decide) (by decide)
      (by decide))
    (qP_no2 hAne hAa hBne hBa (by decide) (by decide) (by decide) (by decide)
      (by decide))
    (not_mem_qP hAa hBa (by decide) (by decide) (by decide) (by decide) (by decide))
    (not_mem_qP hAa hBa (by decide) (by decide) (by decide) (by decide) (by decide))
    (not_mem_qP hAa hBa (by decide) (by decide) (by decide) (by decide) (by decide))]
  rw [njo_whereQ]
  rw [nmw_frame _
    (qP_no4 hAne hAa hBne hBa (by decide) (by decide) (by decide) (by decide)
      (by decide) (by decide) (by decide) (by decide) (by decide))
    (not_mem_body_paren hAa hBa (by decide) (by decide) (by decide) (by decide))
    (not_mem_body_paren hAa hBa (by decide) (by decide) (by decide) (by decide))
    (hasSuf_semi_false
      (not_mem_body_paren hAa hBa (by decide) (by decide) (by decide) (by decide)))]
  rw [flat_paren hAne hAa hBne hBa]

/-- Deduplicating then sorting two simple conditions is order-insensitive. -/
theorem sortDedup_comm {A B : Str} (hA : simpleCond A = true)
    (hB : simpleCond B = true) :
    sortStrings (removeDuplicateConditions [A, B])
      = sortStrings (removeDuplicateConditions [B, A]) := by
  obtain ⟨hAne, hAa⟩ := simpleCond_iff hA
  obtain ⟨hBne, hBa⟩ := simpleCond_iff hB
  by_cases hab : A = B
  · subst hab
    rfl
  · rw [dedup_pair hAne (cond_trimSpace hAa) hBne (cond_trimSpace hBa) hab,
      dedup_pair hBne (cond_trimSpace hBa) hAne (cond_trimSpace hAa)
        (fun h => hab h.symm),
      sortStrings_pair]

/-- C1 (amended): AND-order and per-condition parenthesization insensitivity
of the top-level WHERE clause holds once the WHERE keyword is preceded by a
space (i.e. inside a full query). Parameterized form: for every pair of
simple conditions `A`, `B` (nonempty strings over lowercase letters, digits
and comparison/literal punctuation), the three spellings
`SELECT * FROM t WHERE (A) AND (B)`, `… A AND B` and `… B AND A` normalize
to the same ComparisonKey and `CompareQueries` returns `true`; the spec's
concrete backticked scenario also holds. -/
theorem c1_amended_insensitivity :
    (∀ A B : Str, simpleCond A = true → simpleCond B = true →
      normalizeForComparison ("SELECT * FROM t WHERE ".data
          ++ ('(' :: (A ++ (") AND (".data ++ (B ++ [')'])))))
        = normalizeForComparison ("SELECT * FROM t WHERE ".data
            ++ (A ++ (" AND ".data ++ B)))
      ∧ normalizeForComparison ("SELECT * FROM t WHERE ".data
            ++ (A ++ (" AND ".data ++ B)))
        = normalizeForComparison ("SELECT * FROM t WHERE ".data
            ++ (B ++ (" AND ".data ++ A)))
      ∧ CompareQueries ("SELECT * FROM t WHERE ".data
            ++ ('(' :: (A ++ (") AND (".data ++ (B ++ [')'])))))
          ("SELECT * FROM t WHERE ".data ++ (B ++ (" AND ".data ++ A))) = true)
    ∧ comparisonKey "SELECT * FROM t WHERE (`id`=1) AND (`name`='x')"
        = comparisonKey "SELECT * FROM t WHERE `id`=1 AND `name`='x'"
    ∧ comparisonKey "SELECT * FROM t WHERE `id`=1 AND `name`='x'"
        = comparisonKey "SELECT * FROM t WHERE `name`='x' AND `id`=1"
    ∧ CompareQueries "SELECT * FROM t WHERE (`id`=1) AND (`name`='x')".data
        "SELECT * FROM t WHERE `name`='x' AND `id`=1".data = true := by
  refine ⟨?_, by decide, by decide, by decide⟩
  intro A B hA hB
  have h1 := nfc_paren hA hB
  have h2 := nfc_plain hA hB
  have h3 := nfc_plain hB hA
  have hcomm := sortDedup_comm hA hB
  refine ⟨h1.trans h2.symm, ?_, ?_⟩
  · rw [h2, h3, hcomm]
  · unfold CompareQueries
    rw [h1, h3, hcomm]
    simp

/-- Witness for C1's amended theorem: the parameterized insensitivity
applied to the concrete conditions `id=1` and `name='x'`. -/
theorem c1_witness :
    simpleCond "id=1".data = true ∧ simpleCond "name='x'".data = true ∧
    CompareQueries ("SELECT * FROM t WHERE ".data
        ++ ('(' :: ("id=1".data ++ (") AND (".data ++ ("name='x'".data ++ [')'])))))
      ("SELECT * FROM t WHERE ".data
        ++ ("name='x'".data ++ (" AND ".data ++ "id=1".data))) = true :=
  ⟨by decide, by decide,
    (c1_amended_insensitivity.1 "id=1".data "name='x'".data
      (by decide) (by decide)).2.2⟩

/-- `takeWhile` passes over an all-true block. -/
theorem takeWhile_all_append {p : Char → Bool} :
    ∀ {P : Str}, (∀ c ∈ P, p c = true) →
      ∀ rest : Str, (P ++ rest).takeWhile p = P ++ rest.takeWhile p := by
  intro P
  induction P with
  | nil => intro _ rest; rfl
  | cons c t ih =>
    intro hP rest
    rw [List.cons_append, List.takeWhile_cons, if_pos (hP c (List.mem_cons_self c t)),
      ih (fun x hx => hP x (List.mem_cons_of_mem c hx)) rest]
    rfl

/-- `dropWhile` consumes an all-true block. -/
theorem dropWhile_all_append {p : Char → Bool} :
    ∀ {P : Str}, (∀ c ∈ P, p c = true) →
      ∀ rest : Str, (P ++ rest).dropWhile p = rest.dropWhile p := by
  intro P
  induction P with
  | nil => intro _ rest; rfl
  | cons c t ih =>
    intro hP rest
    rw [List.cons_append, List.dropWhile_cons, if_pos (hP c (List.mem_cons_self c t)),
      ih (fun x hx => hP x (List.mem_cons_of_mem c hx)) rest]

/-- `takeWhile` stops at a failing head. -/
theorem takeWhile_head_false {p : Char → Bool} {rest : Str}
    (h : ∀ c, rest.head? = some c → p c = false) : rest.takeWhile p = [] := by
  cases rest with
  | nil => rfl
  | cons c t =>
    rw [List.takeWhile_cons, if_neg]
    simp [h c rfl]

/-- `dropWhile` keeps everything from a failing head. -/
theorem dropWhile_head_false2 {p : Char → Bool} {rest : Str}
    (h : ∀ c, rest.head? = some c → p c = false) : rest.dropWhile p = rest := by
  cases rest with
  | nil => rfl
  | cons c t =>
    rw [List.dropWhile_cons, if_neg]
    simp [h c rfl]

/-- The charset pass is fuel-irrelevant once the fuel covers the string. -/
theorem utf8mb4F_fuel : ∀ (n : Nat) {m : Nat} {s : Str}, s.length ≤ n →
    s.length ≤ m → utf8mb4ReplaceF n s = utf8mb4ReplaceF m s := by
  intro n
  induction n with
  | zero =>
    intro m s hn _
    have hs : s = [] := List.length_eq_zero.mp (Nat.le_zero.mp hn)
    subst hs
    cases m <;> rfl
  | succ n ih =>
    intro m s hn hm
    cases s with
    | nil => cases m <;> rfl
    | cons c t =>
      cases m with
      | zero => simp at hm
      | succ m =>
        simp only [List.length_cons, Nat.add_le_add_iff_right] at hn hm
        simp only [utf8mb4ReplaceF]
        by_cases hip : utf8mb4Marker.isPrefixOf (c :: t) = true
        · rw [if_pos hip, if_pos hip]
          by_cases hpay : ((c :: t).drop utf8mb4Marker.length).takeWhile isAlnum = []
          · rw [if_pos hpay, if_pos hpay, ih hn hm]
          · rw [if_neg hpay, if_neg hpay]
            have hlen : (((c :: t).drop utf8mb4Marker.length).dropWhile
                isAlnum).length ≤ t.length := by
              have h1 := (@List.dropWhile_suffix Char
                ((c :: t).drop utf8mb4Marker.length) isAlnum).length_le
              have h2 := List.length_drop utf8mb4Marker.length (c :: t)
              simp only [List.length_cons] at h2
              have h3 : utf8mb4Marker.length = 8 := rfl
              omega
            rw [ih (Nat.le_trans hlen hn) (Nat.le_trans hlen hm)]
        · rw [if_neg hip, if_neg hip, ih hn hm]

/-- The charset pass rewrites a `_UTF8MB4<payload>` occurrence to its
payload and scans on; text before the occurrence (without `_`) is copied. -/
theorem utf8mb4_subst : ∀ {pre : Str}, '_' ∉ pre →
    ∀ {P rest : Str}, P ≠ [] → (∀ c ∈ P, isAlnum c = true) →
      (∀ c, rest.head? = some c → isAlnum c = false) →
      utf8mb4Replace (pre ++ (utf8mb4Marker ++ (P ++ rest)))
        = pre ++ (P ++ utf8mb4Replace rest) := by
  intro pre
  induction pre with
  | nil =>
    intro _ P rest hPne hP hrest
    rw [List.nil_append, List.nil_append]
    show utf8mb4ReplaceF ((utf8mb4Marker ++ (P ++ rest)).length)
      (utf8mb4Marker ++ (P ++ rest)) = P ++ utf8mb4Replace rest
    rw [show (utf8mb4Marker ++ (P ++ rest) : Str)
        = '_' :: ("UTF8MB4".data ++ (P ++ rest)) from rfl]
    rw [List.length_cons]
    simp only [utf8mb4ReplaceF]
    have hip : utf8mb4Marker.isPrefixOf
        ('_' :: ("UTF8MB4".data ++ (P ++ rest))) = true := by
      show utf8mb4Marker.isPrefixOf (utf8mb4Marker ++ (P ++ rest)) = true
      exact List.isPrefixOf_iff_prefix.mpr (List.prefix_append _ _)
    rw [if_pos hip]
    have hdrop : ('_' :: ("UTF8MB4".data ++ (P ++ rest))).drop
        utf8mb4Marker.length = P ++ rest := by
      show (utf8mb4Marker ++ (P ++ rest)).drop utf8mb4Marker.length = P ++ rest
      exact List.drop_left _ _
    rw [hdrop, takeWhile_all_append hP rest, takeWhile_head_false hrest,
      List.append_nil]
    rw [if_neg hPne, dropWhile_all_append hP rest, dropWhile_head_false2 hrest]
    rw [utf8mb4F_fuel (("UTF8MB4".data ++ (P ++ rest) : Str).length)
      (by
        simp only [List.length_append]
        omega)
      (Nat.le_refl rest.length)]
    rfl
  | cons c p' ih =>
    intro hpre P rest hPne hP hrest
    have hcu : c ≠ '_' := fun h => hpre (h ▸ List.mem_cons_self c p')
    rw [List.cons_append]
    show utf8mb4ReplaceF ((c :: (p' ++ (utf8mb4Marker ++ (P ++ rest)))).length)
        (c :: (p' ++ (utf8mb4Marker ++ (P ++ rest))))
      = c :: (p' ++ (P ++ utf8mb4Replace rest))
    rw [List.length_cons]
    simp only [utf8mb4ReplaceF]
    have hip : utf8mb4Marker.isPrefixOf
        (c :: (p' ++ (utf8mb4Marker ++ (P ++ rest)))) = false := by
      cases hx : utf8mb4Marker.isPrefixOf
          (c :: (p' ++ (utf8mb4Marker ++ (P ++ rest)))) with
      | false => rfl
      | true =>
        obtain ⟨u, hu⟩ := List.isPrefixOf_iff_prefix.mp hx
        have hh : (utf8mb4Marker ++ u).head? = some '_' := rfl
        rw [hu] at hh
        have : c = '_' := by simpa using hh
        exact absurd this hcu
    rw [if_neg (by rw [hip]; exact Bool.false_ne_true)]
    have hfa := ih (fun hm => hpre (List.mem_cons_of_mem c hm)) hPne hP hrest
    show c :: utf8mb4ReplaceF (p' ++ (utf8mb4Marker ++ (P ++ rest))).length
        (p' ++ (utf8mb4Marker ++ (P ++ rest)))
      = c :: (p' ++ (P ++ utf8mb4Replace rest))
    rw [show utf8mb4ReplaceF (p' ++ (utf8mb4Marker ++ (P ++ rest))).length
          (p' ++ (utf8mb4Marker ++ (P ++ rest)))
        = utf8mb4Replace (p' ++ (utf8mb4Marker ++ (P ++ rest))) from rfl, hfa]

/-- C6 (amended): every occurrence of the specific marker `_UTF8MB4`
immediately followed by alphanumeric payload is rewritten to just the
payload — parameterized form: for any underscore-free text `pre`, nonempty
alphanumeric payload `P` and remainder `rest` not starting alphanumeric,
the charset pass maps `pre ++ _UTF8MB4 ++ P ++ rest` to
`pre ++ P ++ <pass applied to rest>` (so the rewrite applies repeatedly to
all occurrences); the spec's example also holds at the ComparisonKey level,
including with several occurrences. -/
theorem c6_amended_utf8mb4 :
    (∀ pre P rest : Str, '_' ∉ pre → P ≠ [] →
      (∀ c ∈ P, isAlnum c = true) →
      (∀ c, rest.head? = some c → isAlnum c = false) →
      utf8mb4Replace (pre ++ (utf8mb4Marker ++ (P ++ rest)))
        = pre ++ (P ++ utf8mb4Replace rest))
    ∧ comparisonKey "x=_UTF8MB4ABC" = comparisonKey "x=ABC"
    ∧ comparisonKey "a=_UTF8MB4X b=_UTF8MB4Y" = comparisonKey "a=X b=Y" :=
  ⟨fun _ _ _ h1 h2 h3 h4 => utf8mb4_subst h1 h2 h3 h4, by decide, by decide⟩

/-- Witness for C6's amended theorem: the parameterized rewrite applied to
`x=_UTF8MB4ABC`. -/
theorem c6_witness :
    ('_' ∉ "x=".data) ∧
    utf8mb4Replace ("x=".data ++ (utf8mb4Marker ++ ("ABC".data ++ [])))
      = "x=".data ++ ("ABC".data ++ utf8mb4Replace []) :=
  ⟨by decide,
    c6_amended_utf8mb4.1 "x=".data "ABC".data [] (by decide) (by decide)
      (by decide) (fun c h => by exact absurd h (by simp))⟩

/-- Universal straddle killer: no nonempty prefix-remainder of a pattern of
non-condition characters starts an append headed by a nonempty
all-condition string. -/
theorem strad_right_all {pat : Str} (hpat : ∀ x ∈ pat, condChar x = false)
    {k : Nat} (hk : k < pat.length) {A r : Str} (hAne : A ≠ [])
    (hA : ∀ c ∈ A, condChar c = true) (h : pat.drop k <+: A ++ r) : False := by
  have hne : pat.drop k ≠ [] := by
    intro h0
    have := congrArg List.length h0
    rw [List.length_drop] at this
    simp at this
    omega
  obtain ⟨x, hx⟩ := exists_head?_of_ne_nil hne
  have hxpat : x ∈ pat := List.drop_subset k pat (mem_of_head?_eq_some hx)
  obtain ⟨u, hu⟩ := h
  have hh : (A ++ r).head? = some x := by
    rw [← hu]
    exact head?_append_left u hx
  have hxA : x ∈ A := mem_of_head?_append hAne hh
  have := hA x hxA
  rw [hpat x hxpat] at this
  exact absurd this (by simp)

/-- Universal straddle killer: no nonempty prefix of a pattern of
non-condition characters is a suffix of an all-condition string. -/
theorem strad_left_all {pat : Str} (hpat : ∀ x ∈ pat, condChar x = false)
    {k : Nat} (hk0 : 0 < k) (hpne : pat ≠ []) {A : Str}
    (hA : ∀ c ∈ A, condChar c = true) (h : pat.take k <:+ A) : False := by
  have hne : pat.take k ≠ [] := by
    intro h0
    have := congrArg List.length h0
    rw [List.length_take] at this
    simp at this
    rcases this with h1 | h1
    · omega
    · exact hpne h1
  obtain ⟨x, hx⟩ := exists_getLast?_of_ne_nil hne
  have hxpat : x ∈ pat := List.take_subset k pat (mem_of_getLast?_eq_some hx)
  obtain ⟨u, hu⟩ := h
  have hl : A.getLast? = some x := by
    rw [← hu]
    rw [getLast?_append_of_ne_nil hne]
    exact hx
  have hxA : x ∈ A := mem_of_getLast?_eq_some hl
  have := hA x hxA
  rw [hpat x hxpat] at this
  exact absurd this (by simp)

/-- The first occurrence after an occurrence-free block lies at the block
length plus the inner position. -/
theorem findSub_append_right {pat : Str} :
    ∀ {X Y : Str} {k : Nat}, occursSub X pat = false →
      (∀ j, 0 < j → j < pat.length → pat.take j <:+ X → pat.drop j <+: Y → False) →
      findSub Y pat = some k → findSub (X ++ Y) pat = some (X.length + k) := by
  intro X
  induction X with
  | nil =>
    intro Y k _ _ hY
    simpa using hY
  | cons c t ih =>
    intro Y k hX hstrad hY
    simp only [occursSub, Bool.or_eq_false_iff] at hX
    have hip : pat.isPrefixOf (c :: (t ++ Y)) = false := by
      cases hx : pat.isPrefixOf (c :: (t ++ Y)) with
      | false => rfl
      | true =>
        have hpre : pat <+: (c :: t) ++ Y := by
          rw [List.cons_append]
          exact List.isPrefixOf_iff_prefix.mp hx
        by_cases hlen : pat.length ≤ (c :: t).length
        · have hfit : pat <+: c :: t :=
            List.prefix_of_prefix_length_le hpre (List.prefix_append _ _)
              (by simpa)
          rw [List.isPrefixOf_iff_prefix.mpr hfit] at hX
          exact absurd hX.1 (by simp)
        · push_neg at hlen
          have htk : pat.take (c :: t).length = c :: t := by
            have h1 : pat.take (c :: t).length <+: (c :: t) ++ Y :=
              (List.take_prefix _ _).trans hpre
            have h2 : (c :: t) <+: (c :: t) ++ Y := List.prefix_append _ _
            have hlen2 : (pat.take (c :: t).length).length = (c :: t).length := by
              rw [List.length_take]
              omega
            exact (List.prefix_of_prefix_length_le h1 h2 (by omega)).eq_of_length
              hlen2
          have hdropY : pat.drop (c :: t).length <+: Y := by
            obtain ⟨u, hu⟩ := hpre
            refine ⟨u, ?_⟩
            have hdrop := congrArg (List.drop (c :: t).length) hu
            rw [List.drop_append_eq_append_drop,
              show (c :: t).length - pat.length = 0 by omega, List.drop_zero,
              List.drop_left] at hdrop
            exact hdrop
          exact (hstrad (c :: t).length (by simp) hlen
            (by rw [htk]) hdropY).elim
    show findSub (c :: (t ++ Y)) pat = some ((c :: t).length + k)
    simp only [findSub, hip, Bool.false_eq_true, if_false]
    rw [ih hX.2 (fun j hj0 hjl hs hp =>
      hstrad j hj0 hjl (hs.trans (List.suffix_cons c t)) hp) hY]
    simp only [Option.map_some', Option.some.injEq, List.length_cons]
    omega

/-- Straddle killer against a known, pattern-free last character. -/
theorem strad_left_concrete {pat A : Str} {z : Char} (hz : A.getLast? = some z)
    (hznot : z ∉ pat) {k : Nat} (hk0 : 0 < k) (hpne : pat ≠ [])
    (h : pat.take k <:+ A) : False := by
  have hne : pat.take k ≠ [] := by
    intro h0
    have := congrArg List.length h0
    rw [List.length_take] at this
    simp at this
    rcases this with h1 | h1
    · omega
    · exact hpne h1
  obtain ⟨x, hx⟩ := exists_getLast?_of_ne_nil hne
  have hxpat : x ∈ pat := List.take_subset k pat (mem_of_getLast?_eq_some hx)
  obtain ⟨u, hu⟩ := h
  have hl : A.getLast? = some x := by
    rw [← hu, getLast?_append_of_ne_nil hne]
    exact hx
  rw [hz] at hl
  have : z = x := by simpa using hl
  rw [this] at hznot
  exact hznot hxpat

/-- Absence of an all-non-condition pattern from the five-chunk alternating
shape `C1 ++ b ++ C2 ++ c ++ C3`. -/
theorem occursSub_alt5 {b c : Str} (hbne : b ≠ [])
    (hb : ∀ x ∈ b, condChar x = true) (hcne : c ≠ [])
    (hc : ∀ x ∈ c, condChar x = true) {C1 C2 C3 pat : Str} (hpne : pat ≠ [])
    (hpat : ∀ x ∈ pat, condChar x = false)
    (h1 : occursSub C1 pat = false) (h2 : occursSub C2 pat = false)
    (h3 : occursSub C3 pat = false) :
    occursSub (C1 ++ (b ++ (C2 ++ (c ++ C3)))) pat = false := by
  obtain ⟨x0, hx0⟩ := exists_head?_of_ne_nil hpne
  have hx0m := mem_of_head?_eq_some hx0
  have hbabs : occursSub b pat = false := cond_no_pat hb hx0m (hpat x0 hx0m)
  have hcabs : occursSub c pat = false := cond_no_pat hc hx0m (hpat x0 hx0m)
  refine occursSub_append_false h1 ?_ ?_
  · refine occursSub_append_false hbabs ?_ ?_
    · refine occursSub_append_false h2 ?_ ?_
      · refine occursSub_append_false hcabs h3 ?_
        intro j hj0 _ hs _
        exact strad_left_all hpat hj0 hpne hc hs
      · intro j _ hjl _ hp
        exact strad_right_all hpat hjl hcne hc hp
    · intro j hj0 _ hs _
      exact strad_left_all hpat hj0 hpne hb hs
  · intro j _ hjl _ hp
    exact strad_right_all hpat hjl hbne hb hp

/-- Membership screen for the five-chunk alternating shape. -/
theorem not_mem_alt5 {b c : Str} (hb : ∀ x ∈ b, condChar x = true)
    (hc : ∀ x ∈ c, condChar x = true) {C1 C2 C3 : Str} {d : Char}
    (hd : condChar d = false) (m1 : d ∉ C1) (m2 : d ∉ C2) (m3 : d ∉ C3) :
    d ∉ C1 ++ (b ++ (C2 ++ (c ++ C3))) := by
  intro hm
  rcases List.mem_append.mp hm with h | h
  · exact m1 h
  rcases List.mem_append.mp h with h | h
  · exact not_mem_cond hb hd h
  rcases List.mem_append.mp h with h | h
  · exact m2 h
  rcases List.mem_append.mp h with h | h
  · exact not_mem_cond hc hd h
  · exact m3 h

/-- Variant of the pre-pass identity taking the LIMIT-search result
directly. -/
theorem pre_stages_id2 {s : Str} (hh : headOk s) (hl : lastOk s)
    (hn : '\n' ∉ s) (ht : '\t' ∉ s) (hdd : occursSub s [' ', ' '] = false)
    (hps : occursSub s ['(', ' '] = false) (hsp : occursSub s [' ', ')'] = false)
    (hb : backtick ∉ s) (hu : '_' ∉ s)
    (hLIM : findSub s " LIMIT ".data = none) :
    normalizeLimitClause (utf8mb4Replace (replaceAll (basicNormalize s)
      [backtick] [])) = s := by
  rw [basicNormalize_id hh hl hn ht hdd hps hsp]
  rw [show replaceAll s [backtick] [] = s from
    replaceAll_eq_self_of_not_occurs s.length (occursSub_singleton_false hb)]
  rw [show utf8mb4Replace s = s from utf8mb4ReplaceF_eq_self s.length hu]
  exact normalizeLimitClause_id hLIM

/-- Join-query heads are non-whitespace. -/
theorem headOk_qJ (x : Str) : headOk ("SELECT * FROM a JOIN ".data ++ x) := by
  intro h hh
  have hS : (("SELECT * FROM a JOIN ".data : Str) ++ x).head? = some 'S' := rfl
  rw [hS] at hh
  have he : 'S' = h := by simpa using hh
  rw [← he]
  decide

/-- The join query ends in `1`. -/
theorem lastOk_qJ (b c : Str) :
    lastOk ("SELECT * FROM a JOIN ".data ++ (b ++ (" ON i=j JOIN ".data
      ++ (c ++ " ON i=j WHERE x=1".data)))) := by
  intro h hh
  have hC3 : (" ON i=j WHERE x=1".data : Str) ≠ [] := by decide
  rw [getLast?_append_of_ne_nil (app_ne_nil_right (app_ne_nil_right
      (app_ne_nil_right hC3))),
    getLast?_append_of_ne_nil (app_ne_nil_right (app_ne_nil_right hC3)),
    getLast?_append_of_ne_nil (app_ne_nil_right hC3),
    getLast?_append_of_ne_nil hC3] at hh
  have he : '1' = h := by simpa using hh
  rw [← he]
  decide

/-- The first four pipeline passes are the identity on the join query. -/
theorem pre4_qJ {b c : Str} (hbne : b ≠ []) (hb : ∀ x ∈ b, condChar x = true)
    (hcne : c ≠ []) (hc : ∀ x ∈ c, condChar x = true) :
    normalizeLimitClause (utf8mb4Replace (replaceAll (basicNormalize
        ("SELECT * FROM a JOIN ".data ++ (b ++ (" ON i=j JOIN ".data
          ++ (c ++ " ON i=j WHERE x=1".data))))) [backtick] []))
      = "SELECT * FROM a JOIN ".data ++ (b ++ (" ON i=j JOIN ".data
          ++ (c ++ " ON i=j WHERE x=1".data))) := by
  have mem5 : ∀ d : Char, condChar d = false →
      d ∉ "SELECT * FROM a JOIN ".data → d ∉ " ON i=j JOIN ".data →
      d ∉ " ON i=j WHERE x=1".data →
      d ∉ "SELECT * FROM a JOIN ".data ++ (b ++ (" ON i=j JOIN ".data
        ++ (c ++ " ON i=j WHERE x=1".data))) :=
    fun _ hd m1 m2 m3 => not_mem_alt5 hb hc hd m1 m2 m3
  exact pre_stages_id2 (headOk_qJ _) (lastOk_qJ b c)
    (mem5 '\n' (by decide) (by decide) (by decide) (by decide))
    (mem5 '\t' (by decide) (by decide) (by decide) (by decide))
    (occursSub_alt5 hbne hb hcne hc (by decide) (by decide) (by decide)
      (by decide) (by decide))
    (occursSub_false_of_not_mem (show ('(' : Char) ∈ ['(', ' '] by decide)
      (mem5 '(' (by decide) (by decide) (by decide) (by decide)))
    (occursSub_false_of_not_mem (show (')' : Char) ∈ [' ', ')'] by decide)
      (mem5 ')' (by decide) (by decide) (by decide) (by decide)))
    (mem5 backtick (by decide) (by decide) (by decide) (by decide))
    (mem5 '_' (by decide) (by decide) (by decide) (by decide))
    (findSub_none_of_not_occurs (occursSub_alt5 hbne hb hcne hc (by decide)
      (by decide) (by decide) (by decide) (by decide)))

/-- `TrimSpace` strips a single leading space from a trim-stable string. -/
theorem trimSpace_space_cons {z : Str} (h1 : headOk z) (h2 : lastOk z) :
    trimSpace (' ' :: z) = z := by
  show ((trimLeft (' ' :: z)).reverse.dropWhile goIsSpace).reverse = z
  have hdl : trimLeft (' ' :: z) = trimLeft z := by
    show (' ' :: z).dropWhile goIsSpace = z.dropWhile goIsSpace
    rw [List.dropWhile_cons, if_pos (by decide)]
  rw [hdl]
  exact trimSpace_eq_self h1 h2

/-- Trimming a sliced `JOIN <table> ON …` clause. -/
theorem trim_joinclause (x : Str) :
    trimSpace (' ' :: ("JOIN ".data ++ (x ++ " ON i=j".data)))
      = "JOIN ".data ++ (x ++ " ON i=j".data) := by
  apply trimSpace_space_cons
  · intro h hh
    have hJ : (("JOIN ".data : Str) ++ (x ++ " ON i=j".data)).head? = some 'J' := rfl
    rw [hJ] at hh
    have he : 'J' = h := by simpa using hh
    rw [← he]
    decide
  · intro h hh
    have hC7 : (" ON i=j".data : Str) ≠ [] := by decide
    rw [getLast?_append_of_ne_nil (app_ne_nil_right hC7),
      getLast?_append_of_ne_nil hC7] at hh
    have he : 'j' = h := by simpa using hh
    rw [← he]
    decide

/-- One step of the keyword-position loop at a found occurrence. -/
theorem keywordPositionsF_some (kw : Str) (n base : Nat) (s : Str) {p : Nat}
    (h : findSub s kw = some p) :
    keywordPositionsF kw (n + 1) base s
      = (base + p) :: keywordPositionsF kw n (base + p + kw.length)
          (s.drop (p + kw.length)) := by
  simp only [keywordPositionsF, h]

/-- The keyword-position loop stops when the keyword is absent. -/
theorem keywordPositionsF_none (kw : Str) (n base : Nat) (s : Str)
    (h : findSub s kw = none) :
    keywordPositionsF kw (n + 1) base s = [] := by
  simp only [keywordPositionsF, h]

/-- Join-clause extraction on the join query's FROM section: the two bare
`JOIN` keywords are found and the section is sliced at them. -/
theorem extractJoin_qJ {b c : Str} (hbne : b ≠ [])
    (hb : ∀ x ∈ b, condChar x = true) (hcne : c ≠ [])
    (hc : ∀ x ∈ c, condChar x = true) :
    extractJoinClauses (" FROM ".data ++ ("a JOIN ".data ++ (b
        ++ (" ON i=j JOIN ".data ++ (c ++ " ON i=j".data)))))
      = ["JOIN ".data ++ (b ++ " ON i=j".data),
         "JOIN ".data ++ (c ++ " ON i=j".data)] := by
  have hfs2 : (" FROM ".data : Str) ++ ("a JOIN ".data ++ (b
      ++ (" ON i=j JOIN ".data ++ (c ++ " ON i=j".data))))
    = " FROM a JOIN ".data ++ (b ++ (" ON i=j JOIN ".data
        ++ (c ++ " ON i=j".data))) := rfl
  have mem5 : ∀ d : Char, condChar d = false →
      d ∉ " FROM a JOIN ".data → d ∉ " ON i=j JOIN ".data →
      d ∉ " ON i=j".data →
      d ∉ " FROM a JOIN ".data ++ (b ++ (" ON i=j JOIN ".data
        ++ (c ++ " ON i=j".data))) :=
    fun _ hd m1 m2 m3 => not_mem_alt5 hb hc hd m1 m2 m3
  have habs : ∀ kw : Str, findSub (" FROM a JOIN ".data ++ (b
      ++ (" ON i=j JOIN ".data ++ (c ++ " ON i=j".data)))) kw = none →
      keywordPositions kw (" FROM ".data ++ ("a JOIN ".data ++ (b
        ++ (" ON i=j JOIN ".data ++ (c ++ " ON i=j".data))))) = [] := by
    intro kw hnone
    unfold keywordPositions
    rw [hfs2]
    exact keywordPositionsF_none kw _ 0 _ hnone
  have hfind1 : findSub (" FROM a JOIN ".data ++ (b ++ (" ON i=j JOIN ".data
      ++ (c ++ " ON i=j".data)))) " JOIN ".data = some 7 :=
    findSub_append_left (by decide) _
  have hfind2 : findSub (b ++ (" ON i=j JOIN ".data ++ (c ++ " ON i=j".data)))
      " JOIN ".data = some (b.length + 7) := by
    have h0 : findSub (" ON i=j JOIN ".data ++ (c ++ " ON i=j".data))
        " JOIN ".data = some 7 := findSub_append_left (by decide) _
    exact findSub_append_right
      (cond_no_pat hb (show (' ' : Char) ∈ " JOIN ".data by decide) (by decide))
      (fun j hj0 _ hs _ => strad_left_all (by decide) hj0 (by decide) hb hs) h0
  have hfind3 : findSub (c ++ " ON i=j".data) " JOIN ".data = none :=
    findSub_none_of_not_occurs (occursSub_append_false
      (cond_no_pat hc (show (' ' : Char) ∈ " JOIN ".data by decide) (by decide))
      (by decide)
      (fun j hj0 _ hs _ => strad_left_all (by decide) hj0 (by decide) hc hs))
  have hdropfs : (" FROM a JOIN ".data ++ (b ++ (" ON i=j JOIN ".data
      ++ (c ++ " ON i=j".data)))).drop (7 + (" JOIN ".data : Str).length)
      = b ++ (" ON i=j JOIN ".data ++ (c ++ " ON i=j".data)) := by
    rw [List.drop_append_eq_append_drop]
    rfl
  have hdrop2 : (b ++ (" ON i=j JOIN ".data ++ (c ++ " ON i=j".data))).drop
      ((b.length + 7) + (" JOIN ".data : Str).length) = c ++ " ON i=j".data := by
    rw [show (b.length + 7) + (" JOIN ".data : Str).length = b.length + 13 from by
      simp only [show (" JOIN ".data : Str).length = 6 from rfl], List.drop_append 13]
    rfl
  have hJpos : keywordPositions " JOIN ".data (" FROM ".data ++ ("a JOIN ".data
      ++ (b ++ (" ON i=j JOIN ".data ++ (c ++ " ON i=j".data)))))
      = [7, 13 + (b.length + 7)] := by
    unfold keywordPositions
    rw [hfs2]
    rw [keywordPositionsF_some " JOIN ".data _ 0 _ hfind1]
    rw [hdropfs]
    rw [show (" FROM a JOIN ".data ++ (b ++ (" ON i=j JOIN ".data
        ++ (c ++ " ON i=j".data))) : Str).length
        = (b.length + (c.length + 32)) + 1 from by
      simp only [List.length_append,
        show (" FROM a JOIN ".data : Str).length = 13 from rfl,
        show (" ON i=j JOIN ".data : Str).length = 13 from rfl,
        show (" ON i=j".data : Str).length = 7 from rfl]
      omega]
    rw [keywordPositionsF_some " JOIN ".data _ _ _ hfind2]
    rw [hdrop2]
    rw [show b.length + (c.length + 32) = (b.length + (c.length + 31)) + 1 from by
      omega]
    rw [keywordPositionsF_none " JOIN ".data _ _ _ hfind3]
    norm_num
  unfold extractJoinClauses
  rw [show joinKeywords = [" LEFT OUTER JOIN ".data, " RIGHT OUTER JOIN ".data,
    " LEFT JOIN ".data, " RIGHT JOIN ".data, " INNER JOIN ".data,
    " JOIN ".data] from rfl]
  rw [List.map_cons, List.map_cons, List.map_cons, List.map_cons, List.map_cons,
    List.map_cons, List.map_nil]
  rw [habs _ (findSub_none_of_not_occurs (occursSub_false_of_not_mem
      (show ('L' : Char) ∈ " LEFT OUTER JOIN ".data by decide)
      (mem5 'L' (by decide) (by decide) (by decide) (by decide)))),
    habs _ (findSub_none_of_not_occurs (occursSub_false_of_not_mem
      (show ('G' : Char) ∈ " RIGHT OUTER JOIN ".data by decide)
      (mem5 'G' (by decide) (by decide) (by decide) (by decide)))),
    habs _ (findSub_none_of_not_occurs (occursSub_false_of_not_mem
      (show ('L' : Char) ∈ " LEFT JOIN ".data by decide)
      (mem5 'L' (by decide) (by decide) (by decide) (by decide)))),
    habs _ (findSub_none_of_not_occurs (occursSub_false_of_not_mem
      (show ('G' : Char) ∈ " RIGHT JOIN ".data by decide)
      (mem5 'G' (by decide) (by decide) (by decide) (by decide)))),
    habs _ (findSub_none_of_not_occurs (occursSub_false_of_not_mem
      (show ('E' : Char) ∈ " INNER JOIN ".data by decide)
      (mem5 'E' (by decide) (by decide) (by decide) (by decide)))),
    hJpos]
  simp only [List.flatten_cons, List.flatten_nil, List.nil_append, List.append_nil]
  have hlt2 : (decide (13 + (b.length + 7) < 7)) = false :=
    decide_eq_false (by omega)
  simp only [sortBy, insertBy, hlt2, Bool.false_eq_true, if_false]
  rw [show ([7, 13 + (b.length + 7)] : List Nat).length = 2 from rfl]
  rw [show List.range 2 = [0, 1] from rfl]
  simp only [List.map_cons, List.map_nil]
  rw [show ([7, 13 + (b.length + 7)] : List Nat).getD 0 0 = 7 from rfl]
  rw [if_pos (show 0 + 1 < 2 by norm_num)]
  rw [show ([7, 13 + (b.length + 7)] : List Nat).getD (0 + 1) 0
    = 13 + (b.length + 7) from rfl]
  rw [if_neg (show ¬(1 + 1 < 2) by norm_num)]
  have hassoc2 : (" FROM ".data : Str) ++ ("a JOIN ".data ++ (b
      ++ (" ON i=j JOIN ".data ++ (c ++ " ON i=j".data))))
      = (" FROM a JOIN ".data ++ (b ++ " ON i=j".data))
        ++ (" JOIN ".data ++ (c ++ " ON i=j".data)) := by
    rw [hfs2, show (" ON i=j JOIN ".data : Str)
      = " ON i=j".data ++ " JOIN ".data from rfl]
    simp [List.append_assoc]
  have hlen2 : 13 + (b.length + 7)
      = ((" FROM a JOIN ".data ++ (b ++ " ON i=j".data)) : Str).length := by
    simp only [List.length_append,
      show (" FROM a JOIN ".data : Str).length = 13 from rfl,
      show (" ON i=j".data : Str).length = 7 from rfl]
  have hsl1 : trimSpace (sliceGo (" FROM ".data ++ ("a JOIN ".data ++ (b
      ++ (" ON i=j JOIN ".data ++ (c ++ " ON i=j".data))))) 7
      (13 + (b.length + 7)))
      = "JOIN ".data ++ (b ++ " ON i=j".data) := by
    unfold sliceGo
    rw [hassoc2, hlen2, List.take_left, List.drop_append_eq_append_drop]
    show trimSpace (' ' :: ("JOIN ".data ++ (b ++ " ON i=j".data))) = _
    exact trim_joinclause b
  have hsl2 : trimSpace (sliceGo (" FROM ".data ++ ("a JOIN ".data ++ (b
      ++ (" ON i=j JOIN ".data ++ (c ++ " ON i=j".data)))))
      (13 + (b.length + 7))
      ((" FROM ".data ++ ("a JOIN ".data ++ (b
        ++ (" ON i=j JOIN ".data ++ (c ++ " ON i=j".data))))) : Str).length)
      = "JOIN ".data ++ (c ++ " ON i=j".data) := by
    unfold sliceGo
    rw [List.take_length, hassoc2, hlen2, List.drop_left]
    show trimSpace (' ' :: ("JOIN ".data ++ (c ++ " ON i=j".data))) = _
    exact trim_joinclause c
  rw [hsl1, hsl2]

/-- Classifying an extracted bare `JOIN` clause: type `INNER`, table name
as written. -/
theorem ejtt_qJ {x : Str} (hxne : x ≠ []) (hx : ∀ d ∈ x, condChar d = true) :
    extractJoinTypeAndTable ("JOIN ".data ++ (x ++ " ON i=j".data))
      = ("INNER".data, x) := by
  have hno : ∀ kw : Str, kw.head? = some 'L' ∨ kw.head? = some 'R'
      ∨ kw.head? = some 'I' →
      goHasPre ("JOIN ".data ++ (x ++ " ON i=j".data)) kw = false := by
    intro kw hkw
    cases hg : goHasPre ("JOIN ".data ++ (x ++ " ON i=j".data)) kw with
    | false => rfl
    | true =>
      have hpre : kw <+: "JOIN ".data ++ (x ++ " ON i=j".data) :=
        List.isPrefixOf_iff_prefix.mp hg
      obtain ⟨u, hu⟩ := hpre
      have hh := congrArg List.head? hu
      have hJhead : (("JOIN ".data : Str) ++ (x ++ " ON i=j".data)).head?
          = some 'J' := rfl
      rw [hJhead] at hh
      rcases hkw with hk | hk | hk <;>
        · rw [head?_append_left _ hk] at hh
          exact absurd hh (by decide)
  have htrue : goHasPre ("JOIN ".data ++ (x ++ " ON i=j".data)) "JOIN ".data
      = true :=
    List.isPrefixOf_iff_prefix.mpr (List.prefix_append _ _)
  have hdrop5 : (("JOIN ".data : Str) ++ (x ++ " ON i=j".data)).drop 5
      = x ++ " ON i=j".data := by
    rw [List.drop_append_eq_append_drop]
    rfl
  have hfsplit : findSub ((x ++ " ON ".data) ++ "i=j".data) " ON ".data
      = some x.length := by
    have h0 : findSub (" ON ".data ++ "i=j".data) " ON ".data = some 0 := by
      decide
    have h1 := findSub_append_right
      (cond_no_pat hx (show (' ' : Char) ∈ " ON ".data by decide) (by decide))
      (fun j hj0 _ hs _ => strad_left_all (by decide) hj0 (by decide) hx hs) h0
    rw [List.append_assoc]
    simpa using h1
  have hsplit : splitOnSub (x ++ " ON i=j".data) " ON ".data
      = [x, "i=j".data] := by
    rw [show (x ++ " ON i=j".data : Str) = (x ++ " ON ".data) ++ "i=j".data from by
      simp [List.append_assoc]]
    exact splitOnSub_two " ON ".data x "i=j".data (by decide) hfsplit (by decide)
  have hsfo : splitFirstOn ((("JOIN ".data : Str) ++ (x ++ " ON i=j".data)).drop 5)
      " ON ".data = x := by
    rw [hdrop5]
    unfold splitFirstOn
    rw [hsplit]
    rfl
  have hAS : findSub x " AS ".data = none :=
    findSub_none_of_not_occurs
      (cond_no_pat hx (show (' ' : Char) ∈ " AS ".data by decide) (by decide))
  unfold extractJoinTypeAndTable
  rw [hno _ (by decide), hno _ (by decide), hno _ (by decide), hno _ (by decide),
    hno _ (by decide)]
  simp only [Bool.false_eq_true, if_false, htrue, if_true, hsfo,
    cond_trimSpace hx, hAS]

/-- Sorting the two extracted join clauses is order-insensitive. -/
theorem sortedJoins_comm {b c : Str} (hbne : b ≠ [])
    (hb : ∀ x ∈ b, condChar x = true) (hcne : c ≠ [])
    (hc : ∀ x ∈ c, condChar x = true) :
    sortBy joinLt ["JOIN ".data ++ (b ++ " ON i=j".data),
        "JOIN ".data ++ (c ++ " ON i=j".data)]
      = sortBy joinLt ["JOIN ".data ++ (c ++ " ON i=j".data),
          "JOIN ".data ++ (b ++ " ON i=j".data)] := by
  have hJL : ∀ x y : Str, x ≠ [] → (∀ d ∈ x, condChar d = true) → y ≠ [] →
      (∀ d ∈ y, condChar d = true) →
      joinLt ("JOIN ".data ++ (x ++ " ON i=j".data))
        ("JOIN ".data ++ (y ++ " ON i=j".data)) = lexLt x y := by
    intro x y hxne hx hyne hy
    unfold joinLt
    rw [ejtt_qJ hxne hx, ejtt_qJ hyne hy]
    simp
  have h1 := hJL c b hcne hc hbne hb
  have h2 := hJL b c hbne hb hcne hc
  by_cases hbc : b = c
  · subst hbc
    rfl
  · show insertBy joinLt ("JOIN ".data ++ (b ++ " ON i=j".data))
        ["JOIN ".data ++ (c ++ " ON i=j".data)]
      = insertBy joinLt ("JOIN ".data ++ (c ++ " ON i=j".data))
        ["JOIN ".data ++ (b ++ " ON i=j".data)]
    simp only [insertBy]
    cases hcb : lexLt c b with
    | true =>
      simp only [h1, h2, hcb, lexLt_asymm hcb, if_true, Bool.false_eq_true,
        if_false]
    | false =>
      cases hbc2 : lexLt b c with
      | true =>
        simp only [h1, h2, hcb, hbc2, if_true, Bool.false_eq_true, if_false]
      | false => exact absurd (lexLt_conn hbc2 hcb) hbc

/-- Symbolic execution of `normalizeJoinOrder` on the join query: the two
bare JOIN clauses are extracted, sorted and re-emitted after `FROM a`. -/
theorem njo_qJ {b c : Str} (hbne : b ≠ []) (hb : ∀ x ∈ b, condChar x = true)
    (hcne : c ≠ []) (hc : ∀ x ∈ c, condChar x = true) :
    normalizeJoinOrder ("SELECT * FROM a JOIN ".data ++ (b
        ++ (" ON i=j JOIN ".data ++ (c ++ " ON i=j WHERE x=1".data))))
      = "SELECT *".data ++ " FROM ".data ++ ['a']
        ++ (List.map (fun j => ' ' :: j) (sortBy joinLt
            ["JOIN ".data ++ (b ++ " ON i=j".data),
             "JOIN ".data ++ (c ++ " ON i=j".data)])).flatten
        ++ " WHERE x=1".data := by
  have hfrom : findSub ("SELECT * FROM a JOIN ".data ++ (b
      ++ (" ON i=j JOIN ".data ++ (c ++ " ON i=j WHERE x=1".data))))
      " FROM ".data = some 8 := by
    rw [show ("SELECT * FROM a JOIN ".data : Str) ++ (b
        ++ (" ON i=j JOIN ".data ++ (c ++ " ON i=j WHERE x=1".data)))
      = "SELECT * FROM ".data ++ ("a JOIN ".data ++ (b
        ++ (" ON i=j JOIN ".data ++ (c ++ " ON i=j WHERE x=1".data)))) from rfl]
    exact findSub_append_left (by decide) _
  have hdrp : (("SELECT * FROM a JOIN ".data : Str) ++ (b
      ++ (" ON i=j JOIN ".data ++ (c ++ " ON i=j WHERE x=1".data)))).drop (8 + 6)
      = ("a JOIN ".data ++ (b ++ (" ON i=j JOIN ".data ++ (c ++ " ON i=j".data))))
        ++ " WHERE x=1".data := by
    have h1 : (("SELECT * FROM a JOIN ".data : Str) ++ (b
        ++ (" ON i=j JOIN ".data ++ (c ++ " ON i=j WHERE x=1".data)))).drop (8 + 6)
        = "a JOIN ".data ++ (b ++ (" ON i=j JOIN ".data
          ++ (c ++ " ON i=j WHERE x=1".data))) := by
      rw [List.drop_append_eq_append_drop]
      rfl
    rw [h1, show (" ON i=j WHERE x=1".data : Str)
      = " ON i=j".data ++ " WHERE x=1".data from rfl]
    simp [List.append_assoc]
  have hlastX : (("a JOIN ".data : Str) ++ (b ++ (" ON i=j JOIN ".data
      ++ (c ++ " ON i=j".data)))).getLast? = some 'j' := by
    rw [getLast?_append_of_ne_nil (app_ne_nil_right (app_ne_nil_right
        (app_ne_nil_right (by decide)))),
      getLast?_append_of_ne_nil (app_ne_nil_right (app_ne_nil_right (by decide))),
      getLast?_append_of_ne_nil (app_ne_nil_right (by decide)),
      getLast?_append_of_ne_nil (by decide)]
    rfl
  have hwr : findSub ((("a JOIN ".data : Str) ++ (b ++ (" ON i=j JOIN ".data
      ++ (c ++ " ON i=j".data)))) ++ " WHERE x=1".data) " WHERE ".data
      = some ((("a JOIN ".data : Str) ++ (b ++ (" ON i=j JOIN ".data
        ++ (c ++ " ON i=j".data)))).length + 0) :=
    findSub_append_right
      (occursSub_alt5 hbne hb hcne hc (by decide) (by decide) (by decide)
        (by decide) (by decide))
      (fun j hj0 _ hs _ => strad_left_concrete hlastX (by decide) hj0 (by decide) hs)
      (by decide)
  have hw : findSub ((("SELECT * FROM a JOIN ".data : Str) ++ (b
      ++ (" ON i=j JOIN ".data ++ (c ++ " ON i=j WHERE x=1".data)))).drop (8 + 6))
      " WHERE ".data
      = some ((("a JOIN ".data : Str) ++ (b ++ (" ON i=j JOIN ".data
        ++ (c ++ " ON i=j".data)))).length + 0) := by
    rw [hdrp]
    exact hwr
  have hq2 : ("SELECT * FROM a JOIN ".data : Str) ++ (b
      ++ (" ON i=j JOIN ".data ++ (c ++ " ON i=j WHERE x=1".data)))
      = ("SELECT * FROM ".data ++ ("a JOIN ".data ++ (b ++ (" ON i=j JOIN ".data
          ++ (c ++ " ON i=j".data))))) ++ " WHERE x=1".data := by
    rw [show ("SELECT * FROM a JOIN ".data : Str) ++ (b
        ++ (" ON i=j JOIN ".data ++ (c ++ " ON i=j WHERE x=1".data)))
      = "SELECT * FROM ".data ++ ("a JOIN ".data ++ (b
        ++ (" ON i=j JOIN ".data ++ (c ++ (" ON i=j".data
          ++ " WHERE x=1".data))))) from rfl]
    simp [List.append_assoc]
  have hlen14 : ((("a JOIN ".data : Str) ++ (b ++ (" ON i=j JOIN ".data
      ++ (c ++ " ON i=j".data)))).length + 0) + (8 + 6)
      = (("SELECT * FROM ".data ++ ("a JOIN ".data ++ (b
        ++ (" ON i=j JOIN ".data ++ (c ++ " ON i=j".data))))) : Str).length := by
    simp only [List.length_append, List.length_cons, List.length_nil]
    omega
  have htakeWI : (("SELECT * FROM a JOIN ".data : Str) ++ (b
      ++ (" ON i=j JOIN ".data ++ (c ++ " ON i=j WHERE x=1".data)))).take
      (((("a JOIN ".data : Str) ++ (b ++ (" ON i=j JOIN ".data
        ++ (c ++ " ON i=j".data)))).length + 0) + (8 + 6))
      = "SELECT * FROM ".data ++ ("a JOIN ".data ++ (b ++ (" ON i=j JOIN ".data
          ++ (c ++ " ON i=j".data)))) := by
    rw [hq2, hlen14, List.take_left]
  have hslice : sliceGo ("SELECT * FROM a JOIN ".data ++ (b
      ++ (" ON i=j JOIN ".data ++ (c ++ " ON i=j WHERE x=1".data)))) 8
      (((("a JOIN ".data : Str) ++ (b ++ (" ON i=j JOIN ".data
        ++ (c ++ " ON i=j".data)))).length + 0) + (8 + 6))
      = " FROM ".data ++ ("a JOIN ".data ++ (b ++ (" ON i=j JOIN ".data
          ++ (c ++ " ON i=j".data)))) := by
    unfold sliceGo
    rw [htakeWI, List.drop_append_eq_append_drop]
    rfl
  have hafter : (("SELECT * FROM a JOIN ".data : Str) ++ (b
      ++ (" ON i=j JOIN ".data ++ (c ++ " ON i=j WHERE x=1".data)))).drop
      (((("a JOIN ".data : Str) ++ (b ++ (" ON i=j JOIN ".data
        ++ (c ++ " ON i=j".data)))).length + 0) + (8 + 6))
      = " WHERE x=1".data := by
    rw [hq2, hlen14, List.drop_left]
  have hbefore : (("SELECT * FROM a JOIN ".data : Str) ++ (b
      ++ (" ON i=j JOIN ".data ++ (c ++ " ON i=j WHERE x=1".data)))).take 8
      = "SELECT *".data := by
    rw [List.take_append_eq_append_take]
    rfl
  have hjoins := extractJoin_qJ hbne hb hcne hc
  have hfirstJ : findSub (" FROM ".data ++ ("a JOIN ".data ++ (b
      ++ (" ON i=j JOIN ".data ++ (c ++ " ON i=j".data))))) " JOIN ".data
      = some 7 := by
    rw [show (" FROM ".data : Str) ++ ("a JOIN ".data ++ (b
        ++ (" ON i=j JOIN ".data ++ (c ++ " ON i=j".data))))
      = " FROM a JOIN ".data ++ (b ++ (" ON i=j JOIN ".data
          ++ (c ++ " ON i=j".data))) from rfl]
    exact findSub_append_left (by decide) _
  have hmain : trimSpace (sliceGo (" FROM ".data ++ ("a JOIN ".data ++ (b
      ++ (" ON i=j JOIN ".data ++ (c ++ " ON i=j".data))))) 6 7) = ['a'] := by
    rw [show (" FROM ".data : Str) ++ ("a JOIN ".data ++ (b
        ++ (" ON i=j JOIN ".data ++ (c ++ " ON i=j".data))))
      = " FROM a JOIN ".data ++ (b ++ (" ON i=j JOIN ".data
          ++ (c ++ " ON i=j".data))) from rfl]
    unfold sliceGo
    rw [List.take_append_eq_append_take]
    rfl
  unfold normalizeJoinOrder
  rw [hfrom]
  simp only [hw, hslice, hjoins, hfirstJ, hmain, hbefore, hafter]

/-- C4 (amended): the JOIN-reordering pass does make the ComparisonKey
insensitive to the source order of JOIN clauses when the reordered clauses
all use the same join keyword form with distinct table names: for **every**
pair of simple table-plus-alias texts `b`, `c` (nonempty strings over the
condition alphabet), swapping the two bare (INNER) `JOIN` clauses of
`SELECT * FROM a JOIN b ON i=j JOIN c ON i=j WHERE x=1` leaves the key
unchanged, and the spec's two concrete same-form swaps (two `LEFT JOIN`s,
two bare `JOIN`s) give equal keys. Mixing keyword forms can break it (see
the counterexample), and internally the extraction also cuts each
`LEFT JOIN` clause into a stray `LEFT` token plus a `JOIN …` clause rather
than the clause units the claim describes. -/
theorem c4_amended_commutativity :
    (∀ b c : Str, simpleCond b = true → simpleCond c = true →
      CompareQueries
          ("SELECT * FROM a JOIN ".data ++ (b ++ (" ON i=j JOIN ".data
            ++ (c ++ " ON i=j WHERE x=1".data))))
          ("SELECT * FROM a JOIN ".data ++ (c ++ (" ON i=j JOIN ".data
            ++ (b ++ " ON i=j WHERE x=1".data)))) = true)
    ∧ comparisonKey
        "SELECT * FROM a LEFT JOIN b ON b.id=a.id LEFT JOIN c ON c.id=a.id WHERE x=1"
      = comparisonKey
        "SELECT * FROM a LEFT JOIN c ON c.id=a.id LEFT JOIN b ON b.id=a.id WHERE x=1"
    ∧ comparisonKey
        "SELECT * FROM a JOIN b ON b.id=a.id JOIN c ON c.id=a.id WHERE x=1"
      = comparisonKey
        "SELECT * FROM a JOIN c ON c.id=a.id JOIN b ON b.id=a.id WHERE x=1" := by
  refine ⟨?_, by decide, by decide⟩
  intro b c hsb hsc
  obtain ⟨hbne, hball⟩ := simpleCond_iff hsb
  obtain ⟨hcne, hcall⟩ := simpleCond_iff hsc
  have hkey : normalizeForComparison ("SELECT * FROM a JOIN ".data
        ++ (b ++ (" ON i=j JOIN ".data ++ (c ++ " ON i=j WHERE x=1".data))))
      = normalizeForComparison ("SELECT * FROM a JOIN ".data
        ++ (c ++ (" ON i=j JOIN ".data ++ (b ++ " ON i=j WHERE x=1".data)))) := by
    show replaceAll (replaceAll (normalizeMainWhereClause (normalizeJoinOrder
        (normalizeLimitClause (utf8mb4Replace (replaceAll (basicNormalize
          ("SELECT * FROM a JOIN ".data ++ (b ++ (" ON i=j JOIN ".data
            ++ (c ++ " ON i=j WHERE x=1".data))))) [backtick] [])))))
        ['('] []) [')'] []
      = replaceAll (replaceAll (normalizeMainWhereClause (normalizeJoinOrder
        (normalizeLimitClause (utf8mb4Replace (replaceAll (basicNormalize
          ("SELECT * FROM a JOIN ".data ++ (c ++ (" ON i=j JOIN ".data
            ++ (b ++ " ON i=j WHERE x=1".data))))) [backtick] [])))))
        ['('] []) [')'] []
    rw [pre4_qJ hbne hball hcne hcall, pre4_qJ hcne hcall hbne hball,
      njo_qJ hbne hball hcne hcall, njo_qJ hcne hcall hbne hball,
      sortedJoins_comm hbne hball hcne hcall]
  unfold CompareQueries
  exact decide_eq_true hkey

/-- C4 amended, witness: the parameterized swap at `b := "b"`, `c := "c"`. -/
theorem c4_witness :
    CompareQueries
        ("SELECT * FROM a JOIN ".data ++ ("b".data ++ (" ON i=j JOIN ".data
          ++ ("c".data ++ " ON i=j WHERE x=1".data))))
        ("SELECT * FROM a JOIN ".data ++ ("c".data ++ (" ON i=j JOIN ".data
          ++ ("b".data ++ " ON i=j WHERE x=1".data)))) = true :=
  c4_amended_commutativity.1 "b".data "c".data (by decide) (by decide)

end GormGolden
